import Mathlib

/-!
lz4writer: a streaming LZ4 frame writer

A shallow embedding of `lz4fix.h` and `lz4writer.c` and the properties proved of it.

Bytes are natural numbers below 256 and buffers are lists of bytes.  Unsigned C arithmetic
is arithmetic on `Nat` reduced modulo `2 ^ 32` or `2 ^ 64` where the C type wraps.
-/

namespace Lz4writer

/-- Little-endian 32-bit load of the four bytes at `p` (`memcpy` then `le32toh`). -/
def XXH_read32 (p : List Nat) : Nat :=
  (p.getD 0 0 + p.getD 1 0 * 2 ^ 8 + p.getD 2 0 * 2 ^ 16 + p.getD 3 0 * 2 ^ 24) % 2 ^ 32

/-- 32-bit rotate left: `(x << r) | (x >> (32 - r))` on `unsigned`. -/
def XXH_rotl32 (x : Nat) (r : Nat) : Nat :=
  ((x <<< r) % 2 ^ 32) ||| (x >>> (32 - r))

/-- Hash 10 bytes with XXHash32 (the unrolled routine of `lz4fix.h`). -/
def XXH_hash10 (p : List Nat) : Nat :=
  let PRIME32_1 := 2654435761
  let PRIME32_2 := 2246822519
  let PRIME32_3 := 3266489917
  let PRIME32_4 := 668265263
  let PRIME32_5 := 374761393
  let h := (PRIME32_5 + 10) % 2 ^ 32
  let h := (h + XXH_read32 (p.drop 0) * PRIME32_3) % 2 ^ 32
  let h := (XXH_rotl32 h 17 * PRIME32_4) % 2 ^ 32
  let h := (h + XXH_read32 (p.drop 4) * PRIME32_3) % 2 ^ 32
  let h := (XXH_rotl32 h 17 * PRIME32_4) % 2 ^ 32
  let h := (h + p.getD 8 0 * PRIME32_5) % 2 ^ 32
  let h := (XXH_rotl32 h 11 * PRIME32_1) % 2 ^ 32
  let h := (h + p.getD 9 0 * PRIME32_5) % 2 ^ 32
  let h := (XXH_rotl32 h 11 * PRIME32_1) % 2 ^ 32
  let h := h ^^^ (h >>> 15)
  let h := (h * PRIME32_2) % 2 ^ 32
  let h := h ^^^ (h >>> 13)
  let h := (h * PRIME32_3) % 2 ^ 32
  let h := h ^^^ (h >>> 16)
  h

/-! ## The reference XXH32

The general XXH32 algorithm of the xxHash specification, for inputs of any length and any
seed, written independently of `XXH_hash10`: it is what `XXH_hash10` is compared with. -/

/-- First prime constant of XXH32. -/
def XXH_PRIME32_1 : Nat := 0x9E3779B1

/-- Second prime constant of XXH32. -/
def XXH_PRIME32_2 : Nat := 0x85EBCA77

/-- Third prime constant of XXH32. -/
def XXH_PRIME32_3 : Nat := 0xC2B2AE3D

/-- Fourth prime constant of XXH32. -/
def XXH_PRIME32_4 : Nat := 0x27D4EB2F

/-- Fifth prime constant of XXH32. -/
def XXH_PRIME32_5 : Nat := 0x165667B1

/-- Addition modulo 2^32. -/
def ref_add32 (a b : Nat) : Nat := (a + b) % 4294967296

/-- Multiplication modulo 2^32. -/
def ref_mul32 (a b : Nat) : Nat := (a * b) % 4294967296

/-- Rotation of a 32-bit word to the left by `r` bits, `0 < r < 32`. -/
def ref_rotl32 (x r : Nat) : Nat := (x * 2 ^ r) % 4294967296 + x / 2 ^ (32 - r)

/-- The 32-bit word whose little-endian bytes are `b0 b1 b2 b3`. -/
def ref_le32 (b0 b1 b2 b3 : Nat) : Nat := b0 + 256 * b1 + 65536 * b2 + 16777216 * b3

/-- One accumulator round of XXH32. -/
def ref_round (acc lane : Nat) : Nat :=
  ref_mul32 (ref_rotl32 (ref_add32 acc (ref_mul32 lane XXH_PRIME32_2)) 13) XXH_PRIME32_1

/-- Consumes the input in 16-byte stripes, one lane per accumulator, and returns the
accumulators with the unconsumed rest (fewer than 16 bytes). -/
def ref_stripes : List Nat → Nat × Nat × Nat × Nat → (Nat × Nat × Nat × Nat) × List Nat
  | a0 :: a1 :: a2 :: a3 :: b0 :: b1 :: b2 :: b3 :: c0 :: c1 :: c2 :: c3 :: d0 :: d1 :: d2 :: d3 :: rest,
    (v1, v2, v3, v4) =>
      ref_stripes rest
        (ref_round v1 (ref_le32 a0 a1 a2 a3), ref_round v2 (ref_le32 b0 b1 b2 b3),
         ref_round v3 (ref_le32 c0 c1 c2 c3), ref_round v4 (ref_le32 d0 d1 d2 d3))
  | tail, acc => (acc, tail)

/-- Consumes what the stripes left: 4-byte words first, then single bytes. -/
def ref_tail : List Nat → Nat → Nat
  | a :: b :: c :: d :: rest, h =>
      ref_tail rest (ref_mul32 (ref_rotl32 (ref_add32 h (ref_mul32 (ref_le32 a b c d) XXH_PRIME32_3)) 17) XXH_PRIME32_4)
  | [a, b, c], h => ref_tail [b, c] (ref_mul32 (ref_rotl32 (ref_add32 h (ref_mul32 a XXH_PRIME32_5)) 11) XXH_PRIME32_1)
  | [a, b], h => ref_tail [b] (ref_mul32 (ref_rotl32 (ref_add32 h (ref_mul32 a XXH_PRIME32_5)) 11) XXH_PRIME32_1)
  | [a], h => ref_mul32 (ref_rotl32 (ref_add32 h (ref_mul32 a XXH_PRIME32_5)) 11) XXH_PRIME32_1
  | [], h => h

/-- Final mix of XXH32. -/
def ref_avalanche (h : Nat) : Nat :=
  let h := ref_mul32 (h ^^^ (h / 2 ^ 15)) XXH_PRIME32_2
  let h := ref_mul32 (h ^^^ (h / 2 ^ 13)) XXH_PRIME32_3
  h ^^^ (h / 2 ^ 16)

/-- XXH32 of `input` with `seed`. -/
def XXH32_reference (input : List Nat) (seed : Nat) : Nat :=
  let acc :=
    if input.length < 16 then (ref_add32 seed XXH_PRIME32_5, input)
    else
      let r := ref_stripes input
        (ref_add32 (ref_add32 seed XXH_PRIME32_1) XXH_PRIME32_2, ref_add32 seed XXH_PRIME32_2,
         seed % 4294967296, (seed + 4294967296 - XXH_PRIME32_1) % 4294967296)
      (ref_add32 (ref_add32 (ref_rotl32 r.1.1 1) (ref_rotl32 r.1.2.1 7))
        (ref_add32 (ref_rotl32 r.1.2.2.1 12) (ref_rotl32 r.1.2.2.2 18)), r.2)
  ref_avalanche (ref_tail acc.2 (ref_add32 acc.1 input.length))

/-- Capacity of the frame header buffer: `LZ4F_HEADER_SIZE_MAX` of `lz4frame.h`, the value
for which `lz4writer_fdopen`'s assertion `zsize == sizeof zw->frameHeader - 8` holds for the
7-byte minimal header, and whose last index 14 is the one `lz4fix` stores the checksum at. -/
def LZ4F_HEADER_SIZE_MAX : Nat := 15

/-- The four bytes of `htole32 x` in memory order. -/
def htole32 (x : Nat) : List Nat :=
  [x % 256, x / 2 ^ 8 % 256, x / 2 ^ 16 % 256, x / 2 ^ 24 % 256]

/-- The eight bytes of `htole64 x` in memory order. -/
def htole64 (x : Nat) : List Nat :=
  [x % 256, x / 2 ^ 8 % 256, x / 2 ^ 16 % 256, x / 2 ^ 24 % 256,
   x / 2 ^ 32 % 256, x / 2 ^ 40 % 256, x / 2 ^ 48 % 256, x / 2 ^ 56 % 256]

/-- The call `memcpy(dst + off, src, n)` with `n = src.length`: bytes `off .. off + n - 1` of
`dst` are replaced, in place. -/
def memcpy (dst : List Nat) (off : Nat) : List Nat → List Nat
  | [] => dst
  | b :: bs => memcpy (dst.set off b) (off + 1) bs

/-- Store the content size field in LZ4 frame header.  Returns the `bool` result together
with the buffer as it stands on return. -/
def lz4fix (frameHeader : List Nat) (contentSize : Nat) : Bool × List Nat :=
  let magic := htole32 0x184D2204
  if frameHeader.take 4 ≠ magic then
    (false, frameHeader)
  else if frameHeader.getD 4 0 &&& 8 ≠ 0 then
    (false, frameHeader)
  else
    let frameHeader := frameHeader.set 4 (frameHeader.getD 4 0 ||| 8)
    let contentSize := htole64 (contentSize % 2 ^ 64)
    let frameHeader := memcpy frameHeader 6 contentSize
    let frameHeader :=
      frameHeader.set 14 ((XXH_hash10 (frameHeader.drop 4) >>> 8) % 256)
    (true, frameHeader)

/-! ## The environment: output channel, C library and compress engine

The writer talks to three collaborators that are not part of the repository: the file
descriptor (`write`, `lseek`, `close`), the allocator (`malloc`, `free`) and the LZ4 frame
library.  Their behaviour is a parameter of the model.  `World` holds the state of the first
two together with a chronological `trace` of every external call; `Engine` is the frame
library as a deterministic machine over its context. -/

/-- Value of `EINTR` on Linux. -/
def EINTR : Nat := 4

/-- Value of `EAGAIN` on Linux. -/
def EAGAIN : Nat := 11

/-- Outcome of one `write(2)` call as seen by the caller: the `ssize_t` it returns and the
`errno` it leaves behind when that is negative. -/
structure WriteRes where
  ret : Int
  errno : Nat
deriving DecidableEq, Repr

/-- The `whence` argument of `lseek`. -/
inductive Whence where
  | SEEK_SET
  | SEEK_CUR
deriving DecidableEq, Repr

/-- A `size_t` returned by the frame library: either an error code (`LZ4F_isError`) or the
number of bytes it stored in the destination buffer, given here as those bytes. -/
inductive ZRes where
  | error (code : Nat)
  | bytes (out : List Nat)
deriving DecidableEq, Repr

/-- The second slot of the error record: one of the three kinds of message the helpers
`ERRNO`, `ERRLZ4` and `ERRSTR` store. -/
inductive ErrMsg where
  | sys_errlist (errnum : Nat)
  | LZ4F_getErrorName (code : Nat)
  | str (s : String)
deriving DecidableEq, Repr

/-- The caller's `const char *err[2]`; a slot is `none` until something is stored in it. -/
structure ErrRec where
  err0 : Option String
  err1 : Option ErrMsg
deriving DecidableEq, Repr

/-- One external call, with its arguments and its result. -/
inductive Event where
  | malloc (ok : Bool)
  | free
  | lseek (fd : Int) (offset : Int) (whence : Whence) (ret : Int)
  | write (fd : Int) (buf : List Nat) (ret : Int)
  | close (fd : Int)
  | LZ4F_createCompressionContext (ok : Bool)
  | LZ4F_compressBegin (ret : ZRes)
  | LZ4F_compressUpdate (src : List Nat) (ret : ZRes)
  | LZ4F_compressEnd (ret : ZRes)
  | LZ4F_freeCompressionContext
deriving DecidableEq, Repr

/-- Everything outside the session object.  `script` lists the results of the next `write`
calls, oldest first; once it is used up the channel accepts every byte it is offered.
`seeks` and `mallocs` do the same for `lseek` and `malloc`: an entry `some e` makes the
call fail with `errno = e`, and calls beyond the list succeed.  `file` and `pos` are the
bytes behind the descriptor and its offset. -/
structure World where
  script : List WriteRes
  seeks : List (Option Nat)
  mallocs : List (Option Nat)
  sys_nerr : Nat
  pos : Nat
  file : List Nat
  errno : Nat
  err : ErrRec
  trace : List Event
deriving DecidableEq, Repr

/-- Why a run did not return: an `assert` failed, or the bound on the number of loop passes
that the model gives itself was reached (`xwrite_within_bound`,
`lz4writer_write_within_bound`: it never is). -/
inductive Stop where
  | assertion
  | bound
deriving DecidableEq, Repr

/-- Result of running a piece of the program: it returned `a` leaving the world `w`, or it
stopped in world `w` without returning. -/
inductive Run (α : Type) where
  | done (a : α) (w : World)
  | abort (why : Stop) (w : World)
deriving DecidableEq, Repr

/-- The world a run ends in. -/
def Run.world {α : Type} : Run α → World
  | Run.done _ w => w
  | Run.abort _ w => w

/-- The file after the bytes `bs` were stored at offset `pos` of `file`; a gap past the old
end reads as zeros, and storing nothing changes nothing. -/
def pwrite (file : List Nat) (pos : Nat) (bs : List Nat) : List Nat :=
  if bs = [] then file
  else
    (file ++ List.replicate (pos - file.length) 0).take pos ++ bs ++ file.drop (pos + bs.length)

/-- The call `write(fd, buf, size)` with `size = buf.length`. -/
def sys_write (fd : Int) (buf : List Nat) (w : World) : Int × World :=
  match w.script with
  | [] =>
    ((buf.length : Int),
      { w with file := pwrite w.file w.pos buf, pos := w.pos + buf.length,
               trace := w.trace ++ [Event.write fd buf buf.length] })
  | r :: rest =>
    if r.ret < 0 then
      (r.ret, { w with script := rest, errno := r.errno,
                       trace := w.trace ++ [Event.write fd buf r.ret] })
    else
      (r.ret, { w with script := rest, file := pwrite w.file w.pos (buf.take r.ret.toNat),
                       pos := w.pos + (buf.take r.ret.toNat).length,
                       trace := w.trace ++ [Event.write fd buf r.ret] })

/-- The two uses of `lseek` in the program: `lseek(fd, 0, SEEK_CUR)` and
`lseek(fd, pos, SEEK_SET)` with `pos >= 0`. -/
def sys_lseek (fd : Int) (offset : Int) (whence : Whence) (w : World) : Int × World :=
  match w.seeks with
  | some e :: rest =>
    (-1, { w with seeks := rest, errno := e,
                  trace := w.trace ++ [Event.lseek fd offset whence (-1)] })
  | l =>
    let target : Int :=
      match whence with
      | Whence.SEEK_SET => offset
      | Whence.SEEK_CUR => (w.pos : Int) + offset
    (target, { w with seeks := l.tail, pos := target.toNat,
                      trace := w.trace ++ [Event.lseek fd offset whence target] })

/-- The call `close(fd)`. -/
def sys_close (fd : Int) (w : World) : World :=
  { w with trace := w.trace ++ [Event.close fd] }

/-- The call `malloc(...)`: true when it returned a non-null pointer. -/
def sys_malloc (w : World) : Bool × World :=
  match w.mallocs with
  | some e :: rest =>
    (false, { w with mallocs := rest, errno := e, trace := w.trace ++ [Event.malloc false] })
  | l => (true, { w with mallocs := l.tail, trace := w.trace ++ [Event.malloc true] })

/-- The call `free(zw)`. -/
def sys_free (w : World) : World :=
  { w with trace := w.trace ++ [Event.free] }

/-- The fields of `LZ4F_preferences_t` the program sets; it zeroes all others. -/
structure LZ4F_preferences_t where
  compressionLevel : Int
  blockSizeID : Nat
  contentChecksumFlag : Bool
deriving DecidableEq, Repr

/-- Value of `LZ4F_max256KB` in `lz4frame.h`. -/
def LZ4F_max256KB : Nat := 5

/-- The LZ4 frame library as the program uses it.  A context is a value of `σ`; a call that
writes into a destination buffer returns the bytes it stored there. -/
structure Engine (σ : Type) where
  compressBound : Nat → LZ4F_preferences_t → Except Nat Nat
  createCompressionContext : Except Nat σ
  compressBegin : σ → Nat → LZ4F_preferences_t → ZRes × σ
  compressUpdate : σ → Nat → List Nat → ZRes × σ
  compressEnd : σ → Nat → ZRes × σ

/-- The call `LZ4F_createCompressionContext(&zctx, LZ4F_VERSION)`. -/
def LZ4F_createCompressionContext {σ : Type} (E : Engine σ) (w : World) :
    Except Nat σ × World :=
  match E.createCompressionContext with
  | Except.error zret =>
    (Except.error zret,
      { w with trace := w.trace ++ [Event.LZ4F_createCompressionContext false] })
  | Except.ok zctx =>
    (Except.ok zctx, { w with trace := w.trace ++ [Event.LZ4F_createCompressionContext true] })

/-- The call `LZ4F_compressBegin(zctx, dst, dstCapacity, &pref)`. -/
def LZ4F_compressBegin {σ : Type} (E : Engine σ) (zctx : σ) (dstCapacity : Nat)
    (pref : LZ4F_preferences_t) (w : World) : ZRes × σ × World :=
  ((E.compressBegin zctx dstCapacity pref).1, (E.compressBegin zctx dstCapacity pref).2,
    { w with trace :=
        w.trace ++ [Event.LZ4F_compressBegin (E.compressBegin zctx dstCapacity pref).1] })

/-- The call `LZ4F_compressUpdate(zctx, dst, dstCapacity, src, srcSize, NULL)`. -/
def LZ4F_compressUpdate {σ : Type} (E : Engine σ) (zctx : σ) (dstCapacity : Nat)
    (src : List Nat) (w : World) : ZRes × σ × World :=
  ((E.compressUpdate zctx dstCapacity src).1, (E.compressUpdate zctx dstCapacity src).2,
    { w with trace :=
        w.trace ++ [Event.LZ4F_compressUpdate src (E.compressUpdate zctx dstCapacity src).1] })

/-- The call `LZ4F_compressEnd(zctx, dst, dstCapacity, NULL)`. -/
def LZ4F_compressEnd {σ : Type} (E : Engine σ) (zctx : σ) (dstCapacity : Nat) (w : World) :
    ZRes × σ × World :=
  ((E.compressEnd zctx dstCapacity).1, (E.compressEnd zctx dstCapacity).2,
    { w with trace := w.trace ++ [Event.LZ4F_compressEnd (E.compressEnd zctx dstCapacity).1] })

/-- The call `LZ4F_freeCompressionContext(zctx)`. -/
def LZ4F_freeCompressionContext (w : World) : World :=
  { w with trace := w.trace ++ [Event.LZ4F_freeCompressionContext] }

/-! ## The writer (`lz4writer.c`) -/

/-- The loop of `xwrite`.  One unit of `fuel` is one pass through the body of the
`do ... while (size)` loop; `zero` and `buf` are the loop variables (`size = buf.length`).
A `continue` jumps to the test of `size`. -/
def xwrite_loop (fd : Int) : Nat → Bool → List Nat → World → Run Bool
  | 0, _, _, w => Run.abort Stop.bound w
  | fuel + 1, zero, buf, w =>
    match sys_write fd buf w with
    | (ret, w) =>
      if ret < 0 then
        if w.errno = EINTR then
          if buf.length ≠ 0 then xwrite_loop fd fuel zero buf w else Run.done true w
        else Run.done false w
      else if ret = 0 then
        if zero then
          -- write(2) keeps returning zero
          Run.done false { w with errno := EAGAIN }
        else if buf.length ≠ 0 then xwrite_loop fd fuel true buf w else Run.done true w
      else if ¬ (ret ≤ buf.length) then Run.abort Stop.assertion w
      else if (buf.drop ret.toNat).length ≠ 0 then
        xwrite_loop fd fuel false (buf.drop ret.toNat) w
      else Run.done true w

/-- Writes exactly size bytes.  Every pass of the loop consumes one scripted result, and
the first pass after the script is used up transfers all that is left, so
`w.script.length + 1` passes always suffice. -/
def xwrite (fd : Int) (buf : List Nat) (w : World) : Run Bool :=
  if buf.length = 0 then Run.abort Stop.assertion w
  else xwrite_loop fd (w.script.length + 1) false buf w

/-- A thread-safe strerror(3) replacement. -/
def xstrerror (sys_nerr : Nat) (errnum : Nat) : ErrMsg :=
  if errnum > 0 ∧ errnum < sys_nerr then ErrMsg.sys_errlist errnum
  else ErrMsg.str "Unknown error"

/-- The helper `ERRNO(func)`. -/
def ERRNO (func : String) (w : World) : World :=
  { w with err := { err0 := some func, err1 := some (xstrerror w.sys_nerr w.errno) } }

/-- The helper `ERRLZ4(func, ret)`. -/
def ERRLZ4 (func : String) (ret : Nat) (w : World) : World :=
  { w with err := { err0 := some func, err1 := some (ErrMsg.LZ4F_getErrorName ret) } }

/-- The helper `ERRSTR(str)`, with `__func__` passed explicitly. -/
def ERRSTR (func : String) (str : String) (w : World) : World :=
  { w with err := { err0 := some func, err1 := some (ErrMsg.str str) } }

/-- The session object `struct lz4writer`.  The scratch buffer `zbuf` is read only right
after an engine call has filled it, so its content travels in that call's `ZRes`. -/
structure lz4writer (σ : Type) where
  fd : Int
  error : Bool
  writeContentSize : Bool
  contentSize : Nat
  pos0 : Int
  zctx : σ
  frameHeader : List Nat
  zbufSize : Nat

/-- Big inputs are processed in 256K chunks. -/
def CHUNK : Nat := 256 <<< 10

/-- Opens a session on `fd`; `none` stands for the `NULL` return. -/
def lz4writer_fdopen {σ : Type} (E : Engine σ) (fd : Int) (compressionLevel : Int)
    (writeContentSize writeChecksum : Bool) (w : World) : Run (Option (lz4writer σ)) :=
  let pref : LZ4F_preferences_t :=
    { compressionLevel := compressionLevel, blockSizeID := LZ4F_max256KB,
      contentChecksumFlag := writeChecksum }
  match E.compressBound CHUNK pref with
  | Except.error _ => Run.abort Stop.assertion w
  | Except.ok zbufSize =>
    match sys_malloc w with
    | (false, w) => Run.done none (ERRNO "malloc" w)
    | (true, w) =>
      let seek : Int × World :=
        if writeContentSize then sys_lseek fd 0 Whence.SEEK_CUR w else (0, w)
      if writeContentSize ∧ seek.1 = -1 then
        Run.done none (sys_free (ERRNO "lseek" seek.2))
      else
        match LZ4F_createCompressionContext E seek.2 with
        | (Except.error zret, w) =>
          Run.done none (sys_free (ERRLZ4 "LZ4F_createCompressionContext" zret w))
        | (Except.ok zctx, w) =>
          match LZ4F_compressBegin E zctx LZ4F_HEADER_SIZE_MAX pref w with
          | (ZRes.error zsize, _, w) =>
            Run.done none
              (sys_free (LZ4F_freeCompressionContext (ERRLZ4 "LZ4F_compressBegin" zsize w)))
          | (ZRes.bytes out, zctx, w) =>
            let frameHeader := memcpy (List.replicate LZ4F_HEADER_SIZE_MAX 0) 0 out
            -- Content zsize is not known yet.
            if out.length ≠ LZ4F_HEADER_SIZE_MAX - 8 then Run.abort Stop.assertion w
            else
              let zsize := out.length + (if writeContentSize then 1 else 0) * 8
              match xwrite fd (frameHeader.take zsize) w with
              | Run.abort why w => Run.abort why w
              | Run.done false w =>
                Run.done none (sys_free (LZ4F_freeCompressionContext (ERRNO "write" w)))
              | Run.done true w =>
                Run.done
                  (some { fd := fd, error := false, writeContentSize := writeContentSize,
                          contentSize := 0, pos0 := seek.1, zctx := zctx,
                          frameHeader := frameHeader, zbufSize := zbufSize })
                  w

/-- The amount one pass of the loop of `lz4writer_write` takes off an input of `size`
bytes: `size < CHUNK ? size : CHUNK`. -/
def chunk_size (size : Nat) : Nat :=
  if size < CHUNK then size else CHUNK

/-- The `while (size)` loop of `lz4writer_write`; one unit of `fuel` is one pass. -/
def lz4writer_write_loop {σ : Type} (E : Engine σ) :
    Nat → lz4writer σ → List Nat → World → Run (Bool × lz4writer σ)
  | 0, zw, buf, w => if buf.length = 0 then Run.done (true, zw) w else Run.abort Stop.bound w
  | fuel + 1, zw, buf, w =>
    if buf.length = 0 then Run.done (true, zw) w
    else
      match LZ4F_compressUpdate E zw.zctx zw.zbufSize
          (buf.take (chunk_size buf.length)) w with
      | (ZRes.bytes [], zctx, w) =>
        lz4writer_write_loop E fuel { zw with zctx := zctx }
          (buf.drop (chunk_size buf.length)) w
      | (ZRes.error zsize, zctx, w) =>
        Run.done (false, { zw with zctx := zctx, error := true })
          (ERRLZ4 "LZ4F_compressUpdate" zsize w)
      | (ZRes.bytes out, zctx, w) =>
        match xwrite zw.fd out w with
        | Run.abort why w => Run.abort why w
        | Run.done false w =>
          Run.done (false, { zw with zctx := zctx, error := true }) (ERRNO "write" w)
        | Run.done true w =>
          lz4writer_write_loop E fuel { zw with zctx := zctx }
            (buf.drop (chunk_size buf.length)) w

/-- Feeds `buf` to the session.  Every pass of the loop removes at least one byte from
what is left, so `buf.length` passes always suffice. -/
def lz4writer_write {σ : Type} (E : Engine σ) (zw : lz4writer σ) (buf : List Nat)
    (w : World) : Run (Bool × lz4writer σ) :=
  if zw.error then
    Run.done (false, zw) (ERRSTR "lz4writer_write" "previous write failed" w)
  else
    lz4writer_write_loop E buf.length
      { zw with contentSize := (zw.contentSize + buf.length) % 2 ^ 64 } buf w

/-- Releases the session: `close(zw->fd)`, `LZ4F_freeCompressionContext(zw->zctx)`,
`free(zw)`. -/
def justClose {σ : Type} (zw : lz4writer σ) (w : World) : World :=
  sys_free (LZ4F_freeCompressionContext (sys_close zw.fd w))

/-- Finishes the frame and destroys the session. -/
def lz4writer_close {σ : Type} (E : Engine σ) (zw : lz4writer σ) (w : World) : Run Bool :=
  if zw.error then
    Run.done false (justClose zw (ERRSTR "lz4writer_close" "previous write failed" w))
  else
    match LZ4F_compressEnd E zw.zctx zw.zbufSize w with
    | (ZRes.error zsize, _, w) =>
      Run.done false
        (sys_free (LZ4F_freeCompressionContext (ERRLZ4 "LZ4F_compressEnd" zsize w)))
    | (ZRes.bytes out, _, w) =>
      if out.length = 0 then Run.abort Stop.assertion w
      else
        match xwrite zw.fd out w with
        | Run.abort why w => Run.abort why w
        | Run.done false w => Run.done false (justClose zw (ERRNO "write" w))
        | Run.done true w =>
          if ¬ zw.writeContentSize then Run.done true (justClose zw w)
          else
            match sys_lseek zw.fd zw.pos0 Whence.SEEK_SET w with
            | (pos, w) =>
              if pos = -1 then Run.done false (justClose zw (ERRNO "lseek" w))
              else if pos ≠ zw.pos0 then Run.abort Stop.assertion w
              else
                match lz4fix zw.frameHeader zw.contentSize with
                | (false, _) =>
                  Run.done false
                    (justClose zw (ERRSTR "lz4writer_close" "cannot fix lz4 frame header" w))
                | (true, frameHeader) =>
                  match xwrite zw.fd frameHeader w with
                  | Run.abort why w => Run.abort why w
                  | Run.done false w => Run.done false (justClose zw (ERRNO "write" w))
                  | Run.done true w => Run.done true (justClose zw w)

/-- A caller that issues one `lz4writer_write` per buffer of `bufs`, in order and whatever
the earlier calls returned, and collects the return values. -/
def lz4writer_write_all {σ : Type} (E : Engine σ) :
    lz4writer σ → List (List Nat) → World → Run (List Bool × lz4writer σ)
  | zw, [], w => Run.done ([], zw) w
  | zw, buf :: bufs, w =>
    match lz4writer_write E zw buf w with
    | Run.abort why w => Run.abort why w
    | Run.done (r, zw) w =>
      match lz4writer_write_all E zw bufs w with
      | Run.abort why w => Run.abort why w
      | Run.done (rs, zw) w => Run.done (r :: rs, zw) w

/-! ## Vocabulary for the statements

Readings of a trace, used to state what the program did. -/

/-- The bytes the channel accepted in one external call: the first `ret` bytes offered by a
`write` that returned `ret > 0`, nothing otherwise. -/
def Event.accepted : Event → List Nat
  | Event.write _ buf ret => if 0 < ret then buf.take ret.toNat else []
  | _ => []

/-- The bytes the channel accepted over a stretch of trace, in order. -/
def delivered : List Event → List Nat
  | [] => []
  | e :: evs => e.accepted ++ delivered evs

/-- The count a `write` returned when positive, zero for anything else. -/
def Event.progress : Event → Nat
  | Event.write _ _ ret => if 0 < ret then ret.toNat else 0
  | _ => 0

/-- Sum of the positive results of the `write` calls of a stretch of trace. -/
def progress : List Event → Nat
  | [] => 0
  | e :: evs => e.progress + progress evs

/-- Every event of the stretch is a `write` on `fd` that offers exactly what is left of
`buf` once the bytes accepted by the earlier attempts are taken off its front. -/
def offers_rest (fd : Int) : List Nat → List Event → Bool
  | _, [] => true
  | buf, Event.write fd2 b ret :: evs =>
    decide (fd2 = fd) && decide (b = buf) &&
      offers_rest fd (buf.drop (Event.write fd2 b ret).progress) evs
  | _, _ :: _ => false

/-- What counts as success for one external call: `malloc` and the engine calls return no
error, `lseek` does not return -1, `write` makes progress within what it was offered; the
engine moreover meets the two assertions made of it, a begin-frame header of
`LZ4F_HEADER_SIZE_MAX - 8` bytes and a non-empty end of frame. -/
def Event.succeeded : Event → Bool
  | Event.malloc ok => ok
  | Event.free => true
  | Event.lseek _ _ _ ret => decide (ret ≠ -1)
  | Event.write _ buf ret => decide (0 < ret) && decide (ret ≤ buf.length)
  | Event.close _ => true
  | Event.LZ4F_createCompressionContext ok => ok
  | Event.LZ4F_compressBegin (ZRes.bytes out) => decide (out.length = LZ4F_HEADER_SIZE_MAX - 8)
  | Event.LZ4F_compressBegin (ZRes.error _) => false
  | Event.LZ4F_compressUpdate _ (ZRes.bytes _) => true
  | Event.LZ4F_compressUpdate _ (ZRes.error _) => false
  | Event.LZ4F_compressEnd (ZRes.bytes out) => decide (out ≠ [])
  | Event.LZ4F_compressEnd (ZRes.error _) => false
  | Event.LZ4F_freeCompressionContext => true

/-- The inputs of the `LZ4F_compressUpdate` calls of a stretch of trace, in call order. -/
def update_inputs : List Event → List (List Nat)
  | [] => []
  | Event.LZ4F_compressUpdate src _ :: evs => src :: update_inputs evs
  | _ :: evs => update_inputs evs

/-- The bytes produced by each `LZ4F_compressUpdate` call of a stretch of trace, in call
order (nothing for a call that returned an error). -/
def update_outputs : List Event → List (List Nat)
  | [] => []
  | Event.LZ4F_compressUpdate _ (ZRes.bytes out) :: evs => out :: update_outputs evs
  | Event.LZ4F_compressUpdate _ (ZRes.error _) :: evs => [] :: update_outputs evs
  | _ :: evs => update_outputs evs

/-- The list `ups` cuts `buf` into consecutive pieces the way `lz4writer_write` cuts its
input: as many pieces as `buf.length / CHUNK` rounded up, none longer than `CHUNK`, all but
the last exactly `CHUNK` long. -/
def Chunked (buf : List Nat) (ups : List (List Nat)) : Prop :=
  ups.flatten = buf ∧ ups.length = (buf.length + CHUNK - 1) / CHUNK ∧
  (∀ c ∈ ups, c.length ≤ CHUNK) ∧ (∀ c ∈ ups.dropLast, c.length = CHUNK)

/-- Whether the event is an `lseek` call. -/
def Event.isSeek : Event → Bool
  | Event.lseek _ _ _ _ => true
  | _ => false

/-- Whether the event releases a resource of the session: `close`,
`LZ4F_freeCompressionContext` or `free`. -/
def Event.isRelease : Event → Bool
  | Event.close _ => true
  | Event.LZ4F_freeCompressionContext => true
  | Event.free => true
  | _ => false

/-- Whether a result of the frame library is an error code: `LZ4F_isError`. -/
def ZRes.isError : ZRes → Bool
  | ZRes.error _ => true
  | ZRes.bytes _ => false

/-- The world with its trace dropped: what a later call can observe. -/
def World.forget (w : World) : World := { w with trace := [] }

/-- A run with the trace of its final world dropped. -/
def Run.forget {α : Type} : Run α → Run α
  | Run.done a w => Run.done a w.forget
  | Run.abort why w => Run.abort why w.forget

/-- Whether the event is a `write` call. -/
def Event.isWrite : Event → Bool
  | Event.write _ _ _ => true
  | _ => false

/-- Whether a scripted result of `write` is an interrupted attempt: a negative return
with `errno` set to `EINTR`. -/
def WriteRes.interrupted (r : WriteRes) : Bool :=
  decide (r.ret < 0) && decide (r.errno = EINTR)

/-- A sequence of results of `write` with the interrupted attempts taken out. -/
def strip_eintr (s : List WriteRes) : List WriteRes :=
  s.filter (fun r => !r.interrupted)

/-- What the caller of a run sees: the value returned, or the reason it stopped. -/
def Run.outcome {α : Type} : Run α → Except Stop α
  | Run.done a _ => Except.ok a
  | Run.abort why _ => Except.error why

/-- Two runs end alike for the caller and for the channel: same outcome, same file content
and offset, and the same bytes accepted over the stretches of trace added to `tw` and `tv`. -/
def Run.alike (a b : Run Bool) (tw tv : List Event) : Prop :=
  a.outcome = b.outcome ∧ a.world.file = b.world.file ∧ a.world.pos = b.world.pos ∧
    ∃ ew ev, a.world.trace = tw ++ ew ∧ b.world.trace = tv ++ ev ∧
      delivered ew = delivered ev

/-! ## Engines and worlds for the concrete instances -/

/-- A world with nothing scripted: descriptor at offset 0 of an empty file. -/
def World.quiet : World :=
  { script := [], seeks := [], mallocs := [], sys_nerr := 134, pos := 0, file := [],
    errno := 0, err := { err0 := none, err1 := none }, trace := [] }

/-- An engine that plays back a fixed list of `LZ4F_compressUpdate` results (returning no
bytes once the list is used up) and a fixed `LZ4F_compressEnd` result; its begin-frame
header is the 7-byte header of a frame with 256 KiB independent blocks. -/
def scriptedEngine (ups : List ZRes) (finish : ZRes) : Engine (List ZRes) :=
  { compressBound := fun n _ => Except.ok (n + 19)
    createCompressionContext := Except.ok ups
    compressBegin := fun c _ _ => (ZRes.bytes [0x04, 0x22, 0x4D, 0x18, 0x60, 0x50, 0xFB], c)
    compressUpdate := fun c _ _ => (c.headD (ZRes.bytes []), c.tail)
    compressEnd := fun c _ => (finish, c) }

/-- A session as `lz4writer_fdopen` leaves it on descriptor 1 at offset `pos0`, with the
size field requested and the update results `ups` still to be played back. -/
def sampleSession (ups : List ZRes) (pos0 : Int) : lz4writer (List ZRes) :=
  { fd := 1, error := false, writeContentSize := true, contentSize := 0, pos0 := pos0,
    zctx := ups, frameHeader := [0x04, 0x22, 0x4D, 0x18, 0x60, 0x50, 0xFB, 0, 0, 0, 0, 0, 0, 0, 0],
    zbufSize := 262163 }

/-- A world whose descriptor stands at offset 2 of a 2-byte file and whose first `write`
is interrupted and second is short. -/
def World.bumpy : World :=
  { World.quiet with script := [⟨-1, 4⟩, ⟨3, 0⟩], pos := 2, file := [9, 9] }

/-! ## Header hash and header patch -/

theorem land_eight_eq_zero_iff (x : Nat) : x &&& 8 = 0 ↔ x.testBit 3 = false := by
  constructor
  · intro h
    have h3 := congrArg (fun y => Nat.testBit y 3) h
    have h8 : Nat.testBit 8 3 = true := by decide
    simp only [Nat.testBit_and, h8, Bool.and_true, Nat.zero_testBit] at h3
    exact h3
  · intro h
    apply Nat.eq_of_testBit_eq
    intro i
    rw [Nat.testBit_and]
    have h8 : (8 : Nat) = 2 ^ 3 := by norm_num
    rw [h8, Nat.testBit_two_pow]
    by_cases hi : 3 = i
    · subst hi; simp [h]
    · simp [hi]

theorem list_length_fifteen (l : List Nat) (h : l.length = 15) :
    ∃ b0 b1 b2 b3 b4 b5 b6 b7 b8 b9 b10 b11 b12 b13 b14,
      l = [b0, b1, b2, b3, b4, b5, b6, b7, b8, b9, b10, b11, b12, b13, b14] := by
  match l, h with
  | [b0, b1, b2, b3, b4, b5, b6, b7, b8, b9, b10, b11, b12, b13, b14], _ =>
    exact ⟨b0, b1, b2, b3, b4, b5, b6, b7, b8, b9, b10, b11, b12, b13, b14, rfl⟩

theorem list_length_ten (l : List Nat) (h : l.length = 10) :
    ∃ b0 b1 b2 b3 b4 b5 b6 b7 b8 b9, l = [b0, b1, b2, b3, b4, b5, b6, b7, b8, b9] := by
  match l, h with
  | [b0, b1, b2, b3, b4, b5, b6, b7, b8, b9], _ =>
    exact ⟨b0, b1, b2, b3, b4, b5, b6, b7, b8, b9, rfl⟩

theorem rotl32_eq_ref (x r : Nat) (hx : x < 2 ^ 32) (hr : r ≤ 32) :
    XXH_rotl32 x r = ref_rotl32 x r := by
  unfold XXH_rotl32 ref_rotl32
  have hp : (2:Nat) ^ 32 = 2 ^ r * 2 ^ (32 - r) := by
    rw [← pow_add]; congr 1; omega
  have h32 : (4294967296 : Nat) = 2 ^ r * 2 ^ (32 - r) := by
    rw [← hp]; norm_num
  rw [Nat.shiftLeft_eq, Nat.shiftRight_eq_div_pow]
  have e1 : x * 2 ^ r % 2 ^ 32 = 2 ^ r * (x % 2 ^ (32 - r)) := by
    rw [hp, Nat.mul_comm x, Nat.mul_mod_mul_left]
  have e2 : x * 2 ^ r % 4294967296 = 2 ^ r * (x % 2 ^ (32 - r)) := by
    rw [h32, Nat.mul_comm x, Nat.mul_mod_mul_left]
  rw [e1, e2]
  have hlt : x / 2 ^ (32 - r) < 2 ^ r := by
    rw [Nat.div_lt_iff_lt_mul (by positivity)]
    calc x < 2 ^ 32 := hx
      _ = 2 ^ r * 2 ^ (32 - r) := hp
  exact (Nat.mul_add_lt_is_or hlt _).symm

theorem hash10_step (h w P Q r : Nat) (hr : r ≤ 32) :
    (XXH_rotl32 ((h + w * P) % 2 ^ 32) r * Q) % 2 ^ 32 =
      ref_mul32 (ref_rotl32 (ref_add32 h (ref_mul32 w P)) r) Q := by
  rw [rotl32_eq_ref _ _ (Nat.mod_lt _ (by norm_num)) hr]
  unfold ref_mul32 ref_add32
  norm_num [Nat.add_mod]

theorem read32_eq_ref (a b c d : Nat) (l : List Nat)
    (ha : a < 256) (hb : b < 256) (hc : c < 256) (hd : d < 256) :
    XXH_read32 (a :: b :: c :: d :: l) = ref_le32 a b c d := by
  unfold XXH_read32 ref_le32
  simp only [List.getD_cons_zero, List.getD_cons_succ]
  omega

theorem hash10_refines (b0 b1 b2 b3 b4 b5 b6 b7 b8 b9 : Nat)
    (h0 : b0 < 256) (h1 : b1 < 256) (h2 : b2 < 256) (h3 : b3 < 256) (h4 : b4 < 256)
    (h5 : b5 < 256) (h6 : b6 < 256) (h7 : b7 < 256) :
    XXH_hash10 [b0, b1, b2, b3, b4, b5, b6, b7, b8, b9] =
      XXH32_reference [b0, b1, b2, b3, b4, b5, b6, b7, b8, b9] 0 := by
  have e0 : XXH_read32 [b0, b1, b2, b3, b4, b5, b6, b7, b8, b9] = ref_le32 b0 b1 b2 b3 :=
    read32_eq_ref _ _ _ _ _ h0 h1 h2 h3
  have e1 : XXH_read32 [b4, b5, b6, b7, b8, b9] = ref_le32 b4 b5 b6 b7 :=
    read32_eq_ref _ _ _ _ _ h4 h5 h6 h7
  simp only [XXH_hash10, List.drop_zero, List.drop_succ_cons, List.getD_cons_zero,
    List.getD_cons_succ, e0, e1, hash10_step _ _ _ _ _ (by norm_num : 17 ≤ 32),
    hash10_step _ _ _ _ _ (by norm_num : 11 ≤ 32)]
  simp only [XXH32_reference, List.length_cons, List.length_nil, ref_tail, ref_avalanche,
    Nat.shiftRight_eq_div_pow]
  norm_num [ref_add32, ref_mul32, XXH_PRIME32_1, XXH_PRIME32_2, XXH_PRIME32_3, XXH_PRIME32_4,
    XXH_PRIME32_5]

/-- C3: on every 10-byte input the unrolled `XXH_hash10` returns exactly the value of the
reference XXH32 algorithm with seed 0 applied to those 10 bytes. -/
theorem XXH_hash10_eq_reference (p : List Nat) (hlen : p.length = 10)
    (hbytes : ∀ b ∈ p, b < 256) : XXH_hash10 p = XXH32_reference p 0 := by
  obtain ⟨b0, b1, b2, b3, b4, b5, b6, b7, b8, b9, rfl⟩ := list_length_ten p hlen
  have hb : ∀ b, b ∈ [b0, b1, b2, b3, b4, b5, b6, b7, b8, b9] → b < 256 := hbytes
  exact hash10_refines b0 b1 b2 b3 b4 b5 b6 b7 b8 b9
    (hb b0 (by simp)) (hb b1 (by simp)) (hb b2 (by simp)) (hb b3 (by simp))
    (hb b4 (by simp)) (hb b5 (by simp)) (hb b6 (by simp)) (hb b7 (by simp))

theorem XXH_hash10_eq_reference_witness :
    XXH_hash10 [0x60, 0x50, 0, 0, 0, 0, 0, 0, 0, 0] =
      XXH32_reference [0x60, 0x50, 0, 0, 0, 0, 0, 0, 0, 0] 0 :=
  XXH_hash10_eq_reference [0x60, 0x50, 0, 0, 0, 0, 0, 0, 0, 0] (by decide) (by decide)

theorem lz4fix_ok_eq (b0 b1 b2 b3 b4 b5 b6 b7 b8 b9 b10 b11 b12 b13 b14 n : Nat)
    (hmagic : [b0, b1, b2, b3] = [0x04, 0x22, 0x4D, 0x18]) (hflag : b4.testBit 3 = false) :
    lz4fix [b0, b1, b2, b3, b4, b5, b6, b7, b8, b9, b10, b11, b12, b13, b14] n =
      (true, [b0, b1, b2, b3, b4 ||| 8, b5,
        n % 2 ^ 64 % 256, n % 2 ^ 64 / 2 ^ 8 % 256, n % 2 ^ 64 / 2 ^ 16 % 256,
        n % 2 ^ 64 / 2 ^ 24 % 256, n % 2 ^ 64 / 2 ^ 32 % 256, n % 2 ^ 64 / 2 ^ 40 % 256,
        n % 2 ^ 64 / 2 ^ 48 % 256, n % 2 ^ 64 / 2 ^ 56 % 256,
        (XXH_hash10 [b4 ||| 8, b5,
          n % 2 ^ 64 % 256, n % 2 ^ 64 / 2 ^ 8 % 256, n % 2 ^ 64 / 2 ^ 16 % 256,
          n % 2 ^ 64 / 2 ^ 24 % 256, n % 2 ^ 64 / 2 ^ 32 % 256, n % 2 ^ 64 / 2 ^ 40 % 256,
          n % 2 ^ 64 / 2 ^ 48 % 256, n % 2 ^ 64 / 2 ^ 56 % 256, b14] >>> 8) % 256]) := by
  have hf : b4 &&& 8 = 0 := (land_eight_eq_zero_iff b4).2 hflag
  have hm : List.take 4 [b0, b1, b2, b3, b4, b5, b6, b7, b8, b9, b10, b11, b12, b13, b14]
      = htole32 0x184D2204 := by
    simp only [List.take_succ_cons, List.take_zero, hmagic, htole32]
    norm_num
  unfold lz4fix
  simp only [hm, ne_eq, not_true_eq_false, if_false, List.getD_cons_zero, List.getD_cons_succ,
    hf, htole64, memcpy, List.set_cons_succ, List.set_cons_zero, List.drop_succ_cons,
    List.drop_zero]

theorem lz4fix_fail_eq (hdr : List Nat) (n : Nat)
    (h : hdr.take 4 ≠ [0x04, 0x22, 0x4D, 0x18] ∨ (hdr.getD 4 0).testBit 3 = true) :
    lz4fix hdr n = (false, hdr) := by
  have hm : htole32 0x184D2204 = [0x04, 0x22, 0x4D, 0x18] := by
    simp only [htole32]; norm_num
  unfold lz4fix
  rw [hm]
  by_cases h1 : hdr.take 4 = [0x04, 0x22, 0x4D, 0x18]
  · have h2 : (hdr.getD 4 0).testBit 3 = true := by
      cases h with
      | inl h => exact absurd h1 h
      | inr h => exact h
    have h3 : hdr.getD 4 0 &&& 8 ≠ 0 := by
      intro h0
      rw [(land_eight_eq_zero_iff _).1 h0] at h2
      exact Bool.false_ne_true h2
    simp only [h1, ne_eq, not_true_eq_false, if_false, h3, not_false_eq_true, if_true]
  · simp only [ne_eq, h1, not_false_eq_true, if_true]

theorem hash10_ignores_tail (a0 a1 a2 a3 a4 a5 a6 a7 a8 a9 : Nat) (l : List Nat) :
    XXH_hash10 (a0 :: a1 :: a2 :: a3 :: a4 :: a5 :: a6 :: a7 :: a8 :: a9 :: l) =
      XXH_hash10 [a0, a1, a2, a3, a4, a5, a6, a7, a8, a9] := by
  simp only [XXH_hash10, XXH_read32, List.drop_zero, List.drop_succ_cons, List.getD_cons_zero,
    List.getD_cons_succ]

/-- C2: on a 15-byte header that starts with the little-endian magic 0x184D2204 and has
bit 3 of byte 4 clear, `lz4fix` returns true; the patched header has byte 4 equal to the old
byte 4 OR 8 and byte 6+i equal to (n >> 8i) mod 256 for i = 0..7, and every byte outside
positions 4 and 6..14 (bytes 0..3 and 5) is unchanged. -/
theorem lz4fix_stores_size (hdr : List Nat) (n : Nat) (hlen : hdr.length = 15)
    (hmagic : hdr.take 4 = [0x04, 0x22, 0x4D, 0x18])
    (hflag : (hdr.getD 4 0).testBit 3 = false) (hn : n < 2 ^ 64) :
    (lz4fix hdr n).1 = true ∧
    (lz4fix hdr n).2.length = 15 ∧
    (lz4fix hdr n).2.getD 4 0 = hdr.getD 4 0 ||| 8 ∧
    (∀ i, i < 8 → (lz4fix hdr n).2.getD (6 + i) 0 = (n >>> (8 * i)) % 256) ∧
    (∀ i, i ≠ 4 → ¬ (6 ≤ i ∧ i ≤ 14) → (lz4fix hdr n).2[i]? = hdr[i]?) := by
  obtain ⟨b0, b1, b2, b3, b4, b5, b6, b7, b8, b9, b10, b11, b12, b13, b14, rfl⟩ :=
    list_length_fifteen hdr hlen
  simp only [List.take_succ_cons, List.take_zero] at hmagic
  simp only [List.getD_cons_zero, List.getD_cons_succ] at hflag
  rw [lz4fix_ok_eq _ _ _ _ _ _ _ _ _ _ _ _ _ _ _ _ hmagic hflag, Nat.mod_eq_of_lt hn]
  refine ⟨rfl, rfl, rfl, ?_, ?_⟩
  · intro i hi
    interval_cases i <;>
      simp only [List.getD_cons_zero, List.getD_cons_succ, Nat.shiftRight_eq_div_pow,
        Nat.mul_zero, Nat.pow_zero, Nat.div_one, Nat.reduceMul, Nat.reduceAdd]
  · intro i h4 h6
    have hi : i < 4 ∨ i = 5 ∨ 15 ≤ i := by omega
    rcases hi with hi | rfl | hi
    · interval_cases i <;> rfl
    · rfl
    · rw [List.getElem?_eq_none (by simpa using hi), List.getElem?_eq_none (by simpa using hi)]

theorem lz4fix_stores_size_witness :
    (lz4fix [0x04, 0x22, 0x4D, 0x18, 0x60, 0x50, 0xFB, 0, 0, 0, 0, 0, 0, 0, 0] 11).1 = true ∧
    (lz4fix [0x04, 0x22, 0x4D, 0x18, 0x60, 0x50, 0xFB, 0, 0, 0, 0, 0, 0, 0, 0] 11).2.length
      = 15 :=
  let h := lz4fix_stores_size [0x04, 0x22, 0x4D, 0x18, 0x60, 0x50, 0xFB, 0, 0, 0, 0, 0, 0, 0, 0]
    11 (by decide) (by decide) (by decide) (by decide)
  ⟨h.1, h.2.1⟩

theorem lz4fix_true_iff (hdr : List Nat) (n : Nat) :
    (lz4fix hdr n).1 = true ↔
      (hdr.take 4 = [0x04, 0x22, 0x4D, 0x18] ∧ (hdr.getD 4 0).testBit 3 = false) := by
  constructor
  · intro h
    by_contra hc
    have hbad : hdr.take 4 ≠ [0x04, 0x22, 0x4D, 0x18] ∨ (hdr.getD 4 0).testBit 3 = true := by
      by_cases h1 : hdr.take 4 = [0x04, 0x22, 0x4D, 0x18]
      · right
        cases hb : (hdr.getD 4 0).testBit 3
        · exact absurd ⟨h1, hb⟩ hc
        · rfl
      · left; exact h1
    rw [lz4fix_fail_eq hdr n hbad] at h
    exact Bool.false_ne_true h
  · rintro ⟨h1, h2⟩
    have hm : htole32 0x184D2204 = [0x04, 0x22, 0x4D, 0x18] := by
      simp only [htole32]; norm_num
    have hf : hdr.getD 4 0 &&& 8 = 0 := (land_eight_eq_zero_iff _).2 h2
    unfold lz4fix
    simp only [hm, h1, ne_eq, not_true_eq_false, if_false, hf]

/-- C4: whenever `lz4fix` succeeds on a 15-byte header, for any content size, the byte it
stores at offset 14 is the LZ4 frame header checksum recomputed from the patched header:
byte 1 of the reference XXH32 (seed 0) of patched bytes 4..13, i.e. (hash >> 8) mod 256. -/
theorem lz4fix_checksum_matches (hdr : List Nat) (n : Nat) (hlen : hdr.length = 15)
    (hbytes : ∀ b ∈ hdr, b < 256) (hok : (lz4fix hdr n).1 = true) :
    (lz4fix hdr n).2.getD 14 0 =
      (XXH32_reference (((lz4fix hdr n).2.drop 4).take 10) 0 >>> 8) % 256 := by
  obtain ⟨hmagic, hflag⟩ := (lz4fix_true_iff hdr n).1 hok
  obtain ⟨b0, b1, b2, b3, b4, b5, b6, b7, b8, b9, b10, b11, b12, b13, b14, rfl⟩ :=
    list_length_fifteen hdr hlen
  simp only [List.take_succ_cons, List.take_zero] at hmagic
  simp only [List.getD_cons_zero, List.getD_cons_succ] at hflag
  have hb4 : b4 < 2 ^ 8 := hbytes b4 (by simp)
  have hb5 : b5 < 256 := hbytes b5 (by simp)
  have h48 : b4 ||| 8 < 2 ^ 8 := Nat.or_lt_two_pow hb4 (by norm_num)
  rw [lz4fix_ok_eq _ _ _ _ _ _ _ _ _ _ _ _ _ _ _ _ hmagic hflag, hash10_ignores_tail]
  simp only [List.getD_cons_zero, List.getD_cons_succ, List.drop_succ_cons, List.drop_zero,
    List.take_succ_cons, List.take_zero]
  rw [hash10_refines _ _ _ _ _ _ _ _ _ _ h48 hb5 (Nat.mod_lt _ (by norm_num))
    (Nat.mod_lt _ (by norm_num)) (Nat.mod_lt _ (by norm_num)) (Nat.mod_lt _ (by norm_num))
    (Nat.mod_lt _ (by norm_num)) (Nat.mod_lt _ (by norm_num))]

theorem lz4fix_checksum_matches_witness :
    (lz4fix [0x04, 0x22, 0x4D, 0x18, 0x60, 0x50, 0xFB, 0, 0, 0, 0, 0, 0, 0, 0]
        (2 ^ 64 - 1)).2.getD 14 0 =
      (XXH32_reference (((lz4fix [0x04, 0x22, 0x4D, 0x18, 0x60, 0x50, 0xFB, 0, 0, 0, 0, 0, 0, 0, 0]
        (2 ^ 64 - 1)).2.drop 4).take 10) 0 >>> 8) % 256 :=
  lz4fix_checksum_matches [0x04, 0x22, 0x4D, 0x18, 0x60, 0x50, 0xFB, 0, 0, 0, 0, 0, 0, 0, 0]
    (2 ^ 64 - 1) (by decide) (by decide) (by decide)

/-- C5: when bytes 0..3 differ from the little-endian magic 0x184D2204, or byte 4 already
has bit 3 set, `lz4fix` returns false and leaves every byte of the buffer unchanged; it
returns true exactly when the magic matches and bit 3 of byte 4 is clear. -/
theorem lz4fix_rejects_unchanged (hdr : List Nat) (n : Nat) :
    ((hdr.take 4 ≠ [0x04, 0x22, 0x4D, 0x18] ∨ (hdr.getD 4 0).testBit 3 = true) →
      lz4fix hdr n = (false, hdr)) ∧
    ((lz4fix hdr n).1 = true ↔
      (hdr.take 4 = [0x04, 0x22, 0x4D, 0x18] ∧ (hdr.getD 4 0).testBit 3 = false)) :=
  ⟨lz4fix_fail_eq hdr n, lz4fix_true_iff hdr n⟩

theorem lz4fix_rejects_unchanged_witness :
    lz4fix [0x04, 0x22, 0x4D, 0x18, 0x68, 0x50, 0, 0, 0, 0, 0, 0, 0, 0, 0x7F] 11 =
      (false, [0x04, 0x22, 0x4D, 0x18, 0x68, 0x50, 0, 0, 0, 0, 0, 0, 0, 0, 0x7F]) :=
  (lz4fix_rejects_unchanged [0x04, 0x22, 0x4D, 0x18, 0x68, 0x50, 0, 0, 0, 0, 0, 0, 0, 0, 0x7F]
    11).1 (Or.inr (by decide))

/-- C6: after `lz4fix` has succeeded on a 15-byte header, applying it again to the patched
header, with any content size, returns false and leaves the patched header unchanged. -/
theorem lz4fix_twice_fails (hdr : List Nat) (n m : Nat) (hlen : hdr.length = 15)
    (hok : (lz4fix hdr n).1 = true) :
    lz4fix (lz4fix hdr n).2 m = (false, (lz4fix hdr n).2) := by
  obtain ⟨hmagic, hflag⟩ := (lz4fix_true_iff hdr n).1 hok
  obtain ⟨b0, b1, b2, b3, b4, b5, b6, b7, b8, b9, b10, b11, b12, b13, b14, rfl⟩ :=
    list_length_fifteen hdr hlen
  simp only [List.take_succ_cons, List.take_zero] at hmagic
  simp only [List.getD_cons_zero, List.getD_cons_succ] at hflag
  rw [lz4fix_ok_eq _ _ _ _ _ _ _ _ _ _ _ _ _ _ _ _ hmagic hflag]
  apply lz4fix_fail_eq
  right
  simp only [List.getD_cons_zero, List.getD_cons_succ, Nat.testBit_or]
  have h8 : Nat.testBit 8 3 = true := by decide
  rw [h8, Bool.or_true]

theorem lz4fix_twice_fails_witness :
    lz4fix (lz4fix [0x04, 0x22, 0x4D, 0x18, 0x60, 0x50, 0xFB, 0, 0, 0, 0, 0, 0, 0, 0] 11).2 12 =
      (false, (lz4fix [0x04, 0x22, 0x4D, 0x18, 0x60, 0x50, 0xFB, 0, 0, 0, 0, 0, 0, 0, 0] 11).2) :=
  lz4fix_twice_fails [0x04, 0x22, 0x4D, 0x18, 0x60, 0x50, 0xFB, 0, 0, 0, 0, 0, 0, 0, 0] 11 12
    (by decide) (by decide)

/-! ## The output channel -/

theorem pwrite_nil (file : List Nat) (pos : Nat) : pwrite file pos [] = file := by
  simp [pwrite]

theorem pwrite_length_ge (file : List Nat) (pos : Nat) (bs : List Nat) (h : bs ≠ []) :
    pos + bs.length ≤ (pwrite file pos bs).length := by
  simp only [pwrite, h, if_false, List.length_append, List.length_take, List.length_replicate,
    List.length_drop]
  omega

theorem pwrite_append (file : List Nat) (pos : Nat) (a b : List Nat) :
    pwrite (pwrite file pos a) (pos + a.length) b = pwrite file pos (a ++ b) := by
  by_cases ha : a = []
  · subst ha; simp [pwrite_nil]
  by_cases hb : b = []
  · subst hb; simp [pwrite_nil]
  have hab : a ++ b ≠ [] := by simp [ha]
  have hlen := pwrite_length_ge file pos a ha
  have hpre : ((file ++ List.replicate (pos - file.length) 0).take pos).length = pos := by
    simp only [List.length_take, List.length_append, List.length_replicate]; omega
  have h1 : (pwrite file pos a ++ List.replicate (pos + a.length - (pwrite file pos a).length) 0).take
      (pos + a.length) = (file ++ List.replicate (pos - file.length) 0).take pos ++ a := by
    have hz : pos + a.length - (pwrite file pos a).length = 0 := by omega
    rw [hz, List.replicate_zero, List.append_nil]
    simp only [pwrite, ha, if_false]
    rw [List.take_append_eq_append_take, List.take_of_length_le (by
      simp only [List.length_append, hpre]; omega)]
    simp only [List.length_append, hpre]
    simp
  have h2 : (pwrite file pos a).drop (pos + a.length + b.length) =
      file.drop (pos + (a ++ b).length) := by
    simp only [pwrite, ha, if_false]
    rw [List.drop_append_eq_append_drop, List.drop_of_length_le (by
      simp only [List.length_append, hpre]; omega)]
    simp only [List.length_append, hpre, List.nil_append, List.drop_drop]
    congr 1; omega
  conv_lhs => rw [pwrite]
  simp only [hb, if_false, h1, h2]
  simp only [pwrite, hab, if_false, List.append_assoc]

theorem pwrite_read (file : List Nat) (pos : Nat) (bs : List Nat) :
    ((pwrite file pos bs).drop pos).take bs.length = bs := by
  by_cases hb : bs = []
  · subst hb; simp
  have hpre : ((file ++ List.replicate (pos - file.length) 0).take pos).length = pos := by
    simp only [List.length_take, List.length_append, List.length_replicate]; omega
  simp only [pwrite, hb, if_false, List.append_assoc]
  rw [List.drop_append_eq_append_drop, List.drop_of_length_le (by omega)]
  simp [hpre]

/-! ## `xwrite` -/

theorem sys_write_trace (fd : Int) (buf : List Nat) (w : World) :
    (sys_write fd buf w).2.trace = w.trace ++ [Event.write fd buf (sys_write fd buf w).1] := by
  unfold sys_write
  split
  · rfl
  · split <;> rfl

theorem sys_write_script (fd : Int) (buf : List Nat) (w : World) :
    (sys_write fd buf w).2.script = w.script.tail := by
  unfold sys_write
  split
  · next h => simp [h]
  · next r rest h => split <;> simp [h]

theorem sys_write_ideal (fd : Int) (buf : List Nat) (w : World) (h : w.script = []) :
    (sys_write fd buf w).1 = buf.length := by
  unfold sys_write
  simp [h]

theorem sys_write_frame (fd : Int) (buf : List Nat) (w : World) :
    (sys_write fd buf w).2.seeks = w.seeks ∧ (sys_write fd buf w).2.mallocs = w.mallocs ∧
    (sys_write fd buf w).2.sys_nerr = w.sys_nerr ∧ (sys_write fd buf w).2.err = w.err := by
  unfold sys_write
  split
  · exact ⟨rfl, rfl, rfl, rfl⟩
  · split <;> exact ⟨rfl, rfl, rfl, rfl⟩

theorem sys_write_neg (fd : Int) (buf : List Nat) (w : World)
    (h : (sys_write fd buf w).1 < 0) :
    (sys_write fd buf w).2.file = w.file ∧ (sys_write fd buf w).2.pos = w.pos := by
  unfold sys_write at h ⊢
  split
  · next hs => simp [hs] at h; omega
  · next r rest hs =>
    simp only [hs] at h
    split
    · exact ⟨rfl, rfl⟩
    · next hr => simp [hr] at h

theorem sys_write_nonneg (fd : Int) (buf : List Nat) (w : World)
    (h : 0 ≤ (sys_write fd buf w).1) :
    (sys_write fd buf w).2.file = pwrite w.file w.pos (buf.take (sys_write fd buf w).1.toNat) ∧
    (sys_write fd buf w).2.pos = w.pos + (buf.take (sys_write fd buf w).1.toNat).length ∧
    (sys_write fd buf w).2.errno = w.errno := by
  unfold sys_write at h ⊢
  split
  · simp
  · next r rest hs =>
    simp only [hs] at h
    split
    · next hr => simp only [hr, if_true] at h; omega
    · exact ⟨rfl, rfl, rfl⟩

theorem xwrite_loop_succ (fd : Int) (fuel : Nat) (zero : Bool) (buf : List Nat) (w : World) :
    xwrite_loop fd (fuel + 1) zero buf w =
      if (sys_write fd buf w).1 < 0 then
        if (sys_write fd buf w).2.errno = EINTR then
          if buf.length ≠ 0 then xwrite_loop fd fuel zero buf (sys_write fd buf w).2
          else Run.done true (sys_write fd buf w).2
        else Run.done false (sys_write fd buf w).2
      else if (sys_write fd buf w).1 = 0 then
        if zero then Run.done false { (sys_write fd buf w).2 with errno := EAGAIN }
        else if buf.length ≠ 0 then xwrite_loop fd fuel true buf (sys_write fd buf w).2
        else Run.done true (sys_write fd buf w).2
      else if ¬ ((sys_write fd buf w).1 ≤ buf.length) then
        Run.abort Stop.assertion (sys_write fd buf w).2
      else if (buf.drop (sys_write fd buf w).1.toNat).length ≠ 0 then
        xwrite_loop fd fuel false (buf.drop (sys_write fd buf w).1.toNat) (sys_write fd buf w).2
      else Run.done true (sys_write fd buf w).2 := by
  rfl

theorem progress_append (xs ys : List Event) :
    progress (xs ++ ys) = progress xs + progress ys := by
  induction xs with
  | nil => simp [progress]
  | cons e xs ih => simp [progress, ih, Nat.add_assoc]

theorem delivered_append (xs ys : List Event) :
    delivered (xs ++ ys) = delivered xs ++ delivered ys := by
  induction xs with
  | nil => simp [delivered]
  | cons e xs ih => simp [delivered, ih]

theorem write_progress_nonpos (fd : Int) (buf : List Nat) (ret : Int) (h : ret ≤ 0) :
    (Event.write fd buf ret).progress = 0 ∧ (Event.write fd buf ret).accepted = [] := by
  have : ¬ (0 < ret) := by omega
  simp [Event.progress, Event.accepted, this]

theorem write_progress_pos (fd : Int) (buf : List Nat) (ret : Int) (h : 0 < ret) :
    (Event.write fd buf ret).progress = ret.toNat ∧
      (Event.write fd buf ret).accepted = buf.take ret.toNat := by
  simp [Event.progress, Event.accepted, h]

theorem length_eq_zero_of_not_ne {buf : List Nat} (hb : ¬ buf.length ≠ 0) : buf = [] := by
  cases buf with
  | nil => rfl
  | cons a l => simp at hb

/-- What a successful `xwrite` loop has done, seen from the loop state it started in. -/
theorem xwrite_loop_true (fd : Int) : ∀ (fuel : Nat) (zero : Bool) (buf : List Nat)
    (w w' : World), xwrite_loop fd fuel zero buf w = Run.done true w' →
    ∃ evs, w'.trace = w.trace ++ evs ∧ progress evs = buf.length ∧ delivered evs = buf ∧
      offers_rest fd buf evs = true ∧
      w'.file = pwrite w.file w.pos buf ∧ w'.pos = w.pos + buf.length := by
  intro fuel
  induction fuel with
  | zero => intro zero buf w w' h; simp [xwrite_loop] at h
  | succ fuel ih =>
    intro zero buf w w' h
    rw [xwrite_loop_succ] at h
    have htr := sys_write_trace fd buf w
    by_cases hneg : (sys_write fd buf w).1 < 0
    · have hf := sys_write_neg fd buf w hneg
      have hp := write_progress_nonpos fd buf (sys_write fd buf w).1 (by omega)
      simp only [hneg, if_true] at h
      by_cases he : (sys_write fd buf w).2.errno = EINTR
      · simp only [he, if_true] at h
        by_cases hb : buf.length ≠ 0
        · rw [if_pos hb] at h
          obtain ⟨evs, h1, h2, h3, h4, h5, h6⟩ := ih zero buf _ w' h
          refine ⟨Event.write fd buf (sys_write fd buf w).1 :: evs, ?_, ?_, ?_, ?_, ?_, ?_⟩
          · rw [h1, htr]; simp
          · simp [progress, hp.1, h2]
          · simp [delivered, hp.2, h3]
          · simp [offers_rest, hp.1, h4]
          · rw [h5, hf.1, hf.2]
          · rw [h6, hf.2]
        · rw [if_neg hb] at h
          have hnil := length_eq_zero_of_not_ne hb
          subst hnil
          injection h with _ hw
          subst hw
          refine ⟨[Event.write fd [] (sys_write fd [] w).1], htr, ?_, ?_, ?_, ?_, ?_⟩
          · simp [progress, hp.1]
          · simp [delivered, hp.2]
          · simp [offers_rest]
          · rw [hf.1, pwrite_nil]
          · rw [hf.2]; rfl
      · simp [he] at h
    · simp only [hneg, if_false] at h
      have hnn := sys_write_nonneg fd buf w (by omega)
      by_cases hz : (sys_write fd buf w).1 = 0
      · have hp := write_progress_nonpos fd buf (sys_write fd buf w).1 (by omega)
        simp only [hz, if_true] at h
        rw [hz] at hnn
        simp only [Int.toNat_zero, List.take_zero, pwrite_nil, List.length_nil,
          Nat.add_zero] at hnn
        by_cases hzero : zero = true
        · simp [hzero] at h
        · simp only [hzero, if_false] at h
          by_cases hb : buf.length ≠ 0
          · rw [if_pos hb] at h
            obtain ⟨evs, h1, h2, h3, h4, h5, h6⟩ := ih true buf _ w' h
            refine ⟨Event.write fd buf (sys_write fd buf w).1 :: evs, ?_, ?_, ?_, ?_, ?_, ?_⟩
            · rw [h1, htr]; simp
            · simp [progress, hp.1, h2]
            · simp [delivered, hp.2, h3]
            · simp [offers_rest, hp.1, h4]
            · rw [h5, hnn.1, hnn.2.1]
            · rw [h6, hnn.2.1]
          · rw [if_neg hb] at h
            have hnil := length_eq_zero_of_not_ne hb
            subst hnil
            injection h with _ hw
            subst hw
            refine ⟨[Event.write fd [] (sys_write fd [] w).1], htr, ?_, ?_, ?_, ?_, ?_⟩
            · simp [progress, hp.1]
            · simp [delivered, hp.2]
            · simp [offers_rest]
            · rw [hnn.1, pwrite_nil]
            · rw [hnn.2.1]; rfl
      · have hpos : 0 < (sys_write fd buf w).1 := by omega
        have hp := write_progress_pos fd buf (sys_write fd buf w).1 hpos
        simp only [hz, if_false] at h
        by_cases hle : (sys_write fd buf w).1 ≤ buf.length
        · simp only [hle, not_true_eq_false, if_false] at h
          have hn : (sys_write fd buf w).1.toNat ≤ buf.length := by omega
          have htake : (buf.take (sys_write fd buf w).1.toNat).length =
              (sys_write fd buf w).1.toNat := by
            rw [List.length_take]; omega
          by_cases hb : (buf.drop (sys_write fd buf w).1.toNat).length ≠ 0
          · rw [if_pos hb] at h
            obtain ⟨evs, h1, h2, h3, h4, h5, h6⟩ := ih false _ _ w' h
            refine ⟨Event.write fd buf (sys_write fd buf w).1 :: evs, ?_, ?_, ?_, ?_, ?_, ?_⟩
            · rw [h1, htr]; simp
            · simp only [progress, hp.1, h2, List.length_drop]; omega
            · simp only [delivered, hp.2, h3, List.take_append_drop]
            · simp [offers_rest, hp.1, h4]
            · rw [h5, hnn.1, hnn.2.1, pwrite_append, List.take_append_drop]
            · rw [h6, hnn.2.1, htake, List.length_drop]; omega
          · rw [if_neg hb] at h
            have hd := length_eq_zero_of_not_ne hb
            have hall : buf.take (sys_write fd buf w).1.toNat = buf := by
              have := List.take_append_drop (sys_write fd buf w).1.toNat buf
              rw [hd, List.append_nil] at this
              exact this
            injection h with _ hw
            subst hw
            refine ⟨[Event.write fd buf (sys_write fd buf w).1], htr, ?_, ?_, ?_, ?_, ?_⟩
            · simp only [progress, hp.1, Nat.add_zero]
              rw [← htake, hall]
            · simp [delivered, hp.2, hall]
            · simp [offers_rest]
            · rw [hnn.1, hall]
            · rw [hnn.2.1, hall]
        · simp [hle] at h

/-- Whatever way the loop ends, it has only added `write` calls to the trace and has left
the parts of the world that `write` does not touch as they were. -/
theorem xwrite_loop_world (fd : Int) : ∀ (fuel : Nat) (zero : Bool) (buf : List Nat)
    (w : World), ∃ evs,
      (xwrite_loop fd fuel zero buf w).world.trace = w.trace ++ evs ∧
      (∀ e ∈ evs, e.isWrite = true) ∧
      (xwrite_loop fd fuel zero buf w).world.seeks = w.seeks ∧
      (xwrite_loop fd fuel zero buf w).world.mallocs = w.mallocs ∧
      (xwrite_loop fd fuel zero buf w).world.sys_nerr = w.sys_nerr ∧
      (xwrite_loop fd fuel zero buf w).world.err = w.err := by
  intro fuel
  induction fuel with
  | zero => intro zero buf w; exact ⟨[], by simp [xwrite_loop, Run.world]⟩
  | succ fuel ih =>
    intro zero buf w
    have htr := sys_write_trace fd buf w
    obtain ⟨f1, f2, f3, f4⟩ := sys_write_frame fd buf w
    have hone : ∃ evs, (sys_write fd buf w).2.trace = w.trace ++ evs ∧
        (∀ e ∈ evs, e.isWrite = true) ∧ (sys_write fd buf w).2.seeks = w.seeks ∧
        (sys_write fd buf w).2.mallocs = w.mallocs ∧
        (sys_write fd buf w).2.sys_nerr = w.sys_nerr ∧ (sys_write fd buf w).2.err = w.err :=
      ⟨_, htr, by simp [Event.isWrite], f1, f2, f3, f4⟩
    have hrec : ∀ z b, ∃ evs,
        (xwrite_loop fd fuel z b (sys_write fd buf w).2).world.trace = w.trace ++ evs ∧
        (∀ e ∈ evs, e.isWrite = true) ∧
        (xwrite_loop fd fuel z b (sys_write fd buf w).2).world.seeks = w.seeks ∧
        (xwrite_loop fd fuel z b (sys_write fd buf w).2).world.mallocs = w.mallocs ∧
        (xwrite_loop fd fuel z b (sys_write fd buf w).2).world.sys_nerr = w.sys_nerr ∧
        (xwrite_loop fd fuel z b (sys_write fd buf w).2).world.err = w.err := by
      intro z b
      obtain ⟨evs, h1, h2, h3, h4, h5, h6⟩ := ih z b (sys_write fd buf w).2
      refine ⟨Event.write fd buf (sys_write fd buf w).1 :: evs, ?_, ?_, ?_, ?_, ?_, ?_⟩
      · rw [h1, htr]; simp
      · intro e he
        rcases List.mem_cons.1 he with rfl | he
        · rfl
        · exact h2 e he
      · rw [h3, f1]
      · rw [h4, f2]
      · rw [h5, f3]
      · rw [h6, f4]
    rw [xwrite_loop_succ]
    split_ifs
    all_goals first
      | exact hrec _ _
      | exact hone

theorem xwrite_loop_bound (fd : Int) : ∀ (fuel : Nat) (zero : Bool) (buf : List Nat)
    (w w' : World), w.script.length < fuel →
      xwrite_loop fd fuel zero buf w ≠ Run.abort Stop.bound w' := by
  intro fuel
  induction fuel with
  | zero => intro zero buf w w' h; omega
  | succ fuel ih =>
    intro zero buf w w' hlt
    have hs := sys_write_script fd buf w
    rw [xwrite_loop_succ]
    by_cases hnil : w.script = []
    · have hret := sys_write_ideal fd buf w hnil
      have hnneg : ¬ (sys_write fd buf w).1 < 0 := by omega
      rw [if_neg hnneg]
      by_cases hz : (sys_write fd buf w).1 = 0
      · have hb : ¬ buf.length ≠ 0 := by omega
        rw [if_pos hz, if_neg hb]
        split_ifs <;> simp
      · have hle : (sys_write fd buf w).1 ≤ buf.length := by omega
        have hd : ¬ (buf.drop (sys_write fd buf w).1.toNat).length ≠ 0 := by
          rw [List.length_drop]; omega
        rw [if_neg hz, if_neg (not_not.2 hle), if_neg hd]
        simp
    · have hlen : (sys_write fd buf w).2.script.length < fuel := by
        rw [hs]
        cases hsc : w.script with
        | nil => exact absurd hsc hnil
        | cons r rest => rw [hsc] at hlt; simp at hlt ⊢; omega
      split_ifs
      all_goals first
        | exact ih _ _ _ _ hlen
        | simp

theorem xwrite_loop_first (fd : Int) (fuel : Nat) (zero : Bool) (buf : List Nat) (w : World) :
    ∃ evs, (xwrite_loop fd (fuel + 1) zero buf w).world.trace =
      w.trace ++ Event.write fd buf (sys_write fd buf w).1 :: evs := by
  have htr := sys_write_trace fd buf w
  have hone : ∃ evs, (sys_write fd buf w).2.trace =
      w.trace ++ Event.write fd buf (sys_write fd buf w).1 :: evs := ⟨[], htr⟩
  have hrec : ∀ z b, ∃ evs, (xwrite_loop fd fuel z b (sys_write fd buf w).2).world.trace =
      w.trace ++ Event.write fd buf (sys_write fd buf w).1 :: evs := by
    intro z b
    obtain ⟨evs, h1, _⟩ := xwrite_loop_world fd fuel z b (sys_write fd buf w).2
    exact ⟨evs, by rw [h1, htr]; simp⟩
  rw [xwrite_loop_succ]
  split_ifs
  all_goals first
    | exact hrec _ _
    | exact hone

theorem mem_drop_succ {α : Type} (l : List α) (n : Nat) (e : α) (h : e ∈ l.drop (n + 1)) :
    e ∈ l.drop n := by
  have : l.drop (n + 1) = (l.drop n).drop 1 := by rw [List.drop_drop]
  rw [this] at h
  exact List.mem_of_mem_drop h

/-- When every `write` of the loop made progress within what it was offered, the loop
returns true. -/
theorem xwrite_loop_succeeded (fd : Int) : ∀ (fuel : Nat) (zero : Bool) (buf : List Nat)
    (w : World), buf ≠ [] → w.script.length < fuel →
    (∀ e ∈ (xwrite_loop fd fuel zero buf w).world.trace.drop w.trace.length,
      e.succeeded = true) →
    ∃ w', xwrite_loop fd fuel zero buf w = Run.done true w' := by
  intro fuel
  induction fuel with
  | zero => intro zero buf w _ h; omega
  | succ fuel ih =>
    intro zero buf w hbuf hlt hall
    obtain ⟨evs, hfirst⟩ := xwrite_loop_first fd fuel zero buf w
    have hev : (Event.write fd buf (sys_write fd buf w).1).succeeded = true := by
      apply hall
      rw [hfirst, List.drop_left]
      exact List.mem_cons_self _ _
    simp only [Event.succeeded, Bool.and_eq_true, decide_eq_true_eq] at hev
    obtain ⟨hpos, hle⟩ := hev
    have hnneg : ¬ (sys_write fd buf w).1 < 0 := by omega
    have hnz : ¬ (sys_write fd buf w).1 = 0 := by omega
    rw [xwrite_loop_succ, if_neg hnneg, if_neg hnz, if_neg (not_not.2 hle)] at hall ⊢
    by_cases hb : (buf.drop (sys_write fd buf w).1.toNat).length ≠ 0
    · rw [if_pos hb] at hall ⊢
      have hscript : w.script ≠ [] := by
        intro hnil
        have hret := sys_write_ideal fd buf w hnil
        apply hb
        rw [List.length_drop]; omega
      have hlen : (sys_write fd buf w).2.script.length < fuel := by
        rw [sys_write_script]
        cases hsc : w.script with
        | nil => exact absurd hsc hscript
        | cons r rest => rw [hsc] at hlt; simp at hlt ⊢; omega
      apply ih false _ _ (by intro h0; rw [h0] at hb; simp at hb) hlen
      intro e he
      apply hall
      rw [sys_write_trace, List.length_append, List.length_singleton] at he
      exact mem_drop_succ _ _ _ he
    · rw [if_neg hb]
      exact ⟨_, rfl⟩

/-- The bound `xwrite` gives its loop is never reached. -/
theorem xwrite_within_bound (fd : Int) (buf : List Nat) (w w' : World) :
    xwrite fd buf w ≠ Run.abort Stop.bound w' := by
  unfold xwrite
  split_ifs
  · simp
  · exact xwrite_loop_bound fd _ false buf w w' (Nat.lt_succ_self _)

theorem xwrite_true (fd : Int) (buf : List Nat) (w w' : World)
    (h : xwrite fd buf w = Run.done true w') :
    buf ≠ [] ∧ ∃ evs, w'.trace = w.trace ++ evs ∧ progress evs = buf.length ∧
      delivered evs = buf ∧ offers_rest fd buf evs = true ∧
      w'.file = pwrite w.file w.pos buf ∧ w'.pos = w.pos + buf.length := by
  unfold xwrite at h
  by_cases hb : buf.length = 0
  · simp [hb] at h
  · rw [if_neg hb] at h
    exact ⟨by intro h0; rw [h0] at hb; simp at hb, xwrite_loop_true fd _ false buf w w' h⟩

theorem xwrite_world (fd : Int) (buf : List Nat) (w : World) :
    ∃ evs, (xwrite fd buf w).world.trace = w.trace ++ evs ∧
      (∀ e ∈ evs, e.isWrite = true) ∧
      (xwrite fd buf w).world.seeks = w.seeks ∧
      (xwrite fd buf w).world.mallocs = w.mallocs ∧
      (xwrite fd buf w).world.sys_nerr = w.sys_nerr ∧
      (xwrite fd buf w).world.err = w.err := by
  unfold xwrite
  split_ifs
  · exact ⟨[], by simp [Run.world]⟩
  · exact xwrite_loop_world fd _ false buf w

theorem xwrite_succeeded (fd : Int) (buf : List Nat) (w : World) (hbuf : buf ≠ [])
    (hall : ∀ e ∈ (xwrite fd buf w).world.trace.drop w.trace.length, e.succeeded = true) :
    ∃ w', xwrite fd buf w = Run.done true w' := by
  have hb : ¬ buf.length = 0 := by
    intro h0; exact hbuf (List.length_eq_zero.1 h0)
  unfold xwrite at hall ⊢
  rw [if_neg hb] at hall ⊢
  exact xwrite_loop_succeeded fd _ false buf w hbuf (Nat.lt_succ_self _) hall

theorem sys_write_cons_nonneg (fd : Int) (buf : List Nat) (w : World) (r : WriteRes)
    (rest : List WriteRes) (hs : w.script = r :: rest) (hr : 0 ≤ r.ret) :
    sys_write fd buf w =
      (r.ret, { w with script := rest, file := pwrite w.file w.pos (buf.take r.ret.toNat),
                       pos := w.pos + (buf.take r.ret.toNat).length,
                       trace := w.trace ++ [Event.write fd buf r.ret] }) := by
  have : ¬ r.ret < 0 := by omega
  simp only [sys_write, hs, this, if_false]

theorem sys_write_cons_neg (fd : Int) (buf : List Nat) (w : World) (r : WriteRes)
    (rest : List WriteRes) (hs : w.script = r :: rest) (hr : r.ret < 0) :
    sys_write fd buf w =
      (r.ret, { w with script := rest, errno := r.errno,
                       trace := w.trace ++ [Event.write fd buf r.ret] }) := by
  simp only [sys_write, hs, hr, if_true]

theorem sys_write_zero (fd : Int) (buf : List Nat) (w : World) (e : Nat)
    (rest : List WriteRes) (hs : w.script = ⟨0, e⟩ :: rest) :
    sys_write fd buf w =
      (0, { w with script := rest, trace := w.trace ++ [Event.write fd buf 0] }) := by
  rw [sys_write_cons_nonneg fd buf w ⟨0, e⟩ rest hs (le_refl _)]
  simp [pwrite_nil]

theorem forget_fields (w v : World) (h : w.forget = v.forget) :
    w.script = v.script ∧ w.seeks = v.seeks ∧ w.mallocs = v.mallocs ∧
    w.sys_nerr = v.sys_nerr ∧ w.pos = v.pos ∧ w.file = v.file ∧ w.errno = v.errno ∧
    w.err = v.err := by
  have h1 : w.forget.script = v.forget.script := by rw [h]
  have h2 : w.forget.seeks = v.forget.seeks := by rw [h]
  have h3 : w.forget.mallocs = v.forget.mallocs := by rw [h]
  have h4 : w.forget.sys_nerr = v.forget.sys_nerr := by rw [h]
  have h5 : w.forget.pos = v.forget.pos := by rw [h]
  have h6 : w.forget.file = v.forget.file := by rw [h]
  have h7 : w.forget.errno = v.forget.errno := by rw [h]
  have h8 : w.forget.err = v.forget.err := by rw [h]
  exact ⟨h1, h2, h3, h4, h5, h6, h7, h8⟩

theorem sys_write_forget (fd : Int) (buf : List Nat) (w v : World)
    (h : w.forget = v.forget) :
    (sys_write fd buf w).1 = (sys_write fd buf v).1 ∧
      (sys_write fd buf w).2.forget = (sys_write fd buf v).2.forget := by
  obtain ⟨h1, h2, h3, h4, h5, h6, h7, h8⟩ := forget_fields w v h
  unfold sys_write
  rw [← h1]
  split
  · simp [World.forget, h2, h3, h4, h5, h6, h7, h8]
  · split <;> simp [World.forget, h2, h3, h4, h5, h6, h7, h8]

/-- The loop does not read the trace: from worlds that differ only in their trace it ends
the same way, in worlds that differ only in their trace. -/
theorem xwrite_loop_forget (fd : Int) : ∀ (fuel : Nat) (zero : Bool) (buf : List Nat)
    (w v : World), w.forget = v.forget →
    (xwrite_loop fd fuel zero buf w).forget = (xwrite_loop fd fuel zero buf v).forget := by
  intro fuel
  induction fuel with
  | zero => intro zero buf w v h; simp [xwrite_loop, Run.forget, h]
  | succ fuel ih =>
    intro zero buf w v h
    obtain ⟨hret, hw⟩ := sys_write_forget fd buf w v h
    obtain ⟨g1, g2, g3, g4, g5, g6, herr, g8⟩ := forget_fields _ _ hw
    have hag : ({ (sys_write fd buf w).2 with errno := EAGAIN } : World).forget =
        ({ (sys_write fd buf v).2 with errno := EAGAIN } : World).forget := by
      simp only [World.forget, g1, g2, g3, g4, g5, g6, g8]
    rw [xwrite_loop_succ, xwrite_loop_succ, ← hret, ← herr]
    split_ifs
    all_goals first
      | exact ih _ _ _ _ hw
      | exact congrArg (Run.done false) hag
      | exact congrArg (Run.done _) hw
      | exact congrArg (Run.abort _) hw

theorem xwrite_loop_ideal (fd : Int) (fuel : Nat) (zero : Bool) (buf : List Nat) (w : World)
    (hs : w.script = []) (hbuf : buf ≠ []) :
    xwrite_loop fd (fuel + 1) zero buf w = Run.done true (sys_write fd buf w).2 := by
  have hret := sys_write_ideal fd buf w hs
  have hlen : 0 < buf.length := List.length_pos.2 hbuf
  have h1 : ¬ (sys_write fd buf w).1 < 0 := by omega
  have h2 : ¬ (sys_write fd buf w).1 = 0 := by omega
  have h3 : (sys_write fd buf w).1 ≤ buf.length := by omega
  have h4 : ¬ (buf.drop (sys_write fd buf w).1.toNat).length ≠ 0 := by
    rw [List.length_drop]; omega
  rw [xwrite_loop_succ, if_neg h1, if_neg h2, if_neg (not_not.2 h3), if_neg h4]

/-- C7: when `xwrite` returns true, whatever the results of the `write` calls were, the
positive results sum to exactly the size of the buffer, the bytes the channel accepted are,
in order, exactly the buffer, and every attempt offered precisely the part of the buffer not
yet accepted; the file holds the buffer at the offset where the call started. -/
theorem xwrite_true_transfers_all (fd : Int) (buf : List Nat) (w w' : World)
    (h : xwrite fd buf w = Run.done true w') :
    1 ≤ buf.length ∧
    ∃ evs, w'.trace = w.trace ++ evs ∧ progress evs = buf.length ∧ delivered evs = buf ∧
      offers_rest fd buf evs = true ∧
      w'.file = pwrite w.file w.pos buf ∧ w'.pos = w.pos + buf.length := by
  obtain ⟨hne, hrest⟩ := xwrite_true fd buf w w' h
  exact ⟨List.length_pos.2 hne, hrest⟩

theorem xwrite_true_transfers_all_witness :
    1 ≤ [10, 20, 30, 40, 50].length ∧
    ∃ evs,
      (xwrite 1 [10, 20, 30, 40, 50]
        { World.quiet with script := [⟨0, 0⟩, ⟨2, 0⟩, ⟨-1, 4⟩, ⟨1, 0⟩] }).world.trace =
        ({ World.quiet with script := [⟨0, 0⟩, ⟨2, 0⟩, ⟨-1, 4⟩, ⟨1, 0⟩] } : World).trace ++ evs ∧
      progress evs = [10, 20, 30, 40, 50].length ∧ delivered evs = [10, 20, 30, 40, 50] ∧
      offers_rest 1 [10, 20, 30, 40, 50] evs = true ∧
      (xwrite 1 [10, 20, 30, 40, 50]
        { World.quiet with script := [⟨0, 0⟩, ⟨2, 0⟩, ⟨-1, 4⟩, ⟨1, 0⟩] }).world.file =
        pwrite ({ World.quiet with script := [⟨0, 0⟩, ⟨2, 0⟩, ⟨-1, 4⟩, ⟨1, 0⟩] } : World).file
          ({ World.quiet with script := [⟨0, 0⟩, ⟨2, 0⟩, ⟨-1, 4⟩, ⟨1, 0⟩] } : World).pos
          [10, 20, 30, 40, 50] ∧
      (xwrite 1 [10, 20, 30, 40, 50]
        { World.quiet with script := [⟨0, 0⟩, ⟨2, 0⟩, ⟨-1, 4⟩, ⟨1, 0⟩] }).world.pos =
        ({ World.quiet with script := [⟨0, 0⟩, ⟨2, 0⟩, ⟨-1, 4⟩, ⟨1, 0⟩] } : World).pos +
          [10, 20, 30, 40, 50].length :=
  xwrite_true_transfers_all 1 [10, 20, 30, 40, 50]
    { World.quiet with script := [⟨0, 0⟩, ⟨2, 0⟩, ⟨-1, 4⟩, ⟨1, 0⟩] }
    (xwrite 1 [10, 20, 30, 40, 50]
      { World.quiet with script := [⟨0, 0⟩, ⟨2, 0⟩, ⟨-1, 4⟩, ⟨1, 0⟩] }).world
    (by decide)

theorem xwrite_loop_zero_then_progress (fd : Int) (fuel : Nat) (buf : List Nat) (w : World)
    (e0 e1 : Nat) (n : Int) (rest : List WriteRes) (hbuf : buf ≠ []) (hn : 0 < n)
    (hs : w.script = ⟨0, e0⟩ :: ⟨n, e1⟩ :: rest) :
    (xwrite_loop fd (fuel + 2) false buf w).forget =
      (xwrite_loop fd (fuel + 1) false buf { w with script := ⟨n, e1⟩ :: rest }).forget := by
  have hb : buf.length ≠ 0 := fun h => hbuf (List.length_eq_zero.1 h)
  have hn1 : ¬ n < 0 := by omega
  have hn2 : ¬ n = 0 := by omega
  have hstep : xwrite_loop fd (fuel + 2) false buf w =
      xwrite_loop fd (fuel + 1) true buf
        { w with script := ⟨n, e1⟩ :: rest, trace := w.trace ++ [Event.write fd buf 0] } := by
    rw [xwrite_loop_succ, sys_write_zero fd buf w e0 _ hs]
    simp [hb]
  rw [hstep, xwrite_loop_succ, xwrite_loop_succ fd fuel false]
  rw [sys_write_cons_nonneg fd buf _ ⟨n, e1⟩ rest rfl (by simp; omega),
    sys_write_cons_nonneg fd buf { w with script := ⟨n, e1⟩ :: rest } ⟨n, e1⟩ rest rfl
      (by simp; omega)]
  simp only [hn1, hn2, if_false]
  split_ifs
  all_goals first
    | exact xwrite_loop_forget fd fuel false _ _ _ rfl
    | rfl

theorem xwrite_loop_two_zeros (fd : Int) (fuel : Nat) (zero : Bool) (buf : List Nat)
    (w : World) (e0 e1 : Nat) (rest : List WriteRes) (hbuf : buf ≠ [])
    (hs : w.script = ⟨0, e0⟩ :: ⟨0, e1⟩ :: rest) :
    xwrite_loop fd (fuel + 2) zero buf w =
      Run.done false
        (if zero then
          { w with script := ⟨0, e1⟩ :: rest, errno := EAGAIN,
                   trace := w.trace ++ [Event.write fd buf 0] }
        else
          { w with script := rest, errno := EAGAIN,
                   trace := w.trace ++ [Event.write fd buf 0, Event.write fd buf 0] }) := by
  have hb : buf.length ≠ 0 := fun h => hbuf (List.length_eq_zero.1 h)
  rw [xwrite_loop_succ, sys_write_zero fd buf w e0 _ hs]
  cases zero with
  | true => simp
  | false =>
    simp only [lt_self_iff_false, if_false, if_true, Bool.false_eq_true, hb, ne_eq,
      not_false_eq_true]
    rw [xwrite_loop_succ, sys_write_zero fd buf _ e1 rest rfl]
    simp

theorem xwrite_zero_then_rest (fd : Int) (buf : List Nat) (w : World) (e0 e1 : Nat) (n : Int)
    (hbuf : buf ≠ []) (hn : 0 < n) (hle : n ≤ buf.length)
    (hs : w.script = [⟨0, e0⟩, ⟨n, e1⟩]) :
    ∃ w', xwrite fd buf w = Run.done true w' := by
  have hb : buf.length ≠ 0 := fun h => hbuf (List.length_eq_zero.1 h)
  have hn1 : ¬ n < 0 := by omega
  have hn2 : ¬ n = 0 := by omega
  unfold xwrite
  rw [if_neg hb, hs]
  have hstep : xwrite_loop fd ([(⟨0, e0⟩ : WriteRes), ⟨n, e1⟩].length + 1) false buf w =
      xwrite_loop fd 2 true buf
        { w with script := [⟨n, e1⟩], trace := w.trace ++ [Event.write fd buf 0] } := by
    show xwrite_loop fd (2 + 1) false buf w = _
    rw [xwrite_loop_succ, sys_write_zero fd buf w e0 _ hs]
    simp [hb]
  rw [hstep]
  show ∃ w', xwrite_loop fd (1 + 1) true buf _ = Run.done true w'
  rw [xwrite_loop_succ, sys_write_cons_nonneg fd buf _ ⟨n, e1⟩ [] rfl (by simp; omega)]
  simp only [hn1, hn2, if_false, hle, not_true_eq_false]
  by_cases hd : (buf.drop n.toNat).length ≠ 0
  · rw [if_pos hd]
    exact ⟨_, xwrite_loop_ideal fd 0 false _ _ rfl
      (fun h0 => hd (by rw [h0]; rfl))⟩
  · rw [if_neg hd]
    exact ⟨_, rfl⟩

/-- C8: in `xwrite`, a zero result that is immediately followed by a positive result leaves
the outcome what it is without the zero, at the start of the call and at any later pass that
finds the zero flag clear, and if the channel then accepts the rest the call returns true
with the whole buffer transferred; two zero results in a row make the call return false
with `errno` set to `EAGAIN`, the second zero being the last `write` attempted. -/
theorem xwrite_zero_progress (fd : Int) (buf : List Nat) (w : World) (hbuf : buf ≠ []) :
    (∀ (e0 e1 : Nat) (n : Int) (rest : List WriteRes), 0 < n →
        w.script = ⟨0, e0⟩ :: ⟨n, e1⟩ :: rest →
      (xwrite fd buf w).forget =
        (xwrite fd buf { w with script := ⟨n, e1⟩ :: rest }).forget) ∧
    (∀ (fuel e0 e1 : Nat) (n : Int) (rest : List WriteRes), 0 < n →
        w.script = ⟨0, e0⟩ :: ⟨n, e1⟩ :: rest →
      (xwrite_loop fd (fuel + 2) false buf w).forget =
        (xwrite_loop fd (fuel + 1) false buf { w with script := ⟨n, e1⟩ :: rest }).forget) ∧
    (∀ (e0 e1 : Nat) (n : Int), 0 < n → n ≤ buf.length → w.script = [⟨0, e0⟩, ⟨n, e1⟩] →
      ∃ w', xwrite fd buf w = Run.done true w' ∧ w'.file = pwrite w.file w.pos buf ∧
        delivered (w'.trace.drop w.trace.length) = buf) ∧
    (∀ (e0 e1 : Nat) (rest : List WriteRes), w.script = ⟨0, e0⟩ :: ⟨0, e1⟩ :: rest →
      xwrite fd buf w =
        Run.done false
          { w with script := rest, errno := EAGAIN,
                   trace := w.trace ++ [Event.write fd buf 0, Event.write fd buf 0] }) ∧
    (∀ (fuel e0 e1 : Nat) (rest : List WriteRes), w.script = ⟨0, e0⟩ :: ⟨0, e1⟩ :: rest →
      xwrite_loop fd (fuel + 2) true buf w =
        Run.done false
          { w with script := ⟨0, e1⟩ :: rest, errno := EAGAIN,
                   trace := w.trace ++ [Event.write fd buf 0] }) := by
  have hb : ¬ buf.length = 0 := fun h => hbuf (List.length_eq_zero.1 h)
  refine ⟨?_, ?_, ?_, ?_, ?_⟩
  · intro e0 e1 n rest hn hs
    unfold xwrite
    rw [if_neg hb, if_neg hb, hs]
    exact xwrite_loop_zero_then_progress fd (rest.length + 1) buf w e0 e1 n rest hbuf hn hs
  · intro fuel e0 e1 n rest hn hs
    exact xwrite_loop_zero_then_progress fd fuel buf w e0 e1 n rest hbuf hn hs
  · intro e0 e1 n hn hle hs
    obtain ⟨w', hw'⟩ := xwrite_zero_then_rest fd buf w e0 e1 n hbuf hn hle hs
    obtain ⟨_, evs, h1, _, h3, _, h5, _⟩ := xwrite_true fd buf w w' hw'
    refine ⟨w', hw', h5, ?_⟩
    rw [h1, List.drop_left, h3]
  · intro e0 e1 rest hs
    unfold xwrite
    rw [if_neg hb, hs]
    have := xwrite_loop_two_zeros fd (rest.length + 1) false buf w e0 e1 rest hbuf hs
    simpa using this
  · intro fuel e0 e1 rest hs
    have := xwrite_loop_two_zeros fd fuel true buf w e0 e1 rest hbuf hs
    simpa using this

theorem xwrite_zero_progress_witness :
    xwrite 1 [10, 20, 30] { World.quiet with script := [⟨0, 0⟩, ⟨0, 0⟩, ⟨3, 0⟩] } =
      Run.done false
        { World.quiet with
            script := [⟨3, 0⟩], errno := EAGAIN,
            trace := World.quiet.trace ++
              [Event.write 1 [10, 20, 30] 0, Event.write 1 [10, 20, 30] 0] } :=
  (xwrite_zero_progress 1 [10, 20, 30]
    { World.quiet with script := [⟨0, 0⟩, ⟨0, 0⟩, ⟨3, 0⟩] } (by decide)).2.2.2.1 0 0 [⟨3, 0⟩] rfl

/-! ## `lz4writer_write` -/

/-- What the loop of `lz4writer_write` leaves of the session when it returns: only the
engine context moves, and the error flag is raised exactly when the result is false. -/
theorem write_loop_done {σ : Type} (E : Engine σ) : ∀ (fuel : Nat) (zw : lz4writer σ)
    (buf : List Nat) (w : World) (r : Bool) (zw' : lz4writer σ) (w' : World),
    lz4writer_write_loop E fuel zw buf w = Run.done (r, zw') w' →
    zw'.fd = zw.fd ∧ zw'.writeContentSize = zw.writeContentSize ∧
    zw'.contentSize = zw.contentSize ∧ zw'.pos0 = zw.pos0 ∧
    zw'.frameHeader = zw.frameHeader ∧ zw'.zbufSize = zw.zbufSize ∧
    zw'.error = (zw.error || !r) := by
  intro fuel
  induction fuel with
  | zero =>
    intro zw buf w r zw' w' h
    unfold lz4writer_write_loop at h
    split_ifs at h
    injection h with h1 h2
    injection h1 with h3 h4
    subst h3 h4
    simp
  | succ fuel ih =>
    intro zw buf w r zw' w' h
    unfold lz4writer_write_loop at h
    by_cases hb : buf.length = 0
    · rw [if_pos hb] at h
      injection h with h1 h2
      injection h1 with h3 h4
      subst h3 h4
      simp
    · rw [if_neg hb] at h
      split at h
      · have := ih _ _ _ _ _ _ h
        simpa using this
      · injection h with h1 h2
        injection h1 with h3 h4
        subst h3 h4
        simp
      · split at h
        · simp at h
        · injection h with h1 h2
          injection h1 with h3 h4
          subst h3 h4
          simp
        · have := ih _ _ _ _ _ _ h
          simpa using this

theorem write_false_sets_error {σ : Type} (E : Engine σ) (zw : lz4writer σ) (buf : List Nat)
    (w : World) (zw' : lz4writer σ) (w' : World)
    (h : lz4writer_write E zw buf w = Run.done (false, zw') w') : zw'.error = true := by
  unfold lz4writer_write at h
  by_cases he : zw.error = true
  · rw [if_pos he] at h
    injection h with h1 h2
    injection h1 with h3 h4
    rw [← h4]; exact he
  · rw [if_neg he] at h
    have := (write_loop_done E _ _ _ _ _ _ _ h).2.2.2.2.2.2
    simpa using this

theorem write_after_error {σ : Type} (E : Engine σ) (zw : lz4writer σ) (buf : List Nat)
    (w : World) (he : zw.error = true) :
    lz4writer_write E zw buf w =
      Run.done (false, zw) (ERRSTR "lz4writer_write" "previous write failed" w) := by
  unfold lz4writer_write
  rw [if_pos he]

theorem write_all_after_error {σ : Type} (E : Engine σ) (zw : lz4writer σ)
    (he : zw.error = true) : ∀ (bufs : List (List Nat)) (w : World),
    lz4writer_write_all E zw bufs w =
      Run.done (List.replicate bufs.length false, zw)
        (if bufs = [] then w else ERRSTR "lz4writer_write" "previous write failed" w) := by
  intro bufs
  induction bufs with
  | nil => intro w; rfl
  | cons buf bufs ih =>
    intro w
    unfold lz4writer_write_all
    rw [write_after_error E zw buf w he]
    simp only [ih]
    by_cases hb : bufs = []
    · subst hb; rfl
    · simp only [hb, if_false, List.length_cons, List.replicate_succ]
      rfl

/-- C9: once an `lz4writer_write` call has returned false, every later `lz4writer_write`
on the session returns false with the error record set to "previous write failed", and
changes nothing else: the session, its content-size counter included, is what it was, and
so are the trace (no engine call, no channel call), the file and its offset. -/
theorem write_rejected_after_failure {σ : Type} (E : Engine σ) (zw : lz4writer σ)
    (buf : List Nat) (w : World) (zw' : lz4writer σ) (w' : World)
    (h : lz4writer_write E zw buf w = Run.done (false, zw') w') :
    ∀ bufs : List (List Nat), ∃ w'',
      lz4writer_write_all E zw' bufs w' =
        Run.done (List.replicate bufs.length false, zw') w'' ∧
      w''.trace = w'.trace ∧ w''.file = w'.file ∧ w''.pos = w'.pos ∧
      w''.script = w'.script ∧ w''.errno = w'.errno ∧
      (bufs ≠ [] → w''.err =
        { err0 := some "lz4writer_write", err1 := some (ErrMsg.str "previous write failed") }) := by
  intro bufs
  have he := write_false_sets_error E zw buf w zw' w' h
  refine ⟨_, write_all_after_error E zw' he bufs w', ?_⟩
  by_cases hb : bufs = []
  · simp [hb]
  · simp [hb, ERRSTR]

theorem write_rejected_after_failure_witness :
    ∃ w'',
      lz4writer_write_all (scriptedEngine [ZRes.error 11] (ZRes.bytes [0, 0, 0, 0]))
        { sampleSession [] 0 with error := true, contentSize := 3 } [[4, 5], [], [6]]
        (ERRLZ4 "LZ4F_compressUpdate" 11
          { World.quiet with trace := [Event.LZ4F_compressUpdate [1, 2, 3] (ZRes.error 11)] }) =
        Run.done (List.replicate [[4, 5], [], [6]].length false,
          { sampleSession [] 0 with error := true, contentSize := 3 }) w'' ∧
      w''.trace = [Event.LZ4F_compressUpdate [1, 2, 3] (ZRes.error 11)] := by
  obtain ⟨w'', h1, h2, _⟩ := write_rejected_after_failure
    (scriptedEngine [ZRes.error 11] (ZRes.bytes [0, 0, 0, 0])) (sampleSession [ZRes.error 11] 0) [1, 2, 3]
    World.quiet { sampleSession [] 0 with error := true, contentSize := 3 }
    (ERRLZ4 "LZ4F_compressUpdate" 11
      { World.quiet with trace := [Event.LZ4F_compressUpdate [1, 2, 3] (ZRes.error 11)] })
    rfl [[4, 5], [], [6]]
  exact ⟨w'', h1, h2⟩

/-! ## `lz4writer_close` -/

/-- The paths through `lz4writer_close`, each with the calls that select it and the world it
ends in. -/
theorem close_cases {σ : Type} (E : Engine σ) (zw : lz4writer σ) (w : World) :
    (zw.error = true ∧
      lz4writer_close E zw w =
        Run.done false (justClose zw (ERRSTR "lz4writer_close" "previous write failed" w))) ∨
    (zw.error = false ∧ ∃ c, (E.compressEnd zw.zctx zw.zbufSize).1 = ZRes.error c ∧
      lz4writer_close E zw w =
        Run.done false (sys_free (LZ4F_freeCompressionContext
          (ERRLZ4 "LZ4F_compressEnd" c (LZ4F_compressEnd E zw.zctx zw.zbufSize w).2.2)))) ∨
    (zw.error = false ∧ ∃ out, (E.compressEnd zw.zctx zw.zbufSize).1 = ZRes.bytes out ∧
      ((out = [] ∧
          lz4writer_close E zw w =
            Run.abort Stop.assertion (LZ4F_compressEnd E zw.zctx zw.zbufSize w).2.2) ∨
       (out ≠ [] ∧ ∃ why w2,
          xwrite zw.fd out (LZ4F_compressEnd E zw.zctx zw.zbufSize w).2.2 = Run.abort why w2 ∧
          lz4writer_close E zw w = Run.abort why w2) ∨
       (out ≠ [] ∧ ∃ w2,
          xwrite zw.fd out (LZ4F_compressEnd E zw.zctx zw.zbufSize w).2.2 = Run.done false w2 ∧
          lz4writer_close E zw w = Run.done false (justClose zw (ERRNO "write" w2))) ∨
       (out ≠ [] ∧ ∃ w2,
          xwrite zw.fd out (LZ4F_compressEnd E zw.zctx zw.zbufSize w).2.2 = Run.done true w2 ∧
          ((zw.writeContentSize = false ∧
              lz4writer_close E zw w = Run.done true (justClose zw w2)) ∨
           (zw.writeContentSize = true ∧
              (sys_lseek zw.fd zw.pos0 Whence.SEEK_SET w2).1 = -1 ∧
              lz4writer_close E zw w =
                Run.done false (justClose zw
                  (ERRNO "lseek" (sys_lseek zw.fd zw.pos0 Whence.SEEK_SET w2).2))) ∨
           (zw.writeContentSize = true ∧
              (sys_lseek zw.fd zw.pos0 Whence.SEEK_SET w2).1 ≠ -1 ∧
              (sys_lseek zw.fd zw.pos0 Whence.SEEK_SET w2).1 ≠ zw.pos0 ∧
              lz4writer_close E zw w =
                Run.abort Stop.assertion (sys_lseek zw.fd zw.pos0 Whence.SEEK_SET w2).2) ∨
           (zw.writeContentSize = true ∧
              (sys_lseek zw.fd zw.pos0 Whence.SEEK_SET w2).1 ≠ -1 ∧
              (sys_lseek zw.fd zw.pos0 Whence.SEEK_SET w2).1 = zw.pos0 ∧
              (((lz4fix zw.frameHeader zw.contentSize).1 = false ∧
                  lz4writer_close E zw w =
                    Run.done false (justClose zw
                      (ERRSTR "lz4writer_close" "cannot fix lz4 frame header"
                        (sys_lseek zw.fd zw.pos0 Whence.SEEK_SET w2).2))) ∨
               ((lz4fix zw.frameHeader zw.contentSize).1 = true ∧ ∃ why w4,
                  xwrite zw.fd (lz4fix zw.frameHeader zw.contentSize).2
                    (sys_lseek zw.fd zw.pos0 Whence.SEEK_SET w2).2 = Run.abort why w4 ∧
                  lz4writer_close E zw w = Run.abort why w4) ∨
               ((lz4fix zw.frameHeader zw.contentSize).1 = true ∧ ∃ w4,
                  xwrite zw.fd (lz4fix zw.frameHeader zw.contentSize).2
                    (sys_lseek zw.fd zw.pos0 Whence.SEEK_SET w2).2 = Run.done false w4 ∧
                  lz4writer_close E zw w =
                    Run.done false (justClose zw (ERRNO "write" w4))) ∨
               ((lz4fix zw.frameHeader zw.contentSize).1 = true ∧ ∃ w4,
                  xwrite zw.fd (lz4fix zw.frameHeader zw.contentSize).2
                    (sys_lseek zw.fd zw.pos0 Whence.SEEK_SET w2).2 = Run.done true w4 ∧
                  lz4writer_close E zw w = Run.done true (justClose zw w4)))))))) := by
  by_cases he : zw.error = true
  · left
    refine ⟨he, ?_⟩
    unfold lz4writer_close
    rw [if_pos he]
  · right
    have he' : zw.error = false := by simpa using he
    cases hend : (E.compressEnd zw.zctx zw.zbufSize).1 with
    | error c =>
      left
      refine ⟨he', c, rfl, ?_⟩
      unfold lz4writer_close
      rw [if_neg he]
      simp only [LZ4F_compressEnd, hend]
    | bytes out =>
      right
      refine ⟨he', out, rfl, ?_⟩
      have hunf : lz4writer_close E zw w =
          if out.length = 0 then
            Run.abort Stop.assertion (LZ4F_compressEnd E zw.zctx zw.zbufSize w).2.2
          else
            match xwrite zw.fd out (LZ4F_compressEnd E zw.zctx zw.zbufSize w).2.2 with
            | Run.abort why w => Run.abort why w
            | Run.done false w => Run.done false (justClose zw (ERRNO "write" w))
            | Run.done true w =>
              if ¬ zw.writeContentSize then Run.done true (justClose zw w)
              else
                if (sys_lseek zw.fd zw.pos0 Whence.SEEK_SET w).1 = -1 then
                  Run.done false (justClose zw
                    (ERRNO "lseek" (sys_lseek zw.fd zw.pos0 Whence.SEEK_SET w).2))
                else if (sys_lseek zw.fd zw.pos0 Whence.SEEK_SET w).1 ≠ zw.pos0 then
                  Run.abort Stop.assertion (sys_lseek zw.fd zw.pos0 Whence.SEEK_SET w).2
                else
                  match lz4fix zw.frameHeader zw.contentSize with
                  | (false, _) =>
                    Run.done false
                      (justClose zw (ERRSTR "lz4writer_close" "cannot fix lz4 frame header"
                        (sys_lseek zw.fd zw.pos0 Whence.SEEK_SET w).2))
                  | (true, frameHeader) =>
                    match xwrite zw.fd frameHeader
                        (sys_lseek zw.fd zw.pos0 Whence.SEEK_SET w).2 with
                    | Run.abort why w => Run.abort why w
                    | Run.done false w => Run.done false (justClose zw (ERRNO "write" w))
                    | Run.done true w => Run.done true (justClose zw w) := by
        unfold lz4writer_close
        rw [if_neg he]
        simp only [LZ4F_compressEnd, hend]
      rw [hunf]
      by_cases ho : out = []
      · left
        refine ⟨ho, ?_⟩
        subst ho
        simp
      · right
        have hlen : ¬ out.length = 0 := fun h => ho (List.length_eq_zero.1 h)
        rw [if_neg hlen]
        cases hx : xwrite zw.fd out (LZ4F_compressEnd E zw.zctx zw.zbufSize w).2.2 with
        | abort why w2 => left; exact ⟨ho, why, w2, rfl, rfl⟩
        | done b w2 =>
          right
          cases b with
          | false => left; exact ⟨ho, w2, rfl, rfl⟩
          | true =>
            right
            refine ⟨ho, w2, rfl, ?_⟩
            simp only []
            by_cases hs : zw.writeContentSize = true
            · right
              simp only [hs, not_true_eq_false, if_false]
              by_cases h1 : (sys_lseek zw.fd zw.pos0 Whence.SEEK_SET w2).1 = -1
              · left
                rw [if_pos h1]
                exact ⟨trivial, h1, rfl⟩
              · right
                rw [if_neg h1]
                by_cases h2 : (sys_lseek zw.fd zw.pos0 Whence.SEEK_SET w2).1 = zw.pos0
                · right
                  rw [if_neg (not_not.2 h2)]
                  refine ⟨trivial, h1, h2, ?_⟩
                  cases hf : lz4fix zw.frameHeader zw.contentSize with
                  | mk ok hdr =>
                    cases ok with
                    | false => left; exact ⟨rfl, rfl⟩
                    | true =>
                      right
                      simp only []
                      cases hx4 : xwrite zw.fd hdr
                          (sys_lseek zw.fd zw.pos0 Whence.SEEK_SET w2).2 with
                      | abort why w4 => left; exact ⟨trivial, why, w4, rfl, rfl⟩
                      | done b4 w4 =>
                        right
                        cases b4 with
                        | false => left; exact ⟨trivial, w4, rfl, rfl⟩
                        | true => right; exact ⟨trivial, w4, rfl, rfl⟩
                · left
                  rw [if_pos h2]
                  exact ⟨trivial, h1, h2, rfl⟩
            · left
              have hs' : zw.writeContentSize = false := by simpa using hs
              simp only [hs', Bool.false_eq_true, not_false_eq_true, if_true]
              trivial

/-! ## `lz4writer_fdopen` -/

theorem sys_malloc_world (w : World) :
    (sys_malloc w).2.pos = w.pos ∧ (sys_malloc w).2.file = w.file ∧
    (sys_malloc w).2.script = w.script ∧ (sys_malloc w).2.seeks = w.seeks ∧
    (sys_malloc w).2.err = w.err ∧
    (sys_malloc w).2.trace = w.trace ++ [Event.malloc (sys_malloc w).1] := by
  unfold sys_malloc
  split <;> exact ⟨rfl, rfl, rfl, rfl, rfl, rfl⟩

theorem sys_lseek_world (fd : Int) (offset : Int) (whence : Whence) (w : World) :
    (sys_lseek fd offset whence w).2.file = w.file ∧
    (sys_lseek fd offset whence w).2.script = w.script ∧
    (sys_lseek fd offset whence w).2.mallocs = w.mallocs ∧
    (sys_lseek fd offset whence w).2.err = w.err ∧
    (sys_lseek fd offset whence w).2.sys_nerr = w.sys_nerr ∧
    (sys_lseek fd offset whence w).2.trace =
      w.trace ++ [Event.lseek fd offset whence (sys_lseek fd offset whence w).1] := by
  unfold sys_lseek
  split <;> exact ⟨rfl, rfl, rfl, rfl, rfl, rfl⟩

theorem sys_lseek_set (fd : Int) (offset : Int) (w : World) :
    ((sys_lseek fd offset Whence.SEEK_SET w).1 = -1 ∧
      (sys_lseek fd offset Whence.SEEK_SET w).2.pos = w.pos) ∨
    ((sys_lseek fd offset Whence.SEEK_SET w).1 = offset ∧
      (sys_lseek fd offset Whence.SEEK_SET w).2.pos = offset.toNat) := by
  unfold sys_lseek
  split
  · left; exact ⟨rfl, rfl⟩
  · right; exact ⟨rfl, rfl⟩

theorem sys_lseek_cur (fd : Int) (w : World) :
    ((sys_lseek fd 0 Whence.SEEK_CUR w).1 = -1 ∧
      (sys_lseek fd 0 Whence.SEEK_CUR w).2.pos = w.pos) ∨
    ((sys_lseek fd 0 Whence.SEEK_CUR w).1 = (w.pos : Int) ∧
      (sys_lseek fd 0 Whence.SEEK_CUR w).2.pos = w.pos) := by
  unfold sys_lseek
  split
  · left; exact ⟨rfl, rfl⟩
  · right; simp

theorem memcpy_length (dst : List Nat) (off : Nat) (src : List Nat) :
    (memcpy dst off src).length = dst.length := by
  induction src generalizing dst off with
  | nil => rfl
  | cons b bs ih => simp [memcpy, ih]

theorem lz4fix_length (hdr : List Nat) (n : Nat) : (lz4fix hdr n).2.length = hdr.length := by
  unfold lz4fix
  by_cases h1 : hdr.take 4 ≠ htole32 0x184D2204
  · rw [if_pos h1]
  · rw [if_neg h1]
    by_cases h2 : hdr.getD 4 0 &&& 8 ≠ 0
    · rw [if_pos h2]
    · rw [if_neg h2]
      simp only [List.length_set, memcpy_length]

theorem createContext_world {σ : Type} (E : Engine σ) (w : World) (zctx : σ) (wc : World)
    (h : LZ4F_createCompressionContext E w = (Except.ok zctx, wc)) :
    E.createCompressionContext = Except.ok zctx ∧
    wc = { w with trace := w.trace ++ [Event.LZ4F_createCompressionContext true] } := by
  unfold LZ4F_createCompressionContext at h
  split at h
  · simp at h
  · next z hz =>
    injection h with h1 h2
    injection h1 with h3
    subst h3
    exact ⟨hz, h2.symm⟩

/-- What a session is when `lz4writer_fdopen` has returned it, and what the call did. -/
theorem fdopen_some {σ : Type} (E : Engine σ) (fd : Int) (level : Int) (wcs wchk : Bool)
    (w0 : World) (zw : lz4writer σ) (w1 : World)
    (h : lz4writer_fdopen E fd level wcs wchk w0 = Run.done (some zw) w1) :
    zw.fd = fd ∧ zw.error = false ∧ zw.writeContentSize = wcs ∧ zw.contentSize = 0 ∧
    zw.frameHeader.length = LZ4F_HEADER_SIZE_MAX ∧
    (wcs = true → zw.pos0 = (w0.pos : Int)) ∧
    ∃ out zctx0 wb,
      E.createCompressionContext = Except.ok zctx0 ∧
      (E.compressBegin zctx0 LZ4F_HEADER_SIZE_MAX
        { compressionLevel := level, blockSizeID := LZ4F_max256KB,
          contentChecksumFlag := wchk }).1 = ZRes.bytes out ∧
      zw.zctx = (E.compressBegin zctx0 LZ4F_HEADER_SIZE_MAX
        { compressionLevel := level, blockSizeID := LZ4F_max256KB,
          contentChecksumFlag := wchk }).2 ∧
      out.length = LZ4F_HEADER_SIZE_MAX - 8 ∧
      zw.frameHeader = memcpy (List.replicate LZ4F_HEADER_SIZE_MAX 0) 0 out ∧
      xwrite fd (zw.frameHeader.take (out.length + (if wcs then 1 else 0) * 8)) wb =
        Run.done true w1 ∧
      wb.file = w0.file ∧ wb.pos = w0.pos ∧
      wb.trace = w0.trace ++ [Event.malloc true] ++
        (if wcs then [Event.lseek fd 0 Whence.SEEK_CUR (w0.pos : Int)] else []) ++
        [Event.LZ4F_createCompressionContext true, Event.LZ4F_compressBegin (ZRes.bytes out)] := by
  have hpos : wcs = true → ∀ wm, sys_malloc w0 = (true, wm) →
      ¬ (sys_lseek fd 0 Whence.SEEK_CUR wm).1 = -1 →
      (sys_lseek fd 0 Whence.SEEK_CUR wm).1 = (w0.pos : Int) := by
    intro _ wm hm hseek
    have hmp : wm.pos = w0.pos := by
      have := (sys_malloc_world w0).1
      rw [hm] at this
      exact this
    rcases sys_lseek_cur fd wm with ⟨h1, _⟩ | ⟨h1, _⟩
    · exact absurd h1 hseek
    · rw [h1, hmp]
  unfold lz4writer_fdopen at h
  simp only [] at h
  split at h
  · simp at h
  · split at h
    · simp at h
    · next wm hm =>
      have hsk : ¬ (wcs = true ∧ (if wcs = true then sys_lseek fd 0 Whence.SEEK_CUR wm
          else (0, wm)).1 = -1) := by
        intro hc
        rw [if_pos hc] at h
        simp at h
      rw [if_neg hsk] at h
      split at h
      · simp at h
      · next zctx0 wc hc =>
        split at h
        · simp at h
        · next out zctx1 wb hb =>
          by_cases hlen : out.length ≠ LZ4F_HEADER_SIZE_MAX - 8
          · rw [if_pos hlen] at h
            simp at h
          · rw [if_neg hlen] at h
            split at h
            · simp at h
            · simp at h
            · next wx hx =>
              injection h with h1 h2
              injection h1 with h3
              subst h3 h2
              obtain ⟨hcc, hwc⟩ := createContext_world E _ zctx0 wc hc
              simp only [LZ4F_compressBegin] at hb
              injection hb with hb1 hb2
              injection hb2 with hb3 hb4
              obtain ⟨m1, m2, _, _, _, m6⟩ := sys_malloc_world w0
              rw [hm] at m1 m2 m6
              simp only [] at m1 m2 m6
              refine ⟨rfl, rfl, rfl, rfl, ?_, ?_, out, zctx0, wb, hcc, hb1, hb3.symm, ?_, rfl,
                hx, ?_, ?_, ?_⟩
              · simp [memcpy_length]
              · intro hw
                subst hw
                simp only [true_and, if_true] at hsk ⊢
                exact hpos rfl wm hm hsk
              · simpa using hlen
              · rw [← hb4, hwc]
                cases wcs with
                | false => simpa using m2
                | true =>
                  simp only [if_true]
                  rw [(sys_lseek_world fd 0 Whence.SEEK_CUR wm).1, m2]
              · rw [← hb4, hwc]
                cases wcs with
                | false => simpa using m1
                | true =>
                  simp only [if_true]
                  rcases sys_lseek_cur fd wm with ⟨_, h2⟩ | ⟨_, h2⟩ <;> rw [h2, m1]
              · rw [← hb4, hwc, hb1]
                cases wcs with
                | false => simp [m6]
                | true =>
                  simp only [true_and, if_true] at hsk
                  have := hpos rfl wm hm hsk
                  simp only [if_true]
                  rw [(sys_lseek_world fd 0 Whence.SEEK_CUR wm).2.2.2.2.2, m6, this]
                  simp

/-! ## A whole session -/

/-- The total number of bytes passed by a list of `lz4writer_write` calls. -/
theorem lengths_sum_cons (buf : List Nat) (bufs : List (List Nat)) :
    ((buf :: bufs).map List.length).sum = buf.length + (bufs.map List.length).sum := by
  simp

theorem write_done {σ : Type} (E : Engine σ) (zw : lz4writer σ) (buf : List Nat) (w : World)
    (r : Bool) (zw' : lz4writer σ) (w' : World)
    (h : lz4writer_write E zw buf w = Run.done (r, zw') w') :
    zw'.fd = zw.fd ∧ zw'.writeContentSize = zw.writeContentSize ∧ zw'.pos0 = zw.pos0 ∧
    zw'.frameHeader = zw.frameHeader ∧ zw'.zbufSize = zw.zbufSize ∧
    (r = true → zw.error = false ∧ zw'.error = false ∧
      zw'.contentSize = (zw.contentSize + buf.length) % 2 ^ 64) := by
  unfold lz4writer_write at h
  by_cases he : zw.error = true
  · rw [if_pos he] at h
    injection h with h1 h2
    injection h1 with h3 h4
    subst h3 h4
    simp
  · rw [if_neg he] at h
    obtain ⟨h1, h2, h3, h4, h5, h6, h7⟩ := write_loop_done E _ _ _ _ _ _ _ h
    refine ⟨h1, h2, h4, h5, h6, ?_⟩
    intro hr
    subst hr
    have he' : zw.error = false := by simpa using he
    refine ⟨he', ?_, h3⟩
    rw [h7]; simp [he']

/-- A run of `lz4writer_write` calls that all returned true has added the lengths of their
buffers to the content-size counter, modulo 2^64, and has left the header buffer, the saved
offset and the flags of the session alone. -/
theorem write_all_true {σ : Type} (E : Engine σ) : ∀ (bufs : List (List Nat))
    (zw : lz4writer σ) (w : World) (rs : List Bool) (zw' : lz4writer σ) (w' : World),
    lz4writer_write_all E zw bufs w = Run.done (rs, zw') w' → (∀ r ∈ rs, r = true) →
    zw.error = false → zw.contentSize < 2 ^ 64 →
    zw'.fd = zw.fd ∧ zw'.writeContentSize = zw.writeContentSize ∧ zw'.pos0 = zw.pos0 ∧
    zw'.frameHeader = zw.frameHeader ∧ zw'.zbufSize = zw.zbufSize ∧ zw'.error = false ∧
    zw'.contentSize = (zw.contentSize + (bufs.map List.length).sum) % 2 ^ 64 ∧
    rs.length = bufs.length := by
  intro bufs
  induction bufs with
  | nil =>
    intro zw w rs zw' w' h _ he hcs
    unfold lz4writer_write_all at h
    injection h with h1 h2
    injection h1 with h3 h4
    subst h3 h4
    refine ⟨rfl, rfl, rfl, rfl, rfl, he, ?_, rfl⟩
    simp only [List.map_nil, List.sum_nil, Nat.add_zero]
    exact (Nat.mod_eq_of_lt hcs).symm
  | cons buf bufs ih =>
    intro zw w rs zw' w' h hall he hcs
    unfold lz4writer_write_all at h
    split at h
    · simp at h
    · next r zw1 w1 hw =>
      split at h
      · simp at h
      · next rs1 zw2 w2 hrest =>
        injection h with h1 h2
        injection h1 with h3 h4
        subst h3 h4
        have hr : r = true := hall r (List.mem_cons_self _ _)
        have hrs : ∀ x ∈ rs1, x = true := fun x hx => hall x (List.mem_cons_of_mem _ hx)
        obtain ⟨a1, a2, a3, a4, a5, a6⟩ := write_done E zw buf w r zw1 w1 hw
        obtain ⟨_, b2, b3⟩ := a6 hr
        have hcs1 : zw1.contentSize < 2 ^ 64 := by
          rw [b3]; exact Nat.mod_lt _ (by norm_num)
        obtain ⟨c1, c2, c3, c4, c5, c6, c7, c8⟩ := ih zw1 w1 rs1 zw2 w2 hrest hrs b2 hcs1
        refine ⟨c1.trans a1, c2.trans a2, c3.trans a3, c4.trans a4, c5.trans a5, c6, ?_, ?_⟩
        · rw [c7, b3, lengths_sum_cons, Nat.mod_add_mod, Nat.add_assoc]
        · simp [c8]

theorem xwrite_succeeded_of_events (fd : Int) (buf : List Nat) (w : World) (hbuf : buf ≠ [])
    (evs : List Event) (htr : (xwrite fd buf w).world.trace = w.trace ++ evs)
    (hall : ∀ e ∈ evs, e.succeeded = true) : ∃ w', xwrite fd buf w = Run.done true w' := by
  apply xwrite_succeeded fd buf w hbuf
  rw [htr, List.drop_left]
  exact hall

theorem justClose_world {σ : Type} (zw : lz4writer σ) (w : World) :
    (justClose zw w).trace =
      w.trace ++ [Event.close zw.fd, Event.LZ4F_freeCompressionContext, Event.free] ∧
    (justClose zw w).file = w.file ∧ (justClose zw w).pos = w.pos ∧
    (justClose zw w).err = w.err := by
  simp [justClose, sys_free, LZ4F_freeCompressionContext, sys_close]

theorem compressEnd_world {σ : Type} (E : Engine σ) (zctx : σ) (cap : Nat) (w : World) :
    (LZ4F_compressEnd E zctx cap w).2.2 =
      { w with trace := w.trace ++ [Event.LZ4F_compressEnd (E.compressEnd zctx cap).1] } := by
  rfl

/-- When the session has no error, the size field was requested, the header buffer holds an
unpatched header and every external call `lz4writer_close` makes succeeds, it returns true
and the file holds the patched header at the saved offset. -/
theorem close_succeeds {σ : Type} (E : Engine σ) (zw : lz4writer σ) (w : World)
    (he : zw.error = false) (hwcs : zw.writeContentSize = true)
    (hlen : zw.frameHeader.length = 15)
    (hmagic : zw.frameHeader.take 4 = [0x04, 0x22, 0x4D, 0x18])
    (hflag : (zw.frameHeader.getD 4 0).testBit 3 = false)
    (hok : ∀ e ∈ (lz4writer_close E zw w).world.trace.drop w.trace.length,
      e.succeeded = true) :
    ∃ w3, lz4writer_close E zw w = Run.done true w3 ∧
      (w3.file.drop zw.pos0.toNat).take 15 = (lz4fix zw.frameHeader zw.contentSize).2 := by
  have hfix : (lz4fix zw.frameHeader zw.contentSize).1 = true :=
    (lz4fix_true_iff _ _).2 ⟨hmagic, hflag⟩
  have hfl : (lz4fix zw.frameHeader zw.contentSize).2.length = 15 := by
    rw [lz4fix_length, hlen]
  have hfne : (lz4fix zw.frameHeader zw.contentSize).2 ≠ [] := by
    intro h0; rw [h0] at hfl; simp at hfl
  rcases close_cases E zw w with ⟨he1, _⟩ | ⟨_, c, hend, hcl⟩ | ⟨_, out, hend, hrest⟩
  · rw [he] at he1; exact absurd he1 (by simp)
  · exfalso
    rw [hcl] at hok
    have := hok (Event.LZ4F_compressEnd (ZRes.error c))
      (by simp [Run.world, sys_free, LZ4F_freeCompressionContext, ERRLZ4, compressEnd_world,
        hend])
    simp [Event.succeeded] at this
  · have hW1 := compressEnd_world E zw.zctx zw.zbufSize w
    rw [hend] at hW1
    rcases hrest with ⟨ho, hcl⟩ | ⟨ho, why, w2, hx, hcl⟩ | ⟨ho, w2, hx, hcl⟩ |
      ⟨ho, w2, hx, hrest⟩
    · exfalso
      rw [hcl, hW1] at hok
      have := hok (Event.LZ4F_compressEnd (ZRes.bytes out)) (by simp [Run.world])
      simp [Event.succeeded, ho] at this
    · exfalso
      obtain ⟨evs, h1, _⟩ := xwrite_world zw.fd out (LZ4F_compressEnd E zw.zctx zw.zbufSize w).2.2
      rw [hcl] at hok
      have hall : ∀ e ∈ evs, e.succeeded = true := by
        intro e he0
        apply hok
        rw [hx] at h1
        simp only [Run.world] at h1 ⊢
        rw [h1, hW1]
        simp [he0]
      obtain ⟨w', hw'⟩ := xwrite_succeeded_of_events _ _ _ ho evs h1 hall
      rw [hx] at hw'
      simp at hw'
    · exfalso
      obtain ⟨evs, h1, _⟩ := xwrite_world zw.fd out (LZ4F_compressEnd E zw.zctx zw.zbufSize w).2.2
      rw [hcl] at hok
      have hall : ∀ e ∈ evs, e.succeeded = true := by
        intro e he0
        apply hok
        rw [hx] at h1
        simp only [Run.world] at h1 ⊢
        rw [(justClose_world zw _).1]
        simp only [ERRNO]
        rw [h1, hW1]
        simp [he0]
      obtain ⟨w', hw'⟩ := xwrite_succeeded_of_events _ _ _ ho evs h1 hall
      rw [hx] at hw'
      simp at hw'
    · obtain ⟨evs1, g1, _⟩ :=
        xwrite_world zw.fd out (LZ4F_compressEnd E zw.zctx zw.zbufSize w).2.2
      rw [hx] at g1
      simp only [Run.world] at g1
      rw [hW1] at g1
      simp only [] at g1
      obtain ⟨_, _, _, _, _, s6⟩ := sys_lseek_world zw.fd zw.pos0 Whence.SEEK_SET w2
      rcases hrest with ⟨hs, _⟩ | ⟨_, hm1, hcl⟩ | ⟨_, hm1, hne, _⟩ | ⟨_, hm1, heq, hrest⟩
      · rw [hwcs] at hs; exact absurd hs (by simp)
      · exfalso
        rw [hcl] at hok
        have := hok (Event.lseek zw.fd zw.pos0 Whence.SEEK_SET
            (sys_lseek zw.fd zw.pos0 Whence.SEEK_SET w2).1) (by
          simp only [Run.world]
          rw [(justClose_world zw _).1]
          simp only [ERRNO]
          rw [s6, g1]
          simp)
        simp [Event.succeeded, hm1] at this
      · exfalso
        rcases sys_lseek_set zw.fd zw.pos0 w2 with ⟨h, _⟩ | ⟨h, _⟩
        · exact hm1 h
        · exact hne h
      · have hpos3 : (sys_lseek zw.fd zw.pos0 Whence.SEEK_SET w2).2.pos = zw.pos0.toNat := by
          rcases sys_lseek_set zw.fd zw.pos0 w2 with ⟨h, _⟩ | ⟨_, h⟩
          · exact absurd h hm1
          · exact h
        obtain ⟨evs4, g4, _⟩ := xwrite_world zw.fd (lz4fix zw.frameHeader zw.contentSize).2
          (sys_lseek zw.fd zw.pos0 Whence.SEEK_SET w2).2
        rcases hrest with ⟨hf, _⟩ | ⟨_, why, w4, hx4, hcl⟩ | ⟨_, w4, hx4, hcl⟩ |
          ⟨_, w4, hx4, hcl⟩
        · rw [hfix] at hf; exact absurd hf (by simp)
        · exfalso
          rw [hcl] at hok
          have hall : ∀ e ∈ evs4, e.succeeded = true := by
            intro e he0
            apply hok
            rw [hx4] at g4
            simp only [Run.world] at g4 ⊢
            rw [g4, s6, g1]
            simp [he0]
          obtain ⟨w', hw'⟩ := xwrite_succeeded_of_events _ _ _ hfne evs4 g4 hall
          rw [hx4] at hw'
          simp at hw'
        · exfalso
          rw [hcl] at hok
          have hall : ∀ e ∈ evs4, e.succeeded = true := by
            intro e he0
            apply hok
            rw [hx4] at g4
            simp only [Run.world] at g4 ⊢
            rw [(justClose_world zw _).1]
            simp only [ERRNO]
            rw [g4, s6, g1]
            simp [he0]
          obtain ⟨w', hw'⟩ := xwrite_succeeded_of_events _ _ _ hfne evs4 g4 hall
          rw [hx4] at hw'
          simp at hw'
        · refine ⟨_, hcl, ?_⟩
          obtain ⟨_, _, _, _, _, _, h5, _⟩ := xwrite_true _ _ _ _ hx4
          rw [(justClose_world zw w4).2.1, h5, hpos3, ← hfl]
          exact pwrite_read _ _ _

theorem lz4fix_ok_fields (hdr : List Nat) (n : Nat) (hlen : hdr.length = 15)
    (hmagic : hdr.take 4 = [0x04, 0x22, 0x4D, 0x18])
    (hflag : (hdr.getD 4 0).testBit 3 = false) :
    ((lz4fix hdr n).2.getD 4 0).testBit 3 = true ∧
    ∀ i, i < 8 → (lz4fix hdr n).2.getD (6 + i) 0 = ((n % 2 ^ 64) >>> (8 * i)) % 256 := by
  obtain ⟨b0, b1, b2, b3, b4, b5, b6, b7, b8, b9, b10, b11, b12, b13, b14, rfl⟩ :=
    list_length_fifteen hdr hlen
  simp only [List.take_succ_cons, List.take_zero] at hmagic
  simp only [List.getD_cons_zero, List.getD_cons_succ] at hflag
  rw [lz4fix_ok_eq _ _ _ _ _ _ _ _ _ _ _ _ _ _ _ _ hmagic hflag]
  constructor
  · simp only [List.getD_cons_zero, List.getD_cons_succ, Nat.testBit_or]
    have h8 : Nat.testBit 8 3 = true := by decide
    rw [h8, Bool.or_true]
  · intro i hi
    interval_cases i <;>
      simp only [List.getD_cons_zero, List.getD_cons_succ, Nat.shiftRight_eq_div_pow,
        Nat.mul_zero, Nat.pow_zero, Nat.div_one, Nat.reduceMul, Nat.reduceAdd]

theorem getD_of_drop_take (l bs : List Nat) (p k : Nat) (h : (l.drop p).take bs.length = bs)
    (hk : k < bs.length) : l.getD (p + k) 0 = bs.getD k 0 := by
  have h1 : ((l.drop p).take bs.length)[k]? = bs[k]? := by rw [h]
  rw [List.getElem?_take_of_lt hk, List.getElem?_drop] at h1
  simp only [List.getD_eq_getElem?_getD, h1]

/-- C1: on a session opened with the size field requested, for any sequence of
`lz4writer_write` calls (none, one or many, of any lengths), if the header buffer holds a
begin-frame header with the magic and the size flag clear, the writes returned true and
every external call `lz4writer_close` makes succeeds, then `lz4writer_close` returns true
and the header it leaves at the offset saved on opening has bit 3 of byte 4 set and bytes
6..13 equal to the little-endian encoding of the sum of the lengths of all writes, modulo
2^64. -/
theorem close_stores_total_size {σ : Type} (E : Engine σ) (fd : Int) (level : Int)
    (wchk : Bool) (w0 : World) (zw : lz4writer σ) (w1 : World) (bufs : List (List Nat))
    (rs : List Bool) (zw2 : lz4writer σ) (w2 : World)
    (hopen : lz4writer_fdopen E fd level true wchk w0 = Run.done (some zw) w1)
    (hmagic : zw.frameHeader.take 4 = [0x04, 0x22, 0x4D, 0x18])
    (hflag : (zw.frameHeader.getD 4 0).testBit 3 = false)
    (hwr : lz4writer_write_all E zw bufs w1 = Run.done (rs, zw2) w2)
    (hrs : ∀ r ∈ rs, r = true)
    (hok : ∀ e ∈ (lz4writer_close E zw2 w2).world.trace.drop w2.trace.length,
      e.succeeded = true) :
    ∃ w3, lz4writer_close E zw2 w2 = Run.done true w3 ∧
      (w3.file.getD (w0.pos + 4) 0).testBit 3 = true ∧
      ∀ i, i < 8 → w3.file.getD (w0.pos + 6 + i) 0 =
        (((bufs.map List.length).sum % 2 ^ 64) >>> (8 * i)) % 256 := by
  obtain ⟨_, o2, o3, o4, o5, o6, _⟩ := fdopen_some E fd level true wchk w0 zw w1 hopen
  have hcs : zw.contentSize < 2 ^ 64 := by rw [o4]; norm_num
  obtain ⟨_, a2, a3, a4, _, a6, a7, _⟩ := write_all_true E bufs zw w1 rs zw2 w2 hwr hrs o2 hcs
  have hlen : zw2.frameHeader.length = 15 := by rw [a4, o5]; rfl
  have hp0 : zw2.pos0.toNat = w0.pos := by rw [a3, o6 rfl]; simp
  obtain ⟨w3, hcl, hfile⟩ := close_succeeds E zw2 w2 a6 (a2.trans o3) hlen
    (by rw [a4]; exact hmagic) (by rw [a4]; exact hflag) hok
  have hfl : (lz4fix zw2.frameHeader zw2.contentSize).2.length = 15 := by
    rw [lz4fix_length, hlen]
  rw [hp0, ← hfl] at hfile
  obtain ⟨f1, f2⟩ := lz4fix_ok_fields zw2.frameHeader zw2.contentSize hlen
    (by rw [a4]; exact hmagic) (by rw [a4]; exact hflag)
  refine ⟨w3, hcl, ?_, ?_⟩
  · rw [getD_of_drop_take _ _ _ 4 hfile (by rw [hfl]; norm_num)]
    exact f1
  · intro i hi
    rw [Nat.add_assoc, getD_of_drop_take _ _ _ (6 + i) hfile (by rw [hfl]; omega), f2 i hi,
      a7, o4, Nat.zero_add, Nat.mod_mod]

theorem close_stores_total_size_witness :
    ∃ w3,
      lz4writer_close (scriptedEngine [ZRes.bytes [], ZRes.bytes [7, 7]] (ZRes.bytes [0, 0, 0, 0]))
        { sampleSession [] 2 with contentSize := 5 }
        (lz4writer_write_all
          (scriptedEngine [ZRes.bytes [], ZRes.bytes [7, 7]] (ZRes.bytes [0, 0, 0, 0]))
          (sampleSession [ZRes.bytes [], ZRes.bytes [7, 7]] 2) [[1, 2, 3], [4, 5], []]
          (lz4writer_fdopen
            (scriptedEngine [ZRes.bytes [], ZRes.bytes [7, 7]] (ZRes.bytes [0, 0, 0, 0]))
            1 1 true false World.bumpy).world).world = Run.done true w3 ∧
      (w3.file.getD (World.bumpy.pos + 4) 0).testBit 3 = true ∧
      ∀ i, i < 8 → w3.file.getD (World.bumpy.pos + 6 + i) 0 =
        ((([[1, 2, 3], [4, 5], []].map List.length).sum % 2 ^ 64) >>> (8 * i)) % 256 :=
  close_stores_total_size
    (scriptedEngine [ZRes.bytes [], ZRes.bytes [7, 7]] (ZRes.bytes [0, 0, 0, 0])) 1 1 false
    World.bumpy (sampleSession [ZRes.bytes [], ZRes.bytes [7, 7]] 2)
    (lz4writer_fdopen
      (scriptedEngine [ZRes.bytes [], ZRes.bytes [7, 7]] (ZRes.bytes [0, 0, 0, 0]))
      1 1 true false World.bumpy).world
    [[1, 2, 3], [4, 5], []] [true, true, true] { sampleSession [] 2 with contentSize := 5 }
    (lz4writer_write_all
      (scriptedEngine [ZRes.bytes [], ZRes.bytes [7, 7]] (ZRes.bytes [0, 0, 0, 0]))
      (sampleSession [ZRes.bytes [], ZRes.bytes [7, 7]] 2) [[1, 2, 3], [4, 5], []]
      (lz4writer_fdopen
        (scriptedEngine [ZRes.bytes [], ZRes.bytes [7, 7]] (ZRes.bytes [0, 0, 0, 0]))
        1 1 true false World.bumpy).world).world
    rfl (by decide) (by decide) rfl (by decide) (by decide)

/-! ## Release of the resources -/

theorem count_of_writes (evs : List Event) (a : Event) (hw : ∀ e ∈ evs, e.isWrite = true)
    (ha : a.isWrite = false) : evs.count a = 0 := by
  apply List.count_eq_zero_of_not_mem
  intro hmem
  have := hw a hmem
  rw [ha] at this
  exact Bool.false_ne_true this

theorem write_not_release (e : Event) (h : e.isWrite = true) : e.isRelease = false := by
  cases e <;> simp_all [Event.isWrite, Event.isRelease]

theorem count_release_zero (pre : List Event) (a : Event) (ha : a.isRelease = true)
    (hq : ∀ e ∈ pre, e.isRelease = false) : pre.count a = 0 := by
  apply List.count_eq_zero_of_not_mem
  intro hmem
  have := hq a hmem
  rw [ha] at this
  exact Bool.noConfusion this

theorem justClose_counts {σ : Type} (zw : lz4writer σ) (w v : World) (pre : List Event)
    (hv : v.trace = w.trace ++ pre) (hq : ∀ e ∈ pre, e.isRelease = false) :
    ∃ evs, (justClose zw v).trace = w.trace ++ evs ∧
      evs.count Event.LZ4F_freeCompressionContext = 1 ∧ evs.count Event.free = 1 ∧
      evs.count (Event.close zw.fd) = 1 := by
  refine ⟨pre ++ [Event.close zw.fd, Event.LZ4F_freeCompressionContext, Event.free],
    ?_, ?_, ?_, ?_⟩
  · rw [(justClose_world zw v).1, hv, List.append_assoc]
  · rw [List.count_append, count_release_zero pre Event.LZ4F_freeCompressionContext rfl hq]
    simp
  · rw [List.count_append, count_release_zero pre Event.free rfl hq]
    simp
  · rw [List.count_append, count_release_zero pre (Event.close zw.fd) rfl hq]
    simp

/-- On every path on which `lz4writer_close` returns, the engine context is released once
and the session is freed once; the descriptor is closed once, except on the path taken
when `LZ4F_compressEnd` reports an error, where it is not closed at all. -/
theorem close_releases {σ : Type} (E : Engine σ) (zw : lz4writer σ) (w : World) (r : Bool)
    (w' : World) (h : lz4writer_close E zw w = Run.done r w') :
    ∃ evs, w'.trace = w.trace ++ evs ∧
      evs.count Event.LZ4F_freeCompressionContext = 1 ∧ evs.count Event.free = 1 ∧
      evs.count (Event.close zw.fd) =
        if zw.error = false ∧ (E.compressEnd zw.zctx zw.zbufSize).1.isError = true
        then 0 else 1 := by
  have hW1 := compressEnd_world E zw.zctx zw.zbufSize w
  rcases close_cases E zw w with ⟨he1, hcl⟩ | ⟨he, c, hend, hcl⟩ | ⟨he, out, hend, hrest⟩
  · rw [hcl] at h
    injection h with _ hw
    subst hw
    refine ⟨[Event.close zw.fd, Event.LZ4F_freeCompressionContext, Event.free],
      (justClose_world zw _).1, by simp, by simp, ?_⟩
    simp [he1]
  · rw [hcl] at h
    injection h with _ hw
    subst hw
    refine ⟨[Event.LZ4F_compressEnd (ZRes.error c), Event.LZ4F_freeCompressionContext,
      Event.free], ?_, by simp, by simp, ?_⟩
    · simp [sys_free, LZ4F_freeCompressionContext, ERRLZ4, hW1, hend]
    · have : zw.error = false ∧ (E.compressEnd zw.zctx zw.zbufSize).1.isError = true :=
        ⟨he, by rw [hend]; rfl⟩
      rw [if_pos this]
      simp
  · have hnot : ¬ (zw.error = false ∧
        (E.compressEnd zw.zctx zw.zbufSize).1.isError = true) := by
      rintro ⟨_, hc⟩
      rw [hend] at hc
      cases hc
    rw [if_neg hnot]
    rw [hend] at hW1
    rcases hrest with ⟨_, hcl⟩ | ⟨_, why, w2, _, hcl⟩ | ⟨_, w2, hx, hcl⟩ | ⟨_, w2, hx, hrest⟩
    · rw [hcl] at h; cases h
    · rw [hcl] at h; cases h
    · obtain ⟨evs1, g1, gw1, _⟩ :=
        xwrite_world zw.fd out (LZ4F_compressEnd E zw.zctx zw.zbufSize w).2.2
      rw [hx] at g1
      simp only [Run.world] at g1
      rw [hW1] at g1
      rw [hcl] at h
      injection h with _ hw
      subst hw
      apply justClose_counts zw w (ERRNO "write" w2)
        (Event.LZ4F_compressEnd (ZRes.bytes out) :: evs1)
      · simp only [ERRNO]; rw [g1]; simp
      · intro e he0
        rcases List.mem_cons.1 he0 with rfl | he0
        · rfl
        · exact write_not_release e (gw1 e he0)
    · obtain ⟨evs1, g1, gw1, _⟩ :=
        xwrite_world zw.fd out (LZ4F_compressEnd E zw.zctx zw.zbufSize w).2.2
      rw [hx] at g1
      simp only [Run.world] at g1
      rw [hW1] at g1
      simp only [] at g1
      obtain ⟨_, _, _, _, _, s6⟩ := sys_lseek_world zw.fd zw.pos0 Whence.SEEK_SET w2
      have hq1 : ∀ e ∈ Event.LZ4F_compressEnd (ZRes.bytes out) :: evs1,
          e.isRelease = false := by
        intro e he0
        rcases List.mem_cons.1 he0 with rfl | he0
        · rfl
        · exact write_not_release e (gw1 e he0)
      have hq2 : ∀ e ∈ Event.LZ4F_compressEnd (ZRes.bytes out) :: evs1 ++
          [Event.lseek zw.fd zw.pos0 Whence.SEEK_SET
            (sys_lseek zw.fd zw.pos0 Whence.SEEK_SET w2).1], e.isRelease = false := by
        intro e he0
        rcases List.mem_append.1 he0 with he0 | he0
        · exact hq1 e he0
        · rw [List.mem_singleton.1 he0]; rfl
      rcases hrest with ⟨_, hcl⟩ | ⟨_, _, hcl⟩ | ⟨_, _, _, hcl⟩ | ⟨_, _, _, hrest⟩
      · rw [hcl] at h
        injection h with _ hw
        subst hw
        exact justClose_counts zw w w2 _ (by rw [g1]; simp) hq1
      · rw [hcl] at h
        injection h with _ hw
        subst hw
        exact justClose_counts zw w (ERRNO "lseek" _) _
          (by simp only [ERRNO]; rw [s6, g1]; simp) hq2
      · rw [hcl] at h; cases h
      · obtain ⟨evs4, g4, gw4, _⟩ :=
          xwrite_world zw.fd (lz4fix zw.frameHeader zw.contentSize).2
            (sys_lseek zw.fd zw.pos0 Whence.SEEK_SET w2).2
        have hq3 : ∀ e ∈ (Event.LZ4F_compressEnd (ZRes.bytes out) :: evs1 ++
            [Event.lseek zw.fd zw.pos0 Whence.SEEK_SET
              (sys_lseek zw.fd zw.pos0 Whence.SEEK_SET w2).1]) ++ evs4,
            e.isRelease = false := by
          intro e he0
          rcases List.mem_append.1 he0 with he0 | he0
          · exact hq2 e he0
          · exact write_not_release e (gw4 e he0)
        rcases hrest with ⟨_, hcl⟩ | ⟨_, why, w4, _, hcl⟩ | ⟨_, w4, hx4, hcl⟩ |
          ⟨_, w4, hx4, hcl⟩
        · rw [hcl] at h
          injection h with _ hw
          subst hw
          exact justClose_counts zw w
            (ERRSTR "lz4writer_close" "cannot fix lz4 frame header" _) _
            (by simp only [ERRSTR]; rw [s6, g1]; simp) hq2
        · rw [hcl] at h; cases h
        · rw [hx4] at g4
          simp only [Run.world] at g4
          rw [hcl] at h
          injection h with _ hw
          subst hw
          exact justClose_counts zw w (ERRNO "write" w4) _
            (by simp only [ERRNO]; rw [g4, s6, g1]; simp) hq3
        · rw [hx4] at g4
          simp only [Run.world] at g4
          rw [hcl] at h
          injection h with _ hw
          subst hw
          exact justClose_counts zw w w4 _ (by rw [g4, s6, g1]; simp) hq3

/-- C10: on the path of `lz4writer_close` taken when `LZ4F_compressEnd` reports an error,
the engine context is released and the session freed, but `close(fd)` is never called: the
trace of the call holds no `close` event. -/
theorem close_finalize_failure_leaves_fd_open :
    lz4writer_close (scriptedEngine [] (ZRes.error 1)) (sampleSession [] 0) World.quiet =
      Run.done false
        { World.quiet with
            err := { err0 := some "LZ4F_compressEnd", err1 := some (ErrMsg.LZ4F_getErrorName 1) },
            trace := [Event.LZ4F_compressEnd (ZRes.error 1), Event.LZ4F_freeCompressionContext,
              Event.free] } ∧
    (lz4writer_close (scriptedEngine [] (ZRes.error 1)) (sampleSession [] 0)
      World.quiet).world.trace.count (Event.close 1) = 0 ∧
    (lz4writer_close (scriptedEngine [] (ZRes.error 1)) { sampleSession [] 0 with error := true }
      World.quiet).world.trace.count (Event.close 1) = 1 := by
  decide

/-! ## The header checksum byte and the length of the provisional header -/

/-- C12, as stated, fails: for the header of a frame with 256 KiB independent blocks and
content size 11 the byte `lz4fix` stores at offset 14 is 217, while the top 8 bits of the
hash of the 10 bytes starting at the flags byte are 159. -/
theorem lz4fix_checksum_is_not_top_byte :
    (lz4fix [0x04, 0x22, 0x4D, 0x18, 0x60, 0x50, 0xFB, 0, 0, 0, 0, 0, 0, 0, 0] 11).1 = true ∧
    (lz4fix [0x04, 0x22, 0x4D, 0x18, 0x60, 0x50, 0xFB, 0, 0, 0, 0, 0, 0, 0, 0] 11).2.getD 14 0
      = 217 ∧
    XXH_hash10 ((lz4fix [0x04, 0x22, 0x4D, 0x18, 0x60, 0x50, 0xFB, 0, 0, 0, 0, 0, 0, 0, 0]
      11).2.drop 4) >>> 24 = 159 ∧
    (lz4fix [0x04, 0x22, 0x4D, 0x18, 0x60, 0x50, 0xFB, 0, 0, 0, 0, 0, 0, 0, 0] 11).2.getD 14 0
      ≠ XXH_hash10 ((lz4fix [0x04, 0x22, 0x4D, 0x18, 0x60, 0x50, 0xFB, 0, 0, 0, 0, 0, 0, 0, 0]
          11).2.drop 4) >>> 24 := by
  decide

/-- C12, amended: after a successful `lz4fix` on a 15-byte header, the byte at offset 14 is
bits 8..15 of the hash of the 10 bytes starting at the flags byte, (hash >> 8) mod 256, the
second byte of the hash and not its top byte. -/
theorem lz4fix_checksum_is_second_byte (hdr : List Nat) (n : Nat) (hlen : hdr.length = 15)
    (hok : (lz4fix hdr n).1 = true) :
    (lz4fix hdr n).2.getD 14 0 = (XXH_hash10 ((lz4fix hdr n).2.drop 4) >>> 8) % 256 ∧
    (lz4fix hdr n).2.getD 14 0 =
      (XXH_hash10 (((lz4fix hdr n).2.drop 4).take 10) / 2 ^ 8) % 2 ^ 8 := by
  obtain ⟨hmagic, hflag⟩ := (lz4fix_true_iff hdr n).1 hok
  obtain ⟨b0, b1, b2, b3, b4, b5, b6, b7, b8, b9, b10, b11, b12, b13, b14, rfl⟩ :=
    list_length_fifteen hdr hlen
  simp only [List.take_succ_cons, List.take_zero] at hmagic
  simp only [List.getD_cons_zero, List.getD_cons_succ] at hflag
  rw [lz4fix_ok_eq _ _ _ _ _ _ _ _ _ _ _ _ _ _ _ _ hmagic hflag]
  simp only [List.getD_cons_zero, List.getD_cons_succ, List.drop_succ_cons, List.drop_zero,
    List.take_succ_cons, List.take_zero, hash10_ignores_tail, Nat.shiftRight_eq_div_pow]
  norm_num

theorem lz4fix_checksum_is_second_byte_witness :
    (lz4fix [0x04, 0x22, 0x4D, 0x18, 0x60, 0x50, 0xFB, 0, 0, 0, 0, 0, 0, 0, 0] 11).2.getD 14 0 =
      (XXH_hash10 ((lz4fix [0x04, 0x22, 0x4D, 0x18, 0x60, 0x50, 0xFB, 0, 0, 0, 0, 0, 0, 0, 0]
        11).2.drop 4) >>> 8) % 256 :=
  (lz4fix_checksum_is_second_byte
    [0x04, 0x22, 0x4D, 0x18, 0x60, 0x50, 0xFB, 0, 0, 0, 0, 0, 0, 0, 0] 11
    (by decide) (by decide)).1

theorem fdopen_delivered {σ : Type} (E : Engine σ) (fd : Int) (level : Int) (wcs wchk : Bool)
    (w0 : World) (zw : lz4writer σ) (w1 : World)
    (h : lz4writer_fdopen E fd level wcs wchk w0 = Run.done (some zw) w1) :
    delivered (w1.trace.drop w0.trace.length) =
      zw.frameHeader.take (LZ4F_HEADER_SIZE_MAX - 8 + (if wcs then 1 else 0) * 8) ∧
    w1.file = pwrite w0.file w0.pos
      (zw.frameHeader.take (LZ4F_HEADER_SIZE_MAX - 8 + (if wcs then 1 else 0) * 8)) ∧
    w1.pos = w0.pos + (LZ4F_HEADER_SIZE_MAX - 8 + (if wcs then 1 else 0) * 8) := by
  obtain ⟨_, _, _, _, o5, _, out, zctx0, wb, _, _, _, hol, _, hx, hbf, hbp, hbt⟩ :=
    fdopen_some E fd level wcs wchk w0 zw w1 h
  rw [hol] at hx
  obtain ⟨_, evs, h1, _, h3, _, h5, h6⟩ := xwrite_true _ _ _ _ hx
  have hl : (zw.frameHeader.take (LZ4F_HEADER_SIZE_MAX - 8 + (if wcs then 1 else 0) * 8)).length
      = LZ4F_HEADER_SIZE_MAX - 8 + (if wcs then 1 else 0) * 8 := by
    rw [List.length_take, o5]
    cases wcs <;> simp [LZ4F_HEADER_SIZE_MAX]
  refine ⟨?_, ?_, ?_⟩
  · rw [h1, hbt]
    cases wcs <;>
      simp [delivered_append, delivered, Event.accepted, h3]
  · rw [h5, hbf, hbp]
  · rw [h6, hbp, hl]

/-- C13, as stated, fails: opened without the size field, `lz4writer_fdopen` delivers 7
bytes to the channel, not the 15 that the header buffer holds. -/
theorem fdopen_without_size_emits_seven :
    (delivered ((lz4writer_fdopen (scriptedEngine [] (ZRes.bytes [0, 0, 0, 0])) 1 1 false false
      World.quiet).world.trace.drop World.quiet.trace.length)).length = 7 ∧
    (delivered ((lz4writer_fdopen (scriptedEngine [] (ZRes.bytes [0, 0, 0, 0])) 1 1 true false
      World.quiet).world.trace.drop World.quiet.trace.length)).length = 15 ∧
    (delivered ((lz4writer_fdopen (scriptedEngine [] (ZRes.bytes [0, 0, 0, 0])) 1 1 false false
      World.quiet).world.trace.drop World.quiet.trace.length)).length ≠ LZ4F_HEADER_SIZE_MAX := by
  decide

/-- C13, amended: a successful `lz4writer_fdopen` delivers the first
`LZ4F_HEADER_SIZE_MAX - 8` bytes of the header buffer (7, the engine's header) when the size
field is not requested and all `LZ4F_HEADER_SIZE_MAX` bytes (15, the engine's header and 8
bytes of padding) when it is. -/
theorem fdopen_header_length {σ : Type} (E : Engine σ) (fd : Int) (level : Int)
    (wcs wchk : Bool) (w0 : World) (zw : lz4writer σ) (w1 : World)
    (h : lz4writer_fdopen E fd level wcs wchk w0 = Run.done (some zw) w1) :
    delivered (w1.trace.drop w0.trace.length) =
      zw.frameHeader.take (if wcs then LZ4F_HEADER_SIZE_MAX else LZ4F_HEADER_SIZE_MAX - 8) ∧
    (delivered (w1.trace.drop w0.trace.length)).length = (if wcs then 15 else 7) := by
  obtain ⟨hd, _, _⟩ := fdopen_delivered E fd level wcs wchk w0 zw w1 h
  obtain ⟨_, _, _, _, o5, _⟩ := fdopen_some E fd level wcs wchk w0 zw w1 h
  rw [hd]
  cases wcs <;> simp [LZ4F_HEADER_SIZE_MAX, o5]

theorem fdopen_header_length_witness :
    (delivered ((lz4writer_fdopen (scriptedEngine [] (ZRes.bytes [0, 0, 0, 0])) 1 1 false false
      World.bumpy).world.trace.drop World.bumpy.trace.length)).length =
        (if false then 15 else 7) :=
  (fdopen_header_length (scriptedEngine [] (ZRes.bytes [0, 0, 0, 0])) 1 1 false false
    World.bumpy { sampleSession [] 0 with writeContentSize := false }
    (lz4writer_fdopen (scriptedEngine [] (ZRes.bytes [0, 0, 0, 0])) 1 1 false false
      World.bumpy).world rfl).2

/-! ## The error record -/

theorem xwrite_err (fd : Int) (buf : List Nat) (w : World) (r : Bool) (w' : World)
    (h : xwrite fd buf w = Run.done r w') : w'.err = w.err := by
  obtain ⟨_, _, _, _, _, _, h6⟩ := xwrite_world fd buf w
  rw [h] at h6
  exact h6

theorem fdopen_err {σ : Type} (E : Engine σ) (fd : Int) (level : Int) (wcs wchk : Bool)
    (w0 : World) (r : Option (lz4writer σ)) (w1 : World)
    (h : lz4writer_fdopen E fd level wcs wchk w0 = Run.done r w1) :
    (r = none → ∃ func msg, w1.err = { err0 := some func, err1 := some msg }) ∧
    (r ≠ none → w1.err = w0.err) := by
  have hm := (sys_malloc_world w0).2.2.2.2.1
  unfold lz4writer_fdopen at h
  simp only [] at h
  split at h
  · simp at h
  · split at h
    · next wm hmal =>
      injection h with h1 h2
      subst h1 h2
      exact ⟨fun _ => ⟨_, _, rfl⟩, fun hne => absurd rfl hne⟩
    · next wm hmal =>
      rw [hmal] at hm
      simp only [] at hm
      have hsk : (if wcs = true then sys_lseek fd 0 Whence.SEEK_CUR wm else (0, wm)).2.err
          = w0.err := by
        cases wcs with
        | false => simpa using hm
        | true => simp only [if_true]; rw [(sys_lseek_world fd 0 Whence.SEEK_CUR wm).2.2.2.1, hm]
      by_cases hcond : wcs = true ∧
          (if wcs = true then sys_lseek fd 0 Whence.SEEK_CUR wm else (0, wm)).1 = -1
      · rw [if_pos hcond] at h
        injection h with h1 h2
        subst h1 h2
        exact ⟨fun _ => ⟨_, _, rfl⟩, fun hne => absurd rfl hne⟩
      · rw [if_neg hcond] at h
        split at h
        · injection h with h1 h2
          subst h1 h2
          exact ⟨fun _ => ⟨_, _, rfl⟩, fun hne => absurd rfl hne⟩
        · next zctx0 wc hc =>
          obtain ⟨_, hwc⟩ := createContext_world E _ zctx0 wc hc
          split at h
          · injection h with h1 h2
            subst h1 h2
            exact ⟨fun _ => ⟨_, _, rfl⟩, fun hne => absurd rfl hne⟩
          · next out zctx1 wb hb =>
            simp only [LZ4F_compressBegin] at hb
            injection hb with hb1 hb2
            injection hb2 with hb3 hb4
            have hwb : wb.err = w0.err := by rw [← hb4, hwc]; exact hsk
            by_cases hlen : out.length ≠ LZ4F_HEADER_SIZE_MAX - 8
            · rw [if_pos hlen] at h
              simp at h
            · rw [if_neg hlen] at h
              split at h
              · simp at h
              · injection h with h1 h2
                subst h1 h2
                exact ⟨fun _ => ⟨_, _, rfl⟩, fun hne => absurd rfl hne⟩
              · next wx hx =>
                injection h with h1 h2
                subst h1 h2
                refine ⟨fun hn => (by cases hn), fun _ => ?_⟩
                rw [xwrite_err _ _ _ _ _ hx, hwb]

theorem write_loop_err {σ : Type} (E : Engine σ) : ∀ (fuel : Nat) (zw : lz4writer σ)
    (buf : List Nat) (w : World) (r : Bool) (zw' : lz4writer σ) (w' : World),
    lz4writer_write_loop E fuel zw buf w = Run.done (r, zw') w' →
    (r = false → ∃ func msg, w'.err = { err0 := some func, err1 := some msg }) ∧
    (r = true → w'.err = w.err) := by
  intro fuel
  induction fuel with
  | zero =>
    intro zw buf w r zw' w' h
    unfold lz4writer_write_loop at h
    split at h
    · injection h with h1 h2
      injection h1 with h3 h4
      subst h3 h2
      exact ⟨fun hf => (by cases hf), fun _ => rfl⟩
    · simp at h
  | succ fuel ih =>
    intro zw buf w r zw' w' h
    unfold lz4writer_write_loop at h
    by_cases hb : buf.length = 0
    · rw [if_pos hb] at h
      injection h with h1 h2
      injection h1 with h3 h4
      subst h3 h2
      exact ⟨fun hf => (by cases hf), fun _ => rfl⟩
    · rw [if_neg hb] at h
      split at h
      · next zctx wu hu =>
        have hwu : wu.err = w.err := by
          simp only [LZ4F_compressUpdate] at hu
          injection hu with _ hu2
          injection hu2 with _ hu3
          rw [← hu3]
        obtain ⟨i1, i2⟩ := ih _ _ _ _ _ _ h
        exact ⟨i1, fun hr => (i2 hr).trans hwu⟩
      · injection h with h1 h2
        injection h1 with h3 h4
        subst h3 h2
        exact ⟨fun _ => ⟨_, _, rfl⟩, fun hf => by cases hf⟩
      · next out zctx wu _ hu =>
        have hwu : wu.err = w.err := by
          simp only [LZ4F_compressUpdate] at hu
          injection hu with _ hu2
          injection hu2 with _ hu3
          rw [← hu3]
        split at h
        · simp at h
        · injection h with h1 h2
          injection h1 with h3 h4
          subst h3 h2
          exact ⟨fun _ => ⟨_, _, rfl⟩, fun hf => by cases hf⟩
        · next wx hx =>
          obtain ⟨i1, i2⟩ := ih _ _ _ _ _ _ h
          exact ⟨i1, fun hr => ((i2 hr).trans (xwrite_err _ _ _ _ _ hx)).trans hwu⟩

theorem write_err {σ : Type} (E : Engine σ) (zw : lz4writer σ) (buf : List Nat) (w : World)
    (r : Bool) (zw' : lz4writer σ) (w' : World)
    (h : lz4writer_write E zw buf w = Run.done (r, zw') w') :
    (r = false → ∃ func msg, w'.err = { err0 := some func, err1 := some msg }) ∧
    (r = true → w'.err = w.err) := by
  unfold lz4writer_write at h
  by_cases he : zw.error = true
  · rw [if_pos he] at h
    injection h with h1 h2
    injection h1 with h3 h4
    subst h3 h2
    exact ⟨fun _ => ⟨_, _, rfl⟩, fun hf => (by cases hf)⟩
  · rw [if_neg he] at h
    exact write_loop_err E _ _ _ _ _ _ _ h

theorem close_err {σ : Type} (E : Engine σ) (zw : lz4writer σ) (w : World) (r : Bool)
    (w' : World) (h : lz4writer_close E zw w = Run.done r w') :
    (r = false → ∃ func msg, w'.err = { err0 := some func, err1 := some msg }) ∧
    (r = true → w'.err = w.err) := by
  have hW1 : (LZ4F_compressEnd E zw.zctx zw.zbufSize w).2.2.err = w.err := rfl
  rcases close_cases E zw w with ⟨_, hcl⟩ | ⟨_, c, _, hcl⟩ | ⟨_, out, _, hrest⟩
  · rw [hcl] at h
    injection h with h1 h2
    subst h1 h2
    exact ⟨fun _ => ⟨_, _, rfl⟩, fun hf => (by cases hf)⟩
  · rw [hcl] at h
    injection h with h1 h2
    subst h1 h2
    exact ⟨fun _ => ⟨_, _, rfl⟩, fun hf => (by cases hf)⟩
  · rcases hrest with ⟨_, hcl⟩ | ⟨_, why, w2, _, hcl⟩ | ⟨_, w2, hx, hcl⟩ | ⟨_, w2, hx, hrest⟩
    · rw [hcl] at h; cases h
    · rw [hcl] at h; cases h
    · rw [hcl] at h
      injection h with h1 h2
      subst h1 h2
      exact ⟨fun _ => ⟨_, _, rfl⟩, fun hf => (by cases hf)⟩
    · have e2 : w2.err = w.err := (xwrite_err _ _ _ _ _ hx).trans hW1
      have e3 : (sys_lseek zw.fd zw.pos0 Whence.SEEK_SET w2).2.err = w.err :=
        ((sys_lseek_world zw.fd zw.pos0 Whence.SEEK_SET w2).2.2.2.1).trans e2
      rcases hrest with ⟨_, hcl⟩ | ⟨_, _, hcl⟩ | ⟨_, _, _, hcl⟩ | ⟨_, _, _, hrest⟩
      · rw [hcl] at h
        injection h with h1 h2
        subst h1 h2
        exact ⟨fun hf => (by cases hf), fun _ => ((justClose_world zw w2).2.2.2).trans e2⟩
      · rw [hcl] at h
        injection h with h1 h2
        subst h1 h2
        exact ⟨fun _ => ⟨_, _, rfl⟩, fun hf => (by cases hf)⟩
      · rw [hcl] at h; cases h
      · rcases hrest with ⟨_, hcl⟩ | ⟨_, why, w4, _, hcl⟩ | ⟨_, w4, hx4, hcl⟩ |
          ⟨_, w4, hx4, hcl⟩
        · rw [hcl] at h
          injection h with h1 h2
          subst h1 h2
          exact ⟨fun _ => ⟨_, _, rfl⟩, fun hf => (by cases hf)⟩
        · rw [hcl] at h; cases h
        · rw [hcl] at h
          injection h with h1 h2
          subst h1 h2
          exact ⟨fun _ => ⟨_, _, rfl⟩, fun hf => (by cases hf)⟩
        · rw [hcl] at h
          injection h with h1 h2
          subst h1 h2
          exact ⟨fun hf => (by cases hf),
            fun _ => ((justClose_world zw w4).2.2.2).trans ((xwrite_err _ _ _ _ _ hx4).trans e3)⟩

/-- C15: every failing return of `lz4writer_fdopen` (NULL), `lz4writer_write` (false) and
`lz4writer_close` (false) leaves both slots of the error record filled, the operation name
in the first and the message in the second, and every successful return leaves the record
as it found it. -/
theorem error_record_on_failure {σ : Type} (E : Engine σ) :
    (∀ (fd level : Int) (wcs wchk : Bool) (w0 : World) (r : Option (lz4writer σ))
        (w1 : World), lz4writer_fdopen E fd level wcs wchk w0 = Run.done r w1 →
      (r = none → ∃ func msg, w1.err = { err0 := some func, err1 := some msg }) ∧
      (r ≠ none → w1.err = w0.err)) ∧
    (∀ (zw : lz4writer σ) (buf : List Nat) (w : World) (r : Bool) (zw' : lz4writer σ)
        (w' : World), lz4writer_write E zw buf w = Run.done (r, zw') w' →
      (r = false → ∃ func msg, w'.err = { err0 := some func, err1 := some msg }) ∧
      (r = true → w'.err = w.err)) ∧
    (∀ (zw : lz4writer σ) (w : World) (r : Bool) (w' : World),
        lz4writer_close E zw w = Run.done r w' →
      (r = false → ∃ func msg, w'.err = { err0 := some func, err1 := some msg }) ∧
      (r = true → w'.err = w.err)) :=
  ⟨fun fd level wcs wchk w0 r w1 h => fdopen_err E fd level wcs wchk w0 r w1 h,
   fun zw buf w r zw' w' h => write_err E zw buf w r zw' w' h,
   fun zw w r w' h => close_err E zw w r w' h⟩

theorem error_record_on_failure_witness :
    ∃ func msg,
      (lz4writer_close (scriptedEngine [] (ZRes.error 1)) (sampleSession [] 0)
        World.quiet).world.err = { err0 := some func, err1 := some msg } :=
  ((error_record_on_failure (scriptedEngine [] (ZRes.error 1))).2.2 (sampleSession [] 0)
    World.quiet false
    (lz4writer_close (scriptedEngine [] (ZRes.error 1)) (sampleSession [] 0) World.quiet).world
    rfl).1 rfl

/-! ## Chunking and the bytes delivered by `lz4writer_write` -/

theorem CHUNK_eq : CHUNK = 262144 := by decide

theorem chunked_nil : Chunked [] [] := by
  refine ⟨rfl, ?_, ?_, ?_⟩
  · simp [CHUNK_eq]
  · intro c hc; cases hc
  · intro c hc; cases hc

theorem chunked_cons (buf : List Nat) (ups : List (List Nat)) (hbuf : buf ≠ [])
    (h : Chunked (buf.drop (chunk_size buf.length)) ups) :
    Chunked buf (buf.take (chunk_size buf.length) :: ups) := by
  obtain ⟨h1, h2, h3, h4⟩ := h
  have hpos : 0 < buf.length := List.length_pos.2 hbuf
  have hC : CHUNK = 262144 := CHUNK_eq
  by_cases hlt : buf.length < CHUNK
  · have hcs : chunk_size buf.length = buf.length := by simp [chunk_size, hlt]
    rw [hcs] at h1 h2 ⊢
    have hups : ups = [] := by
      apply List.length_eq_zero.1
      rw [h2, List.drop_length, List.length_nil, hC]
    subst hups
    refine ⟨by simp, ?_, ?_, ?_⟩
    · simp only [List.length_singleton]
      rw [hC] at hlt ⊢
      omega
    · intro c hc
      rw [List.mem_singleton.1 hc, List.take_length]
      omega
    · intro c hc
      simp at hc
  · have hcs : chunk_size buf.length = CHUNK := by simp [chunk_size, hlt]
    rw [hcs] at h1 h2 ⊢
    have htl : (buf.take CHUNK).length = CHUNK := by
      rw [List.length_take]; omega
    refine ⟨?_, ?_, ?_, ?_⟩
    · rw [List.flatten_cons, h1, List.take_append_drop]
    · rw [List.length_cons, h2, List.length_drop]
      have : buf.length + CHUNK - 1 = (buf.length - CHUNK + CHUNK - 1) + CHUNK := by omega
      rw [this, Nat.add_div_right _ (by omega)]
    · intro c hc
      rcases List.mem_cons.1 hc with rfl | hc
      · omega
      · exact h3 c hc
    · intro c hc
      by_cases hu : ups = []
      · subst hu; simp at hc
      · rw [List.dropLast_cons_of_ne_nil hu] at hc
        rcases List.mem_cons.1 hc with rfl | hc
        · exact htl
        · exact h4 c hc

theorem xwrite_true_writes (fd : Int) (buf : List Nat) (w w' : World)
    (h : xwrite fd buf w = Run.done true w') :
    ∃ evs, w'.trace = w.trace ++ evs ∧ (∀ e ∈ evs, e.isWrite = true) ∧ delivered evs = buf ∧
      w'.file = pwrite w.file w.pos buf ∧ w'.pos = w.pos + buf.length := by
  obtain ⟨_, evs, h1, _, h3, _, h5, h6⟩ := xwrite_true fd buf w w' h
  obtain ⟨evs', g1, g2, _⟩ := xwrite_world fd buf w
  rw [h] at g1
  simp only [Run.world] at g1
  have : evs = evs' := List.append_cancel_left (h1.symm.trans g1)
  subst this
  exact ⟨evs, h1, g2, h3, h5, h6⟩

theorem update_inputs_writes (xs ys : List Event) (hx : ∀ e ∈ xs, e.isWrite = true) :
    update_inputs (xs ++ ys) = update_inputs ys := by
  induction xs with
  | nil => rfl
  | cons e xs ih =>
    have he := hx e (List.mem_cons_self _ _)
    have hxs := ih (fun e he => hx e (List.mem_cons_of_mem _ he))
    cases e <;> simp_all [Event.isWrite, update_inputs]

theorem update_outputs_writes (xs ys : List Event) (hx : ∀ e ∈ xs, e.isWrite = true) :
    update_outputs (xs ++ ys) = update_outputs ys := by
  induction xs with
  | nil => rfl
  | cons e xs ih =>
    have he := hx e (List.mem_cons_self _ _)
    have hxs := ih (fun e he => hx e (List.mem_cons_of_mem _ he))
    cases e <;> simp_all [Event.isWrite, update_outputs]

/-- What a call of the loop of `lz4writer_write` that returns true has done: it cut the
input into chunks for the engine, and the channel received, in order, what the engine
produced. -/
theorem write_loop_io {σ : Type} (E : Engine σ) : ∀ (fuel : Nat) (zw : lz4writer σ)
    (buf : List Nat) (w : World) (zw' : lz4writer σ) (w' : World),
    lz4writer_write_loop E fuel zw buf w = Run.done (true, zw') w' →
    ∃ evs, w'.trace = w.trace ++ evs ∧ Chunked buf (update_inputs evs) ∧
      delivered evs = (update_outputs evs).flatten ∧
      w'.file = pwrite w.file w.pos (delivered evs) ∧
      w'.pos = w.pos + (delivered evs).length ∧ (buf = [] → evs = []) ∧
      (∀ e ∈ evs, e.isWrite = true ∨
        ∃ src out, e = Event.LZ4F_compressUpdate src (ZRes.bytes out)) := by
  intro fuel
  induction fuel with
  | zero =>
    intro zw buf w zw' w' h
    unfold lz4writer_write_loop at h
    split at h
    · next hb =>
      injection h with h1 h2
      subst h2
      have hnil : buf = [] := List.length_eq_zero.1 hb
      subst hnil
      exact ⟨[], by simp, chunked_nil, rfl, by simp [delivered, pwrite_nil],
        by simp [delivered], fun _ => rfl, by simp⟩
    · simp at h
  | succ fuel ih =>
    intro zw buf w zw' w' h
    unfold lz4writer_write_loop at h
    by_cases hb : buf.length = 0
    · rw [if_pos hb] at h
      injection h with h1 h2
      subst h2
      have hnil : buf = [] := List.length_eq_zero.1 hb
      subst hnil
      exact ⟨[], by simp, chunked_nil, rfl, by simp [delivered, pwrite_nil],
        by simp [delivered], fun _ => rfl, by simp⟩
    · rw [if_neg hb] at h
      have hne : buf ≠ [] := fun h0 => hb (by rw [h0]; rfl)
      split at h
      · next zctx wu hu =>
        simp only [LZ4F_compressUpdate] at hu
        injection hu with hu1 hu2
        injection hu2 with _ hu3
        obtain ⟨evs, e1, e2, e3, e4, e5, _, e7⟩ := ih _ _ _ _ _ h
        refine ⟨Event.LZ4F_compressUpdate (buf.take (chunk_size buf.length))
          (ZRes.bytes []) :: evs, ?_, ?_, ?_, ?_, ?_, ?_, ?_⟩
        · rw [e1, ← hu3, hu1]; simp
        · simp only [update_inputs]
          exact chunked_cons buf _ hne e2
        · simp [delivered, Event.accepted, update_outputs, e3]
        · simp only [delivered, Event.accepted, List.nil_append]
          rw [e4, ← hu3]
        · simp only [delivered, Event.accepted, List.nil_append]
          rw [e5, ← hu3]
        · intro h0; exact absurd h0 hne
        · intro e he
          rcases List.mem_cons.1 he with rfl | he
          · exact Or.inr ⟨_, _, rfl⟩
          · exact e7 e he
      · simp at h
      · next out zctx wu hout hu =>
        simp only [LZ4F_compressUpdate] at hu
        injection hu with hu1 hu2
        injection hu2 with _ hu3
        split at h
        · simp at h
        · simp at h
        · next wx hx =>
          obtain ⟨xs, x1, x2, x3, x4, x5⟩ := xwrite_true_writes _ _ _ _ hx
          obtain ⟨evs, e1, e2, e3, e4, e5, _, e7⟩ := ih _ _ _ _ _ h
          refine ⟨Event.LZ4F_compressUpdate (buf.take (chunk_size buf.length))
            (ZRes.bytes out) :: (xs ++ evs), ?_, ?_, ?_, ?_, ?_, ?_, ?_⟩
          · rw [e1, x1, ← hu3, hu1]; simp
          · simp only [update_inputs, update_inputs_writes xs evs x2]
            exact chunked_cons buf _ hne e2
          · simp only [delivered, Event.accepted, List.nil_append, delivered_append, x3, e3,
              update_outputs, update_outputs_writes xs evs x2, List.flatten_cons]
          · simp only [delivered, Event.accepted, List.nil_append, delivered_append, x3]
            rw [e4, x4, x5, ← hu3, pwrite_append]
          · simp only [delivered, Event.accepted, List.nil_append, delivered_append, x3,
              List.length_append]
            have hwp : wu.pos = w.pos := by rw [← hu3]
            rw [e5, x5, hwp]
            omega
          · intro h0; exact absurd h0 hne
          · intro e he
            rcases List.mem_cons.1 he with rfl | he
            · exact Or.inr ⟨_, _, rfl⟩
            · rcases List.mem_append.1 he with he | he
              · exact Or.inl (x2 e he)
              · exact e7 e he

theorem write_io {σ : Type} (E : Engine σ) (zw : lz4writer σ) (buf : List Nat) (w : World)
    (zw' : lz4writer σ) (w' : World)
    (h : lz4writer_write E zw buf w = Run.done (true, zw') w') :
    ∃ evs, w'.trace = w.trace ++ evs ∧ Chunked buf (update_inputs evs) ∧
      delivered evs = (update_outputs evs).flatten ∧
      w'.file = pwrite w.file w.pos (delivered evs) ∧
      w'.pos = w.pos + (delivered evs).length ∧ (buf = [] → evs = []) ∧
      (∀ e ∈ evs, e.isWrite = true ∨
        ∃ src out, e = Event.LZ4F_compressUpdate src (ZRes.bytes out)) := by
  unfold lz4writer_write at h
  by_cases he : zw.error = true
  · rw [if_pos he] at h
    simp at h
  · rw [if_neg he] at h
    exact write_loop_io E _ _ _ _ _ _ h

theorem chunk_size_pos (n : Nat) (h : n ≠ 0) : 0 < chunk_size n := by
  unfold chunk_size
  split_ifs
  · omega
  · rw [CHUNK_eq]; norm_num

theorem write_loop_bound {σ : Type} (E : Engine σ) : ∀ (fuel : Nat) (zw : lz4writer σ)
    (buf : List Nat) (w w' : World), buf.length ≤ fuel →
    lz4writer_write_loop E fuel zw buf w ≠ Run.abort Stop.bound w' := by
  intro fuel
  induction fuel with
  | zero =>
    intro zw buf w w' hle
    unfold lz4writer_write_loop
    have : buf.length = 0 := by omega
    rw [if_pos this]
    simp
  | succ fuel ih =>
    intro zw buf w w' hle
    unfold lz4writer_write_loop
    by_cases hb : buf.length = 0
    · rw [if_pos hb]; simp
    · rw [if_neg hb]
      have hd : (buf.drop (chunk_size buf.length)).length ≤ fuel := by
        have := chunk_size_pos buf.length hb
        rw [List.length_drop]; omega
      split
      · exact ih _ _ _ _ hd
      · simp
      · split
        · next hx =>
          intro habs
          injection habs with h1 h2
          subst h1 h2
          exact xwrite_within_bound _ _ _ _ hx
        · simp
        · exact ih _ _ _ _ hd

/-- The bound `lz4writer_write` gives its loop is never reached. -/
theorem lz4writer_write_within_bound {σ : Type} (E : Engine σ) (zw : lz4writer σ)
    (buf : List Nat) (w w' : World) :
    lz4writer_write E zw buf w ≠ Run.abort Stop.bound w' := by
  unfold lz4writer_write
  split_ifs
  · simp
  · exact write_loop_bound E _ _ _ _ _ (le_refl _)

/-! ## The bytes of a whole session -/

theorem update_outputs_append (xs ys : List Event) :
    update_outputs (xs ++ ys) = update_outputs xs ++ update_outputs ys := by
  induction xs with
  | nil => rfl
  | cons e xs ih =>
    cases e with
    | LZ4F_compressUpdate src r => cases r <;> simp [update_outputs, ih]
    | _ => simp [update_outputs, ih]

theorem update_inputs_append (xs ys : List Event) :
    update_inputs (xs ++ ys) = update_inputs xs ++ update_inputs ys := by
  induction xs with
  | nil => rfl
  | cons e xs ih =>
    cases e <;> simp [update_inputs, ih]

/-- What a run of `lz4writer_write` calls that all returned true has done. -/
theorem write_all_io {σ : Type} (E : Engine σ) : ∀ (bufs : List (List Nat))
    (zw : lz4writer σ) (w : World) (rs : List Bool) (zw' : lz4writer σ) (w' : World),
    lz4writer_write_all E zw bufs w = Run.done (rs, zw') w' → (∀ r ∈ rs, r = true) →
    ∃ evs, w'.trace = w.trace ++ evs ∧
      (update_inputs evs).flatten = bufs.flatten ∧
      delivered evs = (update_outputs evs).flatten ∧
      w'.file = pwrite w.file w.pos (delivered evs) ∧
      w'.pos = w.pos + (delivered evs).length ∧
      (∀ e ∈ evs, e.isWrite = true ∨
        ∃ src out, e = Event.LZ4F_compressUpdate src (ZRes.bytes out)) := by
  intro bufs
  induction bufs with
  | nil =>
    intro zw w rs zw' w' h _
    unfold lz4writer_write_all at h
    injection h with h1 h2
    subst h2
    exact ⟨[], by simp, rfl, rfl, by simp [delivered, pwrite_nil], by simp [delivered],
      by simp⟩
  | cons buf bufs ih =>
    intro zw w rs zw' w' h hall
    unfold lz4writer_write_all at h
    split at h
    · simp at h
    · next r zw1 w1 hw =>
      split at h
      · simp at h
      · next rs1 zw2 w2 hrest =>
        injection h with h1 h2
        injection h1 with h3 h4
        subst h3 h4 h2
        have hr : r = true := hall r (List.mem_cons_self _ _)
        have hrs : ∀ x ∈ rs1, x = true := fun x hx => hall x (List.mem_cons_of_mem _ hx)
        subst hr
        obtain ⟨xs, x1, ⟨x2, _⟩, x3, x4, x5, _, x7⟩ := write_io E zw buf w zw1 w1 hw
        obtain ⟨evs, e1, e2, e3, e4, e5, e6⟩ := ih zw1 w1 rs1 zw2 w2 hrest hrs
        refine ⟨xs ++ evs, ?_, ?_, ?_, ?_, ?_, ?_⟩
        · rw [e1, x1, List.append_assoc]
        · rw [update_inputs_append, List.flatten_append, x2, e2, List.flatten_cons]
        · rw [delivered_append, update_outputs_append, List.flatten_append, x3, e3]
        · rw [e4, x4, x5, delivered_append, pwrite_append]
        · rw [e5, x5, delivered_append, List.length_append, Nat.add_assoc]
        · intro e he
          rcases List.mem_append.1 he with he | he
          · exact x7 e he
          · exact e6 e he

theorem header_buffer (out : List Nat) (h : out.length = 7) :
    memcpy (List.replicate LZ4F_HEADER_SIZE_MAX 0) 0 out = out ++ List.replicate 8 0 := by
  match out, h with
  | [a0, a1, a2, a3, a4, a5, a6], _ => rfl

theorem pwrite_overwrite (file : List Nat) (pos : Nat) (a a' b : List Nat)
    (hl : a'.length = a.length) :
    pwrite (pwrite file pos (a ++ b)) pos a' = pwrite file pos (a' ++ b) := by
  by_cases ha : a = []
  · subst ha
    have ha' : a' = [] := List.length_eq_zero.1 (by simpa using hl)
    subst ha'
    simp [pwrite_nil]
  have ha' : a' ≠ [] := by
    intro h0; subst h0; exact ha (List.length_eq_zero.1 (by simpa using hl.symm))
  have hab : a ++ b ≠ [] := by simp [ha]
  have hab' : a' ++ b ≠ [] := by simp [ha']
  have hpre : ((file ++ List.replicate (pos - file.length) 0).take pos).length = pos := by
    simp only [List.length_take, List.length_append, List.length_replicate]; omega
  have hX : pwrite file pos (a ++ b) =
      (file ++ List.replicate (pos - file.length) 0).take pos ++
        (a ++ (b ++ file.drop (pos + (a.length + b.length)))) := by
    simp only [pwrite, hab, if_false, List.append_assoc, List.length_append]
  have hY : pwrite file pos (a' ++ b) =
      (file ++ List.replicate (pos - file.length) 0).take pos ++
        (a' ++ (b ++ file.drop (pos + (a.length + b.length)))) := by
    simp only [pwrite, hab', if_false, List.append_assoc, List.length_append, hl]
  rw [hX, hY]
  generalize (file ++ List.replicate (pos - file.length) 0).take pos = pre at hpre
  generalize file.drop (pos + (a.length + b.length)) = post
  have h1 : ((pre ++ (a ++ (b ++ post))) ++
      List.replicate (pos - (pre ++ (a ++ (b ++ post))).length) 0).take pos = pre := by
    rw [List.append_assoc]
    exact List.take_left' hpre
  have h2 : (pre ++ (a ++ (b ++ post))).drop (pos + a'.length) = b ++ post := by
    rw [← hpre, hl, List.drop_append, List.drop_left]
  unfold pwrite
  rw [if_neg ha', h1, h2, List.append_assoc]

/-- What a call of `lz4writer_close` that returns true has done. -/
theorem close_true_io {σ : Type} (E : Engine σ) (zw : lz4writer σ) (w w3 : World)
    (h : lz4writer_close E zw w = Run.done true w3) :
    ∃ tr xs, (E.compressEnd zw.zctx zw.zbufSize).1 = ZRes.bytes tr ∧ tr ≠ [] ∧
      (∀ e ∈ xs, e.isWrite = true) ∧ delivered xs = tr ∧
      (zw.writeContentSize = false →
        w3.trace = w.trace ++ (Event.LZ4F_compressEnd (ZRes.bytes tr) :: xs ++
          [Event.close zw.fd, Event.LZ4F_freeCompressionContext, Event.free]) ∧
        w3.file = pwrite w.file w.pos tr) ∧
      (zw.writeContentSize = true →
        ∃ ys, (∀ e ∈ ys, e.isWrite = true) ∧
          delivered ys = (lz4fix zw.frameHeader zw.contentSize).2 ∧
          (lz4fix zw.frameHeader zw.contentSize).1 = true ∧
          w3.trace = w.trace ++ (Event.LZ4F_compressEnd (ZRes.bytes tr) :: xs ++
            [Event.lseek zw.fd zw.pos0 Whence.SEEK_SET zw.pos0] ++ ys ++
            [Event.close zw.fd, Event.LZ4F_freeCompressionContext, Event.free]) ∧
          w3.file = pwrite (pwrite w.file w.pos tr) zw.pos0.toNat
            (lz4fix zw.frameHeader zw.contentSize).2) := by
  have hW1 := compressEnd_world E zw.zctx zw.zbufSize w
  rcases close_cases E zw w with ⟨_, hcl⟩ | ⟨_, c, _, hcl⟩ | ⟨_, out, hend, hrest⟩
  · rw [hcl] at h; cases h
  · rw [hcl] at h; cases h
  · rw [hend] at hW1
    rcases hrest with ⟨_, hcl⟩ | ⟨_, why, w2, _, hcl⟩ | ⟨_, w2, hx, hcl⟩ | ⟨ho, w2, hx, hrest⟩
    · rw [hcl] at h; cases h
    · rw [hcl] at h; cases h
    · rw [hcl] at h; cases h
    · obtain ⟨xs, x1, x2, x3, x4, x5⟩ := xwrite_true_writes _ _ _ _ hx
      rw [hW1] at x1 x4 x5
      simp only [] at x1 x4 x5
      refine ⟨out, xs, hend, ho, x2, x3, ?_, ?_⟩
      · intro hs
        rcases hrest with ⟨_, hcl⟩ | ⟨hs', _⟩ | ⟨hs', _⟩ | ⟨hs', _⟩
        · rw [hcl] at h
          injection h with _ h2
          subst h2
          refine ⟨?_, ?_⟩
          · rw [(justClose_world zw w2).1, x1]; simp
          · rw [(justClose_world zw w2).2.1, x4]
        · rw [hs] at hs'; cases hs'
        · rw [hs] at hs'; cases hs'
        · rw [hs] at hs'; cases hs'
      · intro hs
        obtain ⟨s1, _, _, _, _, s6⟩ := sys_lseek_world zw.fd zw.pos0 Whence.SEEK_SET w2
        rcases hrest with ⟨hs', _⟩ | ⟨_, _, hcl⟩ | ⟨_, _, _, hcl⟩ | ⟨_, hm1, heq, hrest⟩
        · rw [hs] at hs'; cases hs'
        · rw [hcl] at h; cases h
        · rw [hcl] at h; cases h
        · have hpos3 : (sys_lseek zw.fd zw.pos0 Whence.SEEK_SET w2).2.pos = zw.pos0.toNat := by
            rcases sys_lseek_set zw.fd zw.pos0 w2 with ⟨h0, _⟩ | ⟨_, h0⟩
            · exact absurd h0 hm1
            · exact h0
          rcases hrest with ⟨_, hcl⟩ | ⟨_, why, w4, _, hcl⟩ | ⟨_, w4, hx4, hcl⟩ |
            ⟨hf, w4, hx4, hcl⟩
          · rw [hcl] at h; cases h
          · rw [hcl] at h; cases h
          · rw [hcl] at h; cases h
          · obtain ⟨ys, y1, y2, y3, y4, y5⟩ := xwrite_true_writes _ _ _ _ hx4
            rw [hcl] at h
            injection h with _ h2
            subst h2
            refine ⟨ys, y2, y3, hf, ?_, ?_⟩
            · rw [(justClose_world zw w4).1, y1, s6, heq, x1]; simp
            · rw [(justClose_world zw w4).2.1, y4, hpos3, s1, x4]

theorem fdopen_trace {σ : Type} (E : Engine σ) (fd : Int) (level : Int) (wcs wchk : Bool)
    (w0 : World) (zw : lz4writer σ) (w1 : World)
    (h : lz4writer_fdopen E fd level wcs wchk w0 = Run.done (some zw) w1) :
    ∃ evs, w1.trace = w0.trace ++ evs := by
  obtain ⟨_, _, _, _, _, _, out, zctx0, wb, _, _, _, _, _, hx, _, _, hbt⟩ :=
    fdopen_some E fd level wcs wchk w0 zw w1 h
  obtain ⟨_, evs, h1, _⟩ := xwrite_true _ _ _ _ hx
  exact ⟨_, by rw [h1, hbt, List.append_assoc, List.append_assoc, List.append_assoc]⟩

theorem write_loop_zero_output {σ : Type} (E : Engine σ) (fuel : Nat) (s : lz4writer σ)
    (buf : List Nat) (w : World) (hbuf : buf ≠ [])
    (hz : (E.compressUpdate s.zctx s.zbufSize (buf.take (chunk_size buf.length))).1 =
      ZRes.bytes []) :
    lz4writer_write_loop E (fuel + 1) s buf w =
      lz4writer_write_loop E fuel
        { s with zctx :=
            (E.compressUpdate s.zctx s.zbufSize (buf.take (chunk_size buf.length))).2 }
        (buf.drop (chunk_size buf.length))
        { w with trace := w.trace ++
            [Event.LZ4F_compressUpdate (buf.take (chunk_size buf.length)) (ZRes.bytes [])] } := by
  have hb : ¬ buf.length = 0 := fun h => hbuf (List.length_eq_zero.1 h)
  conv_lhs => unfold lz4writer_write_loop
  rw [if_neg hb]
  simp only [LZ4F_compressUpdate, hz]

/-- C17: for a session opened without the size field in which `lz4writer_fdopen` returned a
session, every `lz4writer_write` returned true and `lz4writer_close` returned true, the
bytes delivered to the channel are exactly the engine's begin-frame header, then the outputs
of the update calls concatenated in call order, then the engine's end-of-frame output; and
a pass of the write loop whose update call produces no bytes is not an error and consists
of that call alone, with no channel write. -/
theorem session_delivers_engine_output {σ : Type} (E : Engine σ) (fd : Int) (level : Int)
    (wchk : Bool) (w0 : World) (zw : lz4writer σ) (w1 : World) (bufs : List (List Nat))
    (rs : List Bool) (zw2 : lz4writer σ) (w2 w3 : World)
    (hopen : lz4writer_fdopen E fd level false wchk w0 = Run.done (some zw) w1)
    (hwr : lz4writer_write_all E zw bufs w1 = Run.done (rs, zw2) w2)
    (hrs : ∀ r ∈ rs, r = true)
    (hcl : lz4writer_close E zw2 w2 = Run.done true w3) :
    (∃ hdr trailer zctx0,
      E.createCompressionContext = Except.ok zctx0 ∧
      (E.compressBegin zctx0 LZ4F_HEADER_SIZE_MAX
        { compressionLevel := level, blockSizeID := LZ4F_max256KB,
          contentChecksumFlag := wchk }).1 = ZRes.bytes hdr ∧
      (E.compressEnd zw2.zctx zw2.zbufSize).1 = ZRes.bytes trailer ∧
      delivered (w3.trace.drop w0.trace.length) =
        hdr ++ (update_outputs (w2.trace.drop w1.trace.length)).flatten ++ trailer) ∧
    (∀ (fuel : Nat) (s : lz4writer σ) (buf : List Nat) (w : World), buf ≠ [] →
      (E.compressUpdate s.zctx s.zbufSize (buf.take (chunk_size buf.length))).1 =
        ZRes.bytes [] →
      lz4writer_write_loop E (fuel + 1) s buf w =
        lz4writer_write_loop E fuel
          { s with zctx :=
              (E.compressUpdate s.zctx s.zbufSize (buf.take (chunk_size buf.length))).2 }
          (buf.drop (chunk_size buf.length))
          { w with trace := w.trace ++
              [Event.LZ4F_compressUpdate (buf.take (chunk_size buf.length))
                (ZRes.bytes [])] }) := by
  refine ⟨?_, fun fuel s buf w hbuf hz => write_loop_zero_output E fuel s buf w hbuf hz⟩
  obtain ⟨_, o2, o3, o4, _, _, out, zctx0, wb, oc, ob, _, hol, ofh, _⟩ :=
    fdopen_some E fd level false wchk w0 zw w1 hopen
  obtain ⟨hd, _, _⟩ := fdopen_delivered E fd level false wchk w0 zw w1 hopen
  obtain ⟨evo, ho⟩ := fdopen_trace E fd level false wchk w0 zw w1 hopen
  have hcs : zw.contentSize < 2 ^ 64 := by rw [o4]; norm_num
  obtain ⟨_, a2, _⟩ := write_all_true E bufs zw w1 rs zw2 w2 hwr hrs o2 hcs
  obtain ⟨evs, e1, _, e3, _⟩ := write_all_io E bufs zw w1 rs zw2 w2 hwr hrs
  obtain ⟨tr, xs, c1, _, _, c4, c5, _⟩ := close_true_io E zw2 w2 w3 hcl
  obtain ⟨c6, _⟩ := c5 (a2.trans o3)
  have hout : out.length = 7 := by rw [hol]; rfl
  have hhdr : delivered evo = out := by
    rw [ho, List.drop_left] at hd
    rw [hd, ofh, header_buffer out hout]
    simp [LZ4F_HEADER_SIZE_MAX, hout]
  refine ⟨out, tr, zctx0, oc, ob, c1, ?_⟩
  rw [c6, e1, ho, List.append_assoc, List.append_assoc, List.drop_left, List.drop_left,
    delivered_append, delivered_append, hhdr, e3]
  simp [delivered, delivered_append, Event.accepted, c4]

theorem session_delivers_engine_output_witness :
    ∃ hdr trailer zctx0,
      (scriptedEngine [ZRes.bytes [], ZRes.bytes [7, 7]] (ZRes.bytes [0, 0, 0, 0])).createCompressionContext = Except.ok zctx0 ∧
      ((scriptedEngine [ZRes.bytes [], ZRes.bytes [7, 7]] (ZRes.bytes [0, 0, 0, 0])).compressBegin zctx0 LZ4F_HEADER_SIZE_MAX
        { compressionLevel := 1, blockSizeID := LZ4F_max256KB,
          contentChecksumFlag := false }).1 = ZRes.bytes hdr ∧
      ((scriptedEngine [ZRes.bytes [], ZRes.bytes [7, 7]] (ZRes.bytes [0, 0, 0, 0])).compressEnd
        ({ sampleSession [] 0 with writeContentSize := false, contentSize := 5 } : lz4writer (List ZRes)).zctx
        ({ sampleSession [] 0 with writeContentSize := false, contentSize := 5 } : lz4writer (List ZRes)).zbufSize).1 = ZRes.bytes trailer ∧
      delivered ((lz4writer_close (scriptedEngine [ZRes.bytes [], ZRes.bytes [7, 7]] (ZRes.bytes [0, 0, 0, 0]))
      { sampleSession [] 0 with writeContentSize := false, contentSize := 5 }
      (lz4writer_write_all (scriptedEngine [ZRes.bytes [], ZRes.bytes [7, 7]] (ZRes.bytes [0, 0, 0, 0]))
      { sampleSession [ZRes.bytes [], ZRes.bytes [7, 7]] 0 with writeContentSize := false }
      [[1, 2, 3], [4, 5], []] (lz4writer_fdopen (scriptedEngine [ZRes.bytes [], ZRes.bytes [7, 7]] (ZRes.bytes [0, 0, 0, 0])) 1 1 false false World.bumpy).world).world).world.trace.drop World.bumpy.trace.length) =
        hdr ++ (update_outputs ((lz4writer_write_all (scriptedEngine [ZRes.bytes [], ZRes.bytes [7, 7]] (ZRes.bytes [0, 0, 0, 0]))
      { sampleSession [ZRes.bytes [], ZRes.bytes [7, 7]] 0 with writeContentSize := false }
      [[1, 2, 3], [4, 5], []] (lz4writer_fdopen (scriptedEngine [ZRes.bytes [], ZRes.bytes [7, 7]] (ZRes.bytes [0, 0, 0, 0])) 1 1 false false World.bumpy).world).world.trace.drop
          (lz4writer_fdopen (scriptedEngine [ZRes.bytes [], ZRes.bytes [7, 7]] (ZRes.bytes [0, 0, 0, 0])) 1 1 false false World.bumpy).world.trace.length)).flatten ++ trailer :=
  (session_delivers_engine_output
    (scriptedEngine [ZRes.bytes [], ZRes.bytes [7, 7]] (ZRes.bytes [0, 0, 0, 0])) 1 1 false World.bumpy
    { sampleSession [ZRes.bytes [], ZRes.bytes [7, 7]] 0 with writeContentSize := false }
    (lz4writer_fdopen (scriptedEngine [ZRes.bytes [], ZRes.bytes [7, 7]] (ZRes.bytes [0, 0, 0, 0])) 1 1 false false World.bumpy).world
    [[1, 2, 3], [4, 5], []] [true, true, true]
    { sampleSession [] 0 with writeContentSize := false, contentSize := 5 }
    (lz4writer_write_all (scriptedEngine [ZRes.bytes [], ZRes.bytes [7, 7]] (ZRes.bytes [0, 0, 0, 0]))
      { sampleSession [ZRes.bytes [], ZRes.bytes [7, 7]] 0 with writeContentSize := false }
      [[1, 2, 3], [4, 5], []] (lz4writer_fdopen (scriptedEngine [ZRes.bytes [], ZRes.bytes [7, 7]] (ZRes.bytes [0, 0, 0, 0])) 1 1 false false World.bumpy).world).world
    (lz4writer_close (scriptedEngine [ZRes.bytes [], ZRes.bytes [7, 7]] (ZRes.bytes [0, 0, 0, 0]))
      { sampleSession [] 0 with writeContentSize := false, contentSize := 5 }
      (lz4writer_write_all (scriptedEngine [ZRes.bytes [], ZRes.bytes [7, 7]] (ZRes.bytes [0, 0, 0, 0]))
      { sampleSession [ZRes.bytes [], ZRes.bytes [7, 7]] 0 with writeContentSize := false }
      [[1, 2, 3], [4, 5], []] (lz4writer_fdopen (scriptedEngine [ZRes.bytes [], ZRes.bytes [7, 7]] (ZRes.bytes [0, 0, 0, 0])) 1 1 false false World.bumpy).world).world).world
    rfl rfl (by decide) rfl).1

/-! ## The header patch in place -/

/-- C19: with the size field requested, `lz4writer_fdopen` delivers the whole header buffer,
the engine's 7-byte header followed by 8 zero bytes, at the offset `pos0` it has saved; a
session whose writes and close all succeed then has `lz4writer_close` seek to `pos0` and
deliver the patched header, of the same 15 bytes, there; the file ends up holding the
patched header, the data blocks and the trailer, one after the other from `pos0` on, so the
patch replaced the provisional header and nothing else. -/
theorem header_patch_in_place {σ : Type} (E : Engine σ) (fd : Int) (level : Int)
    (wchk : Bool) (w0 : World) (zw : lz4writer σ) (w1 : World) (bufs : List (List Nat))
    (rs : List Bool) (zw2 : lz4writer σ) (w2 w3 : World)
    (hopen : lz4writer_fdopen E fd level true wchk w0 = Run.done (some zw) w1)
    (hwr : lz4writer_write_all E zw bufs w1 = Run.done (rs, zw2) w2)
    (hrs : ∀ r ∈ rs, r = true)
    (hcl : lz4writer_close E zw2 w2 = Run.done true w3) :
    ∃ hdr data trailer patched xs ys,
      hdr.length = 7 ∧ zw.frameHeader = hdr ++ List.replicate 8 0 ∧
      delivered (w1.trace.drop w0.trace.length) = hdr ++ List.replicate 8 0 ∧
      zw.pos0 = (w0.pos : Int) ∧
      w1.file = pwrite w0.file w0.pos (hdr ++ List.replicate 8 0) ∧
      data = delivered (w2.trace.drop w1.trace.length) ∧
      w2.file = pwrite w0.file w0.pos (hdr ++ List.replicate 8 0 ++ data) ∧
      (E.compressEnd zw2.zctx zw2.zbufSize).1 = ZRes.bytes trailer ∧
      patched = (lz4fix zw.frameHeader zw2.contentSize).2 ∧ patched.length = 15 ∧
      w3.trace.drop w2.trace.length =
        Event.LZ4F_compressEnd (ZRes.bytes trailer) :: xs ++
          [Event.lseek fd (w0.pos : Int) Whence.SEEK_SET (w0.pos : Int)] ++ ys ++
          [Event.close fd, Event.LZ4F_freeCompressionContext, Event.free] ∧
      (∀ e ∈ xs, e.isWrite = true) ∧ delivered xs = trailer ∧
      (∀ e ∈ ys, e.isWrite = true) ∧ delivered ys = patched ∧
      w3.file = pwrite w0.file w0.pos (patched ++ data ++ trailer) := by
  obtain ⟨o1, o2, o3, o4, o5, o6, out, zctx0, wb, _, _, _, hol, ofh, _⟩ :=
    fdopen_some E fd level true wchk w0 zw w1 hopen
  obtain ⟨hd, hf1, hp1⟩ := fdopen_delivered E fd level true wchk w0 zw w1 hopen
  have hout : out.length = 7 := by rw [hol]; rfl
  have hfh : zw.frameHeader = out ++ List.replicate 8 0 := by rw [ofh, header_buffer out hout]
  have htk : zw.frameHeader.take (LZ4F_HEADER_SIZE_MAX - 8 + (if true = true then 1 else 0) * 8)
      = out ++ List.replicate 8 0 := by
    rw [hfh]
    apply List.take_of_length_le
    simp [hout, LZ4F_HEADER_SIZE_MAX]
  rw [htk] at hd hf1
  have hcs : zw.contentSize < 2 ^ 64 := by rw [o4]; norm_num
  obtain ⟨a1, a2, a3, a4, _, _, _, _⟩ := write_all_true E bufs zw w1 rs zw2 w2 hwr hrs o2 hcs
  obtain ⟨evs, e1, _, _, e4, e5, _⟩ := write_all_io E bufs zw w1 rs zw2 w2 hwr hrs
  obtain ⟨tr, xs, c1, _, c3, c4, _, c6⟩ := close_true_io E zw2 w2 w3 hcl
  obtain ⟨ys, y1, y2, _, y4, y5⟩ := c6 (a2.trans o3)
  have hp0 : zw2.pos0 = (w0.pos : Int) := a3.trans (o6 rfl)
  have hlen15 : (out ++ List.replicate 8 0).length = 15 := by simp [hout]
  have hw1pos : w1.pos = w0.pos + (out ++ List.replicate 8 0).length := by
    rw [hp1, hlen15]; rfl
  have hw2f : w2.file = pwrite w0.file w0.pos (out ++ List.replicate 8 0 ++ delivered evs) := by
    rw [e4, hf1, hw1pos, pwrite_append]
  have hw2pos : w2.pos = w0.pos + (out ++ List.replicate 8 0 ++ delivered evs).length := by
    rw [e5, hw1pos]
    simp only [List.length_append]
    omega
  have hpl : (lz4fix zw.frameHeader zw2.contentSize).2.length = 15 := by
    rw [lz4fix_length, hfh, hlen15]
  refine ⟨out, delivered evs, tr, (lz4fix zw.frameHeader zw2.contentSize).2, xs, ys, hout, hfh,
    hd, o6 rfl, hf1, ?_, hw2f, c1, rfl, hpl, ?_, c3, c4, y1, ?_, ?_⟩
  · rw [e1, List.drop_left]
  · rw [y4, List.drop_left, hp0, a1, o1]
  · rw [y2, a4]
  · rw [y5, hw2f, hw2pos, pwrite_append, hp0, Int.toNat_ofNat, a4, List.append_assoc,
      pwrite_overwrite _ _ _ _ _ (by rw [hpl, hlen15]), List.append_assoc]

theorem header_patch_in_place_witness :
    ∃ patched data trailer, patched.length = 15 ∧
      (lz4writer_close (scriptedEngine [ZRes.bytes [], ZRes.bytes [7, 7]] (ZRes.bytes [0, 0, 0, 0]))
      { sampleSession [] 2 with contentSize := 5 }
      (lz4writer_write_all (scriptedEngine [ZRes.bytes [], ZRes.bytes [7, 7]] (ZRes.bytes [0, 0, 0, 0]))
      (sampleSession [ZRes.bytes [], ZRes.bytes [7, 7]] 2)
      [[1, 2, 3], [4, 5], []] (lz4writer_fdopen (scriptedEngine [ZRes.bytes [], ZRes.bytes [7, 7]] (ZRes.bytes [0, 0, 0, 0])) 1 1 true false World.bumpy).world).world).world.file =
        pwrite World.bumpy.file World.bumpy.pos (patched ++ data ++ trailer) := by
  obtain ⟨hdr, data, trailer, patched, xs, ys, _, _, _, _, _, _, _, _, _, hl, _, _, _, _, _, hf⟩ :=
    header_patch_in_place
      (scriptedEngine [ZRes.bytes [], ZRes.bytes [7, 7]] (ZRes.bytes [0, 0, 0, 0])) 1 1 false World.bumpy
      (sampleSession [ZRes.bytes [], ZRes.bytes [7, 7]] 2)
      (lz4writer_fdopen (scriptedEngine [ZRes.bytes [], ZRes.bytes [7, 7]] (ZRes.bytes [0, 0, 0, 0])) 1 1 true false World.bumpy).world
      [[1, 2, 3], [4, 5], []] [true, true, true]
      { sampleSession [] 2 with contentSize := 5 }
      (lz4writer_write_all (scriptedEngine [ZRes.bytes [], ZRes.bytes [7, 7]] (ZRes.bytes [0, 0, 0, 0]))
      (sampleSession [ZRes.bytes [], ZRes.bytes [7, 7]] 2)
      [[1, 2, 3], [4, 5], []] (lz4writer_fdopen (scriptedEngine [ZRes.bytes [], ZRes.bytes [7, 7]] (ZRes.bytes [0, 0, 0, 0])) 1 1 true false World.bumpy).world).world
      (lz4writer_close (scriptedEngine [ZRes.bytes [], ZRes.bytes [7, 7]] (ZRes.bytes [0, 0, 0, 0]))
      { sampleSession [] 2 with contentSize := 5 }
      (lz4writer_write_all (scriptedEngine [ZRes.bytes [], ZRes.bytes [7, 7]] (ZRes.bytes [0, 0, 0, 0]))
      (sampleSession [ZRes.bytes [], ZRes.bytes [7, 7]] 2)
      [[1, 2, 3], [4, 5], []] (lz4writer_fdopen (scriptedEngine [ZRes.bytes [], ZRes.bytes [7, 7]] (ZRes.bytes [0, 0, 0, 0])) 1 1 true false World.bumpy).world).world).world
      rfl rfl (by decide) rfl
  exact ⟨patched, data, trailer, hl, hf⟩

/-! ## The order of the calls of `lz4writer_close` -/

theorem write_not_seek (e : Event) (h : e.isWrite = true) : e.isSeek = false := by
  cases e <;> simp_all [Event.isWrite, Event.isSeek]

theorem no_seek_end_writes (r : ZRes) (xs tail : List Event)
    (hx : ∀ e ∈ xs, e.isWrite = true) (ht : ∀ e ∈ tail, e.isSeek = false) :
    ∀ e ∈ Event.LZ4F_compressEnd r :: xs ++ tail, e.isSeek = false := by
  intro e he
  rcases List.mem_append.1 he with he | he
  · rcases List.mem_cons.1 he with rfl | he
    · rfl
    · exact write_not_seek e (hx e he)
  · exact ht e he

theorem release_no_seek (fd : Int) :
    ∀ e ∈ [Event.close fd, Event.LZ4F_freeCompressionContext, Event.free],
      e.isSeek = false := by
  intro e he
  simp only [List.mem_cons, List.mem_singleton, List.not_mem_nil, or_false] at he
  rcases he with rfl | rfl | rfl <;> rfl

theorem xwrite_loop_offers (fd : Int) : ∀ (fuel : Nat) (zero : Bool) (buf : List Nat)
    (w : World), ∃ evs,
      (xwrite_loop fd fuel zero buf w).world.trace = w.trace ++ evs ∧
      offers_rest fd buf evs = true := by
  intro fuel
  induction fuel with
  | zero => intro zero buf w; exact ⟨[], by simp [xwrite_loop, Run.world], rfl⟩
  | succ fuel ih =>
    intro zero buf w
    have htr := sys_write_trace fd buf w
    have hone : ∀ w1 : World, w1.trace = (sys_write fd buf w).2.trace →
        ∃ evs, w1.trace = w.trace ++ evs ∧ offers_rest fd buf evs = true :=
      fun w1 h => ⟨[Event.write fd buf (sys_write fd buf w).1], by rw [h, htr],
        by simp [offers_rest]⟩
    have hrec : ∀ z b,
        b = buf.drop (Event.write fd buf (sys_write fd buf w).1).progress →
        ∃ evs, (xwrite_loop fd fuel z b (sys_write fd buf w).2).world.trace = w.trace ++ evs ∧
          offers_rest fd buf evs = true := by
      intro z b hb
      obtain ⟨evs, h1, h2⟩ := ih z b (sys_write fd buf w).2
      refine ⟨Event.write fd buf (sys_write fd buf w).1 :: evs, ?_, ?_⟩
      · rw [h1, htr, List.append_assoc]; rfl
      · simp only [offers_rest, decide_True, Bool.true_and, ← hb, h2]
    rw [xwrite_loop_succ]
    by_cases h1 : (sys_write fd buf w).1 < 0
    · have hp : (Event.write fd buf (sys_write fd buf w).1).progress = 0 := by
        have : ¬ 0 < (sys_write fd buf w).1 := by omega
        simp [Event.progress, this]
      rw [if_pos h1]
      split_ifs
      · exact hrec _ _ (by rw [hp]; rfl)
      · exact hone _ rfl
      · exact hone _ rfl
    · rw [if_neg h1]
      by_cases h2 : (sys_write fd buf w).1 = 0
      · have hp : (Event.write fd buf (sys_write fd buf w).1).progress = 0 := by
          simp [Event.progress, h2]
        rw [if_pos h2]
        split_ifs
        · exact hone _ rfl
        · exact hrec _ _ (by rw [hp]; rfl)
        · exact hone _ rfl
      · have hp : (Event.write fd buf (sys_write fd buf w).1).progress =
            (sys_write fd buf w).1.toNat := by
          have : 0 < (sys_write fd buf w).1 := by omega
          simp [Event.progress, this]
        rw [if_neg h2]
        split_ifs
        all_goals first
          | exact hrec _ _ (by rw [hp])
          | exact hone _ rfl

theorem xwrite_offers (fd : Int) (buf : List Nat) (w : World) :
    ∃ evs, (xwrite fd buf w).world.trace = w.trace ++ evs ∧
      offers_rest fd buf evs = true := by
  unfold xwrite
  split_ifs
  · exact ⟨[], by simp [Run.world], rfl⟩
  · exact xwrite_loop_offers fd _ false buf w

/-- The events up to the end of the trailer write of `lz4writer_close`: the finalize call,
then attempts that each offer what is left of the trailer. -/
theorem trailer_events {σ : Type} (E : Engine σ) (zw : lz4writer σ) (w : World)
    (out : List Nat) (hend : (E.compressEnd zw.zctx zw.zbufSize).1 = ZRes.bytes out) :
    ∃ evs, (xwrite zw.fd out (LZ4F_compressEnd E zw.zctx zw.zbufSize w).2.2).world.trace =
        w.trace ++ Event.LZ4F_compressEnd (ZRes.bytes out) :: evs ∧
      offers_rest zw.fd out evs = true := by
  obtain ⟨evs, h1, h2⟩ := xwrite_offers zw.fd out (LZ4F_compressEnd E zw.zctx zw.zbufSize w).2.2
  refine ⟨evs, ?_, h2⟩
  rw [h1, compressEnd_world, hend]
  simp

/-- C20: the calls of `lz4writer_close`, path by path.  With a prior error it returns false
after the three release calls alone: no engine call, no write, no seek.  When
`LZ4F_compressEnd` fails it returns false after the finalize call and the two calls that
free the context and the session.  When the trailer write fails, or succeeds with no size
field requested, the only writes are the attempts of the trailer write, each offering what
is left of the trailer, followed by the three release calls alone; and when the trailer
write stops on an assertion so does the close, with nothing after.  Hence an `lseek` occurs
only when the session has no prior error, the size field was requested, the finalize call
returned a non-empty trailer and the trailer write returned true.  When then the seek fails
or the header patch fails, the seek is followed by the three release calls alone and no
header is written. -/
theorem close_order {σ : Type} (E : Engine σ) (zw : lz4writer σ) (w : World) :
    (zw.error = true →
      ∃ w', lz4writer_close E zw w = Run.done false w' ∧
        w'.trace =
          w.trace ++ [Event.close zw.fd, Event.LZ4F_freeCompressionContext, Event.free]) ∧
    (∀ c, zw.error = false → (E.compressEnd zw.zctx zw.zbufSize).1 = ZRes.error c →
      ∃ w', lz4writer_close E zw w = Run.done false w' ∧
        w'.trace = w.trace ++ [Event.LZ4F_compressEnd (ZRes.error c),
          Event.LZ4F_freeCompressionContext, Event.free]) ∧
    (∀ out b w2, zw.error = false →
      (E.compressEnd zw.zctx zw.zbufSize).1 = ZRes.bytes out →
      xwrite zw.fd out (LZ4F_compressEnd E zw.zctx zw.zbufSize w).2.2 = Run.done b w2 →
      (b = false ∨ zw.writeContentSize = false) →
      ∃ evs w', lz4writer_close E zw w = Run.done b w' ∧
        w2.trace = w.trace ++ Event.LZ4F_compressEnd (ZRes.bytes out) :: evs ∧
        w'.trace =
          w2.trace ++ [Event.close zw.fd, Event.LZ4F_freeCompressionContext, Event.free] ∧
        offers_rest zw.fd out evs = true ∧ (b = true → delivered evs = out)) ∧
    (∀ out why w2, zw.error = false →
      (E.compressEnd zw.zctx zw.zbufSize).1 = ZRes.bytes out →
      xwrite zw.fd out (LZ4F_compressEnd E zw.zctx zw.zbufSize w).2.2 = Run.abort why w2 →
      ∃ evs, lz4writer_close E zw w = Run.abort why w2 ∧
        w2.trace = w.trace ++ Event.LZ4F_compressEnd (ZRes.bytes out) :: evs ∧
        offers_rest zw.fd out evs = true) ∧
    ((∃ e ∈ (lz4writer_close E zw w).world.trace.drop w.trace.length, e.isSeek = true) →
      zw.error = false ∧ zw.writeContentSize = true ∧
      ∃ out w2, (E.compressEnd zw.zctx zw.zbufSize).1 = ZRes.bytes out ∧ out ≠ [] ∧
        xwrite zw.fd out (LZ4F_compressEnd E zw.zctx zw.zbufSize w).2.2 = Run.done true w2) ∧
    (∀ out w2, zw.error = false → zw.writeContentSize = true →
      (E.compressEnd zw.zctx zw.zbufSize).1 = ZRes.bytes out → out ≠ [] →
      xwrite zw.fd out (LZ4F_compressEnd E zw.zctx zw.zbufSize w).2.2 = Run.done true w2 →
      ((sys_lseek zw.fd zw.pos0 Whence.SEEK_SET w2).1 = -1 ∨
        (lz4fix zw.frameHeader zw.contentSize).1 = false) →
      ∃ evs w', lz4writer_close E zw w = Run.done false w' ∧
        w2.trace = w.trace ++ Event.LZ4F_compressEnd (ZRes.bytes out) :: evs ∧
        w'.trace = w2.trace ++
          [Event.lseek zw.fd zw.pos0 Whence.SEEK_SET
            (sys_lseek zw.fd zw.pos0 Whence.SEEK_SET w2).1,
           Event.close zw.fd, Event.LZ4F_freeCompressionContext, Event.free] ∧
        offers_rest zw.fd out evs = true ∧ delivered evs = out) := by
  have hW1 := compressEnd_world E zw.zctx zw.zbufSize w
  refine ⟨?_, ?_, ?_, ?_, ?_, ?_⟩
  · intro he
    rcases close_cases E zw w with ⟨_, hcl⟩ | ⟨he', _⟩ | ⟨he', _⟩
    · exact ⟨_, hcl, (justClose_world zw _).1⟩
    · rw [he] at he'; cases he'
    · rw [he] at he'; cases he'
  · intro c he hend
    rcases close_cases E zw w with ⟨he', _⟩ | ⟨_, c', hend', hcl⟩ | ⟨_, out, hend', _⟩
    · rw [he] at he'; cases he'
    · rw [hend] at hend'
      injection hend' with hcc
      subst hcc
      refine ⟨_, hcl, ?_⟩
      simp [sys_free, LZ4F_freeCompressionContext, ERRLZ4, hW1, hend]
    · rw [hend] at hend'; cases hend'
  · intro out b w2 he hend hx hb
    obtain ⟨evs, t1, t2⟩ := trailer_events E zw w out hend
    rw [hx] at t1
    simp only [Run.world] at t1
    have hne : out ≠ [] := by
      intro h0
      rw [h0] at hx
      simp [xwrite] at hx
    rcases close_cases E zw w with ⟨he', _⟩ | ⟨_, c, hend', _⟩ | ⟨_, out', hend', hrest⟩
    · rw [he] at he'; cases he'
    · rw [hend] at hend'; cases hend'
    · rw [hend] at hend'
      injection hend' with hoo
      subst hoo
      rcases hrest with ⟨ho', _⟩ | ⟨_, why, w2', hx', _⟩ | ⟨_, w2', hx', hcl⟩ |
        ⟨_, w2', hx', hrest⟩
      · exact absurd ho' hne
      · rw [hx] at hx'; cases hx'
      · rw [hx] at hx'
        injection hx' with hbb hww
        subst hbb
        subst hww
        refine ⟨evs, _, hcl, t1, ?_, t2, ?_⟩
        · rw [(justClose_world zw _).1]
          simp only [ERRNO]
        · intro h; cases h
      · rw [hx] at hx'
        injection hx' with hbb hww
        subst hbb
        subst hww
        have hs : zw.writeContentSize = false := by
          rcases hb with h | h
          · cases h
          · exact h
        rcases hrest with ⟨_, hcl⟩ | ⟨hs', _⟩ | ⟨hs', _⟩ | ⟨hs', _⟩
        · refine ⟨evs, _, hcl, t1, (justClose_world zw _).1, t2, ?_⟩
          intro _
          obtain ⟨_, evs2, x1, _, xd, _⟩ := xwrite_true zw.fd out _ _ hx
          rw [hW1, hend] at x1
          have hev : evs2 = evs := by
            have h := x1.symm.trans t1
            simp only [List.append_assoc, List.singleton_append] at h
            exact List.cons_injective (List.append_cancel_left h)
          rw [← hev]; exact xd
        · rw [hs] at hs'; cases hs'
        · rw [hs] at hs'; cases hs'
        · rw [hs] at hs'; cases hs'
  · intro out why w2 he hend hx
    obtain ⟨evs, t1, t2⟩ := trailer_events E zw w out hend
    rw [hx] at t1
    simp only [Run.world] at t1
    refine ⟨evs, ?_, t1, t2⟩
    rcases close_cases E zw w with ⟨he', _⟩ | ⟨_, c, hend', _⟩ | ⟨_, out', hend', hrest⟩
    · rw [he] at he'; cases he'
    · rw [hend] at hend'; cases hend'
    · rw [hend] at hend'
      injection hend' with hoo
      subst hoo
      rcases hrest with ⟨ho', hcl⟩ | ⟨_, why', w2', hx', hcl⟩ | ⟨_, w2', hx', _⟩ |
        ⟨_, w2', hx', _⟩
      · rw [ho'] at hx
        rw [hcl]
        simp only [xwrite, List.length_nil, if_true] at hx
        exact hx
      · rw [hx] at hx'
        rw [hcl, hx']
      · rw [hx] at hx'; cases hx'
      · rw [hx] at hx'; cases hx'
  · rintro ⟨e, hmem, hseek⟩
    have hcontra : ∀ l : List Event, (lz4writer_close E zw w).world.trace = w.trace ++ l →
        (∀ x ∈ l, x.isSeek = false) → False := by
      intro l hl hns
      rw [hl, List.drop_left] at hmem
      rw [hns e hmem] at hseek
      cases hseek
    rcases close_cases E zw w with ⟨_, hcl⟩ | ⟨_, c, hend, hcl⟩ | ⟨he, out, hend, hrest⟩
    · exfalso
      apply hcontra _ (by rw [hcl]; exact (justClose_world zw _).1)
      exact release_no_seek zw.fd
    · exfalso
      apply hcontra [Event.LZ4F_compressEnd (ZRes.error c), Event.LZ4F_freeCompressionContext,
        Event.free]
      · rw [hcl]
        simp [Run.world, sys_free, LZ4F_freeCompressionContext, ERRLZ4, hW1, hend]
      · intro x hx
        simp only [List.mem_cons, List.mem_singleton, List.not_mem_nil, or_false] at hx
        rcases hx with rfl | rfl | rfl <;> rfl
    · rw [hend] at hW1
      rcases hrest with ⟨_, hcl⟩ | ⟨_, why, w2, hx, hcl⟩ | ⟨_, w2, hx, hcl⟩ |
        ⟨ho, w2, hx, hrest⟩
      · exfalso
        apply hcontra [Event.LZ4F_compressEnd (ZRes.bytes out)]
        · rw [hcl, hW1]; rfl
        · intro x hx
          rw [List.mem_singleton.1 hx]; rfl
      · exfalso
        obtain ⟨xs, x1, x2, _⟩ :=
          xwrite_world zw.fd out (LZ4F_compressEnd E zw.zctx zw.zbufSize w).2.2
        rw [hx] at x1
        simp only [Run.world] at x1
        rw [hW1] at x1
        apply hcontra (Event.LZ4F_compressEnd (ZRes.bytes out) :: xs ++ [])
        · rw [hcl]; simp only [Run.world]; rw [x1]; simp
        · exact no_seek_end_writes _ xs [] x2 (by simp)
      · exfalso
        obtain ⟨xs, x1, x2, _⟩ :=
          xwrite_world zw.fd out (LZ4F_compressEnd E zw.zctx zw.zbufSize w).2.2
        rw [hx] at x1
        simp only [Run.world] at x1
        rw [hW1] at x1
        apply hcontra (Event.LZ4F_compressEnd (ZRes.bytes out) :: xs ++
          [Event.close zw.fd, Event.LZ4F_freeCompressionContext, Event.free])
        · rw [hcl]; simp only [Run.world]
          rw [(justClose_world zw _).1]
          simp only [ERRNO]
          rw [x1]; simp
        · exact no_seek_end_writes _ xs _ x2 (release_no_seek zw.fd)
      · rcases hrest with ⟨hs, hcl⟩ | ⟨hs, _⟩ | ⟨hs, _⟩ | ⟨hs, _⟩
        · exfalso
          obtain ⟨xs, x1, x2, _⟩ :=
            xwrite_world zw.fd out (LZ4F_compressEnd E zw.zctx zw.zbufSize w).2.2
          rw [hx] at x1
          simp only [Run.world] at x1
          rw [hW1] at x1
          apply hcontra (Event.LZ4F_compressEnd (ZRes.bytes out) :: xs ++
            [Event.close zw.fd, Event.LZ4F_freeCompressionContext, Event.free])
          · rw [hcl]; simp only [Run.world]
            rw [(justClose_world zw _).1, x1]; simp
          · exact no_seek_end_writes _ xs _ x2 (release_no_seek zw.fd)
        · exact ⟨he, hs, out, w2, hend, ho, hx⟩
        · exact ⟨he, hs, out, w2, hend, ho, hx⟩
        · exact ⟨he, hs, out, w2, hend, ho, hx⟩
  · intro out w2 he hs hend ho hx hfail
    obtain ⟨_, _, _, _, _, s6⟩ := sys_lseek_world zw.fd zw.pos0 Whence.SEEK_SET w2
    obtain ⟨_, evs, x1, _, xd, xo, _, _⟩ := xwrite_true zw.fd out _ w2 hx
    rw [hW1, hend] at x1
    have t1 : w2.trace = w.trace ++ Event.LZ4F_compressEnd (ZRes.bytes out) :: evs := by
      rw [x1]; simp
    rcases close_cases E zw w with ⟨he', _⟩ | ⟨_, c, hend', _⟩ | ⟨_, out', hend', hrest⟩
    · rw [he] at he'; cases he'
    · rw [hend] at hend'; cases hend'
    · rw [hend] at hend'
      injection hend' with hoo
      subst hoo
      rcases hrest with ⟨ho', _⟩ | ⟨_, why, w2', hx', _⟩ | ⟨_, w2', hx', _⟩ |
        ⟨_, w2', hx', hrest⟩
      · exact absurd ho' ho
      · rw [hx] at hx'; cases hx'
      · rw [hx] at hx'; cases hx'
      · rw [hx] at hx'
        injection hx' with _ hww
        subst hww
        rcases hrest with ⟨hs', _⟩ | ⟨_, hm1, hcl⟩ | ⟨_, hm1, hne, _⟩ | ⟨_, hm1, heq, hrest⟩
        · rw [hs] at hs'; cases hs'
        · refine ⟨evs, _, hcl, t1, ?_, xo, xd⟩
          rw [(justClose_world zw _).1]
          simp only [ERRNO]
          rw [s6]; simp
        · exfalso
          rcases sys_lseek_set zw.fd zw.pos0 w2 with ⟨h, _⟩ | ⟨h, _⟩
          · exact hm1 h
          · exact hne h
        · have hfix : (lz4fix zw.frameHeader zw.contentSize).1 = false := by
            rcases hfail with h | h
            · exact absurd h hm1
            · exact h
          rcases hrest with ⟨_, hcl⟩ | ⟨hf, _⟩ | ⟨hf, _⟩ | ⟨hf, _⟩
          · refine ⟨evs, _, hcl, t1, ?_, xo, xd⟩
            rw [(justClose_world zw _).1]
            simp only [ERRSTR]
            rw [s6]; simp
          · rw [hfix] at hf; cases hf
          · rw [hfix] at hf; cases hf
          · rw [hfix] at hf; cases hf

theorem close_order_witness :
    (∃ w', lz4writer_close (scriptedEngine [] (ZRes.bytes [0, 0, 0, 0]))
        { sampleSession [] 0 with error := true } World.bumpy = Run.done false w' ∧
      w'.trace = World.bumpy.trace ++
        [Event.close 1, Event.LZ4F_freeCompressionContext, Event.free]) ∧
    (∃ w', lz4writer_close (scriptedEngine [] (ZRes.error 1)) (sampleSession [] 0)
        World.bumpy = Run.done false w' ∧
      w'.trace = World.bumpy.trace ++ [Event.LZ4F_compressEnd (ZRes.error 1),
        Event.LZ4F_freeCompressionContext, Event.free]) ∧
    (∃ evs w', lz4writer_close (scriptedEngine [] (ZRes.bytes [0, 0, 0, 0]))
        (sampleSession [] 0) { World.quiet with script := [⟨2, 0⟩, ⟨-1, 5⟩] } =
          Run.done false w' ∧
      w'.trace = Event.LZ4F_compressEnd (ZRes.bytes [0, 0, 0, 0]) :: evs ++
        [Event.close 1, Event.LZ4F_freeCompressionContext, Event.free] ∧
      offers_rest 1 [0, 0, 0, 0] evs = true) := by
  refine ⟨(close_order (scriptedEngine [] (ZRes.bytes [0, 0, 0, 0]))
      { sampleSession [] 0 with error := true } World.bumpy).1 rfl,
    (close_order (scriptedEngine [] (ZRes.error 1)) (sampleSession [] 0)
      World.bumpy).2.1 1 rfl rfl, ?_⟩
  obtain ⟨evs, w', h1, h2, h3, h4, _⟩ :=
    (close_order (scriptedEngine [] (ZRes.bytes [0, 0, 0, 0])) (sampleSession [] 0)
      { World.quiet with script := [⟨2, 0⟩, ⟨-1, 5⟩] }).2.2.1 [0, 0, 0, 0] false
      (xwrite 1 [0, 0, 0, 0] (LZ4F_compressEnd (scriptedEngine [] (ZRes.bytes [0, 0, 0, 0]))
        [] 262163 { World.quiet with script := [⟨2, 0⟩, ⟨-1, 5⟩] }).2.2).world
      rfl rfl rfl (Or.inl rfl)
  refine ⟨evs, w', h1, ?_, h4⟩
  rw [h3, h2]
  simp [World.quiet, sampleSession]
/-! ## Interrupted attempts of `write` -/

theorem strip_cons_interrupted (r : WriteRes) (rest : List WriteRes)
    (h : r.interrupted = true) : strip_eintr (r :: rest) = strip_eintr rest := by
  simp [strip_eintr, List.filter_cons, h]

theorem strip_cons_other (r : WriteRes) (rest : List WriteRes)
    (h : ¬ r.interrupted = true) : strip_eintr (r :: rest) = r :: strip_eintr rest := by
  simp [strip_eintr, List.filter_cons, h]

theorem strip_length_le (s : List WriteRes) : (strip_eintr s).length ≤ s.length :=
  List.length_filter_le _ _

theorem alike_step (a b : Run Bool) (tw tv : List Event) (e1 e2 : Event)
    (hacc : e1.accepted = e2.accepted) (h : Run.alike a b (tw ++ [e1]) (tv ++ [e2])) :
    Run.alike a b tw tv := by
  obtain ⟨h1, h2, h3, ew, ev, h4, h5, h6⟩ := h
  refine ⟨h1, h2, h3, e1 :: ew, e2 :: ev, ?_, ?_, ?_⟩
  · rw [h4, List.append_assoc]; rfl
  · rw [h5, List.append_assoc]; rfl
  · simp only [delivered, hacc, h6]

theorem alike_skip (a b : Run Bool) (tw tv : List Event) (fd : Int) (buf : List Nat)
    (ret : Int) (hret : ret < 0)
    (h : Run.alike a b (tw ++ [Event.write fd buf ret]) tv) : Run.alike a b tw tv := by
  obtain ⟨h1, h2, h3, ew, ev, h4, h5, h6⟩ := h
  refine ⟨h1, h2, h3, Event.write fd buf ret :: ew, ev, ?_, h5, ?_⟩
  · rw [h4, List.append_assoc]; rfl
  · have : ¬ 0 < ret := by omega
    simp only [delivered, Event.accepted, this, if_false, List.nil_append, h6]

/-- One interrupted attempt: the loop goes round again with the same range and the same
zero flag, in a world whose file and offset are untouched. -/
theorem xwrite_loop_interrupted (fd : Int) (fuel : Nat) (zero : Bool) (buf : List Nat)
    (w : World) (ret : Int) (rest : List WriteRes) (hbuf : buf ≠ []) (hret : ret < 0)
    (hs : w.script = ⟨ret, EINTR⟩ :: rest) :
    xwrite_loop fd (fuel + 1) zero buf w =
      xwrite_loop fd fuel zero buf
        { w with script := rest, errno := EINTR,
                 trace := w.trace ++ [Event.write fd buf ret] } := by
  have hb : buf.length ≠ 0 := fun h => hbuf (List.length_eq_zero.1 h)
  rw [xwrite_loop_succ, sys_write_cons_neg fd buf w ⟨ret, EINTR⟩ rest hs hret]
  simp [hret, hb]

theorem xwrite_loop_strip (fd : Int) : ∀ (fuel1 fuel2 : Nat) (zero : Bool) (buf : List Nat)
    (w v : World), buf ≠ [] → v.script = strip_eintr w.script → w.file = v.file →
    w.pos = v.pos → w.script.length < fuel1 → v.script.length < fuel2 →
    Run.alike (xwrite_loop fd fuel1 zero buf w) (xwrite_loop fd fuel2 zero buf v)
      w.trace v.trace := by
  intro fuel1
  induction fuel1 with
  | zero => intro fuel2 zero buf w v _ _ _ _ h; omega
  | succ fuel1 ih =>
    intro fuel2 zero buf w v hbuf hs hf hp h1 h2
    have hb : buf.length ≠ 0 := fun h => hbuf (List.length_eq_zero.1 h)
    obtain ⟨f2, rfl⟩ : ∃ f2, fuel2 = f2 + 1 := ⟨fuel2 - 1, by omega⟩
    cases hw : w.script with
    | nil =>
      have hv : v.script = [] := by rw [hs, hw]; rfl
      rw [xwrite_loop_ideal fd fuel1 zero buf w hw hbuf,
        xwrite_loop_ideal fd f2 zero buf v hv hbuf]
      simp only [sys_write, hw, hv]
      exact ⟨rfl, by simp only [Run.world, hf, hp], by simp only [Run.world, hp],
        [Event.write fd buf buf.length], [Event.write fd buf buf.length], rfl, rfl, rfl⟩
    | cons r rest =>
      rw [hw] at h1 hs
      simp only [List.length_cons] at h1
      by_cases hi : r.interrupted = true
      · obtain ⟨ret, e⟩ := r
        simp only [WriteRes.interrupted, Bool.and_eq_true, decide_eq_true_eq] at hi
        obtain ⟨hret, he⟩ := hi
        subst he
        rw [xwrite_loop_interrupted fd fuel1 zero buf w ret rest hbuf hret hw]
        rw [strip_cons_interrupted _ _ (by simp [WriteRes.interrupted, hret])] at hs
        apply alike_skip _ _ _ _ fd buf ret hret
        exact ih (f2 + 1) zero buf _ v hbuf hs hf hp (by simp only; omega) h2
      · rw [strip_cons_other _ _ hi] at hs
        have hlen := strip_length_le rest
        rw [hs] at h2
        simp only [List.length_cons] at h2
        by_cases hneg : r.ret < 0
        · have he : ¬ r.errno = EINTR := by
            intro he
            apply hi
            simp [WriteRes.interrupted, hneg, he]
          rw [xwrite_loop_succ, xwrite_loop_succ,
            sys_write_cons_neg fd buf w r rest hw hneg,
            sys_write_cons_neg fd buf v r _ hs hneg]
          simp only [hneg, he, if_true, if_false]
          exact ⟨rfl, hf, hp, [Event.write fd buf r.ret], [Event.write fd buf r.ret],
            rfl, rfl, rfl⟩
        · have hnn : 0 ≤ r.ret := by omega
          rw [xwrite_loop_succ, xwrite_loop_succ,
            sys_write_cons_nonneg fd buf w r rest hw hnn,
            sys_write_cons_nonneg fd buf v r _ hs hnn]
          simp only [hneg, if_false]
          by_cases hz : r.ret = 0
          · rw [if_pos hz, if_pos hz]
            cases zero with
            | true =>
              simp only [if_true]
              exact ⟨rfl, by simp only [Run.world, hf, hp], by simp only [Run.world, hp],
                [Event.write fd buf r.ret], [Event.write fd buf r.ret], rfl, rfl, rfl⟩
            | false =>
              simp only [Bool.false_eq_true, if_false]
              rw [if_pos hb, if_pos hb]
              apply alike_step _ _ _ _ (Event.write fd buf r.ret) (Event.write fd buf r.ret) rfl
              exact ih f2 true buf _ _ hbuf rfl (by simp only [hf, hp]) (by simp only [hp])
                (by simp only; omega) (by simp only; omega)
          · rw [if_neg hz, if_neg hz]
            by_cases hle : r.ret ≤ buf.length
            · rw [if_neg (not_not.2 hle), if_neg (not_not.2 hle)]
              by_cases hd : (buf.drop r.ret.toNat).length ≠ 0
              · rw [if_pos hd, if_pos hd]
                apply alike_step _ _ _ _ (Event.write fd buf r.ret)
                  (Event.write fd buf r.ret) rfl
                exact ih f2 false _ _ _ (fun h => hd (by rw [h]; rfl)) rfl
                  (by simp only [hf, hp]) (by simp only [hp])
                  (by simp only; omega) (by simp only; omega)
              · rw [if_neg hd, if_neg hd]
                exact ⟨rfl, by simp only [Run.world, hf, hp], by simp only [Run.world, hp],
                  [Event.write fd buf r.ret], [Event.write fd buf r.ret], rfl, rfl, rfl⟩
            · rw [if_pos hle, if_pos hle]
              exact ⟨rfl, by simp only [Run.world, hf, hp], by simp only [Run.world, hp],
                [Event.write fd buf r.ret], [Event.write fd buf r.ret], rfl, rfl, rfl⟩

/-- C16: interrupted attempts are invisible to the caller of `xwrite`.  For two worlds whose
sequences of `write` results differ only by interrupted (`EINTR`) results, put in anywhere,
`xwrite` ends with the same outcome, the same file content and offset, and the same bytes
accepted by the channel; one interrupted attempt leaves the loop with the same range, the
same zero flag and an untouched file and offset; and the results 0, `EINTR`, 0 make
`xwrite` return false with `errno` set to `EAGAIN`. -/
theorem xwrite_eintr_invisible (fd : Int) (buf : List Nat) (w v : World) (hbuf : buf ≠ [])
    (hs : strip_eintr w.script = strip_eintr v.script) (hf : w.file = v.file)
    (hp : w.pos = v.pos) :
    ((xwrite fd buf w).outcome = (xwrite fd buf v).outcome ∧
      (xwrite fd buf w).world.file = (xwrite fd buf v).world.file ∧
      (xwrite fd buf w).world.pos = (xwrite fd buf v).world.pos ∧
      ∃ ew ev, (xwrite fd buf w).world.trace = w.trace ++ ew ∧
        (xwrite fd buf v).world.trace = v.trace ++ ev ∧ delivered ew = delivered ev) ∧
    (∀ (fuel : Nat) (zero : Bool) (ret : Int) (rest : List WriteRes), ret < 0 →
      w.script = ⟨ret, EINTR⟩ :: rest →
      xwrite_loop fd (fuel + 1) zero buf w =
        xwrite_loop fd fuel zero buf
          { w with script := rest, errno := EINTR,
                   trace := w.trace ++ [Event.write fd buf ret] }) ∧
    (∀ (e0 e2 : Nat) (ret : Int) (rest : List WriteRes), ret < 0 →
      w.script = ⟨0, e0⟩ :: ⟨ret, EINTR⟩ :: ⟨0, e2⟩ :: rest →
      ∃ w', xwrite fd buf w = Run.done false w' ∧ w'.errno = EAGAIN ∧
        w'.file = w.file ∧ w'.pos = w.pos) := by
  have hb : buf.length ≠ 0 := fun h => hbuf (List.length_eq_zero.1 h)
  refine ⟨?_, ?_, ?_⟩
  · have hx : ∀ u : World, strip_eintr u.script = strip_eintr w.script → u.file = w.file →
        u.pos = w.pos →
        Run.alike (xwrite fd buf u) (xwrite fd buf { w with script := strip_eintr w.script })
          u.trace w.trace := by
      intro u h1 h2 h3
      unfold xwrite
      rw [if_neg hb, if_neg hb]
      exact xwrite_loop_strip fd _ _ false buf u { w with script := strip_eintr w.script }
        hbuf h1.symm h2 h3 (Nat.lt_succ_self _) (Nat.lt_succ_self _)
    obtain ⟨a1, a2, a3, ew, ex, a4, a5, a6⟩ := hx w rfl rfl rfl
    obtain ⟨b1, b2, b3, ev, ey, b4, b5, b6⟩ := hx v hs.symm hf.symm hp.symm
    have hxy : ex = ey := by
      have := a5.symm.trans b5
      exact List.append_cancel_left this
    refine ⟨a1.trans b1.symm, a2.trans b2.symm, a3.trans b3.symm, ew, ev, a4, b4, ?_⟩
    rw [a6, b6, hxy]
  · intro fuel zero ret rest hret hw
    exact xwrite_loop_interrupted fd fuel zero buf w ret rest hbuf hret hw
  · intro e0 e2 ret rest hret hw
    unfold xwrite
    rw [if_neg hb, hw]
    simp only [List.length_cons]
    rw [xwrite_loop_succ, sys_write_zero fd buf w e0 _ hw]
    simp only [lt_self_iff_false, if_false, if_true, Bool.false_eq_true, hb, ne_eq,
      not_false_eq_true]
    rw [xwrite_loop_interrupted fd _ true buf _ ret (⟨0, e2⟩ :: rest) hbuf hret rfl]
    rw [xwrite_loop_succ, sys_write_zero fd buf _ e2 rest rfl]
    simp

theorem xwrite_eintr_invisible_witness :
    (xwrite 1 [1, 2, 3] { World.quiet with script := [⟨-1, EINTR⟩, ⟨2, 0⟩, ⟨-1, EINTR⟩] }).outcome =
      (xwrite 1 [1, 2, 3] { World.quiet with script := [⟨2, 0⟩] }).outcome :=
  (xwrite_eintr_invisible 1 [1, 2, 3]
    { World.quiet with script := [⟨-1, EINTR⟩, ⟨2, 0⟩, ⟨-1, EINTR⟩] }
    { World.quiet with script := [⟨2, 0⟩] } (by decide) (by decide) rfl rfl).1.1

end Lz4writer
